import Mathlib

/-!
AnswerTips: the result ledger, the file watcher and the image pipeline.

A shallow embedding of `src/services/ResultManager.js`,
`src/services/FileWatcherService.js`, `src/services/OCRService.js`,
`src/services/LLMService.js`, `ConfigManager.isImageFile`
(`src/utils/ConfigManager.js`) and `Application._handleImageDetected`
(`src/app.js`).

Conventions of the embedding

* a JavaScript `Date` is the number of milliseconds it holds (`Nat`);
* `null` / `undefined` is `none`; a string is falsy exactly when it is `""`;
* the clock (`Date.now()`, `new Date()`) and `Math.random()` are inputs, passed
  explicitly to the function that reads them;
* an object mutated in place (`Object.assign(result, updates)`) is the
  replacement of that element of the array;
* a Number that is not an integer count is a binary64 fraction `mant / 2 ^ scale`,
  and each arithmetic operation on it rounds to the nearest such fraction;
* `String.prototype.toLowerCase` is a function of the engine and is a parameter of
  the configuration.
-/

namespace AnswerTips

/-! ## JavaScript values used by the services -/

/-- An `Error` object as built by `ErrorHandler.createError`: its `message` and its
string `code` (absent on a plain `new Error(..)`). The `stack` and `originalError`
fields are never read by the modelled code and are left out. -/
structure JsError where
  message : String
  code : Option String
  deriving DecidableEq, Repr

/-- JavaScript truthiness of a string-or-null value: `null`, `undefined` and `""` are
falsy. -/
def truthy : Option String → Bool
  | none => false
  | some s => s != ""

/-- The expression `x || null` for a string-or-null `x`. -/
def orNull (x : Option String) : Option String :=
  if truthy x then x else none

/-- The expression `x || d` for a string-or-null `x` and a string default `d`. -/
def orDefault (x : Option String) (d : String) : String :=
  match x with
  | some s => if s != "" then s else d
  | none => d

/-! ## ResultManager -/

/-- The object literal `processResult` of `addResult`, with the `updatedAt` field
that `updateResult` adds. -/
structure ProcessResult where
  id : String
  timestamp : Nat
  imagePath : Option String
  ocrText : Option String
  llmResult : Option String
  status : String
  error : Option JsError
  updatedAt : Option Nat
  deriving DecidableEq, Repr

/-- The argument object of `addResult`; every property may be missing. -/
structure ResultInput where
  imagePath : Option String := none
  ocrText : Option String := none
  llmResult : Option String := none
  status : Option String := none
  error : Option JsError := none
  deriving DecidableEq, Repr

/-- The `updates` object of `updateResult`: for each property of a record, `none`
when the patch does not name it and `some v` when it assigns `v`. -/
structure Patch where
  id : Option String := none
  timestamp : Option Nat := none
  imagePath : Option (Option String) := none
  ocrText : Option (Option String) := none
  llmResult : Option (Option String) := none
  status : Option String := none
  error : Option (Option JsError) := none
  updatedAt : Option (Option Nat) := none
  deriving DecidableEq, Repr

/-- What one `addResult` call reads from its environment: `Date.now()` inside
`_generateId`, the nine base-36 digits cut from `Math.random()`, and `new Date()`. -/
structure AddEnv where
  idClock : Nat
  rnd : String
  clock : Nat
  deriving DecidableEq, Repr

/-- The state of a `ResultManager`: the array `this.results`. -/
structure ResultManager where
  results : List ProcessResult
  deriving DecidableEq, Repr

/-- The field `this.maxResults`, set to 1000 by the constructor and assigned nowhere
else. -/
def maxResults : Nat := 1000

/-- The constructor: `this.results = []`. -/
def ResultManager.new : ResultManager :=
  { results := [] }

/-- Source `_generateId`: `'result_' + Date.now() + '_' + Math.random().toString(36).substr(2, 9)`. -/
def _generateId (idClock : Nat) (rnd : String) : String :=
  "result_" ++ toString idClock ++ "_" ++ rnd

/-- The object literal built by `addResult` (lines 14-22). -/
def mkProcessResult (env : AddEnv) (result : ResultInput) : ProcessResult :=
  { id := _generateId env.idClock env.rnd
    timestamp := env.clock
    imagePath := result.imagePath
    ocrText := orNull result.ocrText
    llmResult := orNull result.llmResult
    status := orDefault result.status "processing"
    error := result.error
    updatedAt := none }

/-- Source `addResult(result)`: push, then `shift()` when the length exceeds `maxResults`.
A `null`/`undefined` argument makes `result.imagePath` throw, which the `catch`
turns into `return null` with the array untouched. -/
def addResult (rm : ResultManager) (env : AddEnv) (result : Option ResultInput) :
    Option ProcessResult × ResultManager :=
  match result with
  | none => (none, rm)
  | some result =>
    let processResult := mkProcessResult env result
    let pushed := rm.results ++ [processResult]
    let results := if pushed.length > maxResults then pushed.tail else pushed
    (some processResult, { results := results })

/-- JavaScript `Object.assign(result, updates)` on one record. -/
def assign (r : ProcessResult) (u : Patch) : ProcessResult :=
  { id := u.id.getD r.id
    timestamp := u.timestamp.getD r.timestamp
    imagePath := u.imagePath.getD r.imagePath
    ocrText := u.ocrText.getD r.ocrText
    llmResult := u.llmResult.getD r.llmResult
    status := u.status.getD r.status
    error := u.error.getD r.error
    updatedAt := u.updatedAt.getD r.updatedAt }

/-- Replace the first element satisfying `p` by its image under `f`: the effect on
the array of mutating the object that `Array.prototype.find` returned. -/
def modifyFirst (p : ProcessResult → Bool) (f : ProcessResult → ProcessResult) :
    List ProcessResult → List ProcessResult
  | [] => []
  | r :: rs => if p r then f r :: rs else r :: modifyFirst p f rs

/-- The mutation of `updateResult` lines 55-56 on the found record; a
`null`/`undefined` patch assigns nothing. -/
def applyUpdate (updates : Option Patch) (now : Nat) (r : ProcessResult) : ProcessResult :=
  { (match updates with
      | some u => assign r u
      | none => r) with updatedAt := some now }

/-- Source `updateResult(id, updates)`; `now` is the `new Date()` of line 56. With a
`null`/`undefined` patch, `Object.keys(updates)` throws after the record was
stamped, and the `catch` returns `null`. -/
def updateResult (rm : ResultManager) (id : String) (updates : Option Patch) (now : Nat) :
    Option ProcessResult × ResultManager :=
  match rm.results.find? (fun r => r.id == id) with
  | none => (none, rm)
  | some result =>
    let updated := applyUpdate updates now result
    let rm' : ResultManager :=
      { results := modifyFirst (fun r => r.id == id) (applyUpdate updates now) rm.results }
    match updates with
    | some _ => (some updated, rm')
    | none => (none, rm')

/-- Source `getResult(id)`. -/
def getResult (rm : ResultManager) (id : String) : Option ProcessResult :=
  rm.results.find? (fun r => r.id == id)

/-- The `olderThan` argument of `clearResults`, when given: a `Date` object or a
number of milliseconds (`new Date(olderThan)` holds the same instant for both). -/
inductive Cutoff where
  | date (ms : Nat)
  | number (ms : Nat)
  deriving DecidableEq, Repr

/-- The instant held by `new Date(olderThan)`. -/
def Cutoff.ms : Cutoff → Nat
  | .date n => n
  | .number n => n

/-- The test `if (olderThan)`: an object is truthy, the number `0` is not. -/
def Cutoff.truthy : Cutoff → Bool
  | .date _ => true
  | .number n => n != 0

/-- Source `clearResults(olderThan = null)`: the number of records removed and the new
state. -/
def clearResults (rm : ResultManager) (olderThan : Option Cutoff) : Nat × ResultManager :=
  let beforeCount := rm.results.length
  let results :=
    match olderThan with
    | some c =>
      if c.truthy then rm.results.filter (fun r => decide (r.timestamp ≥ c.ms)) else []
    | none => []
  let afterCount := results.length
  (beforeCount - afterCount, { results := results })

/-- One call on a `ResultManager`, with what the call reads from its environment. -/
inductive LedgerOp where
  | add (env : AddEnv) (result : Option ResultInput)
  | update (id : String) (updates : Option Patch) (now : Nat)
  | clear (olderThan : Option Cutoff)
  deriving DecidableEq, Repr

/-- The state after one call. -/
def LedgerOp.run (rm : ResultManager) : LedgerOp → ResultManager
  | .add env result => (addResult rm env result).2
  | .update id updates now => (updateResult rm id updates now).2
  | .clear olderThan => (clearResults rm olderThan).2

/-- The state after a sequence of calls, first to last. -/
def runOps (rm : ResultManager) (ops : List LedgerOp) : ResultManager :=
  ops.foldl LedgerOp.run rm


/-- The ledger of `n` records stamped 0, 1, .. in insertion order, all with the id `r`
(used to instantiate the ledger theorems). -/
def fullLedger (n : Nat) : List ProcessResult :=
  (List.range n).map (fun i =>
    { id := "r", timestamp := i, imagePath := none, ocrText := none, llmResult := none,
      status := "processing", error := none, updatedAt := none })

/-! ## OCRService.recognizeText and LLMService.processText -/

/-- How an awaited HTTP call (`axios.post`) settles: with a response whose `data` is
the parsed body, or by throwing. -/
inductive Http (β : Type) where
  | response (data : β)
  | failure (error : JsError)
  deriving DecidableEq, Repr

/-- The inner object `response.data.data` of an OCR response. -/
structure OcrData where
  text : Option String
  deriving DecidableEq, Repr

/-- The body `response.data` of an OCR response. -/
structure OcrBody where
  data : Option OcrData
  deriving DecidableEq, Repr

/-- The object `response.data.data.outputs` of an LLM response. -/
structure LlmOutputs where
  text : Option String
  deriving DecidableEq, Repr

/-- The inner object `response.data.data` of an LLM response. -/
structure LlmData where
  outputs : Option LlmOutputs
  deriving DecidableEq, Repr

/-- The body `response.data` of an LLM response. -/
structure LlmBody where
  data : Option LlmData
  deriving DecidableEq, Repr

/-- JavaScript `String.prototype.includes` on lists of characters. -/
def includesChars (sub : List Char) : List Char → Bool
  | [] => sub.isEmpty
  | c :: cs => sub.isPrefixOf (c :: cs) || includesChars sub cs

/-- JavaScript `s.includes(sub)`. -/
def includes (s sub : String) : Bool :=
  includesChars sub.data s.data

deriving instance DecidableEq for Except

/-- The test `error.code && error.code.includes('ERROR')` of both `catch` blocks. -/
def isCustomError (error : JsError) : Bool :=
  match error.code with
  | some code => code != "" && includes code "ERROR"
  | none => false

/-- Source `ErrorHandler.createError(message, code, originalError)`. -/
def createError (message : String) (code : String) : JsError :=
  { message := message, code := some code }

/-- Source `ErrorHandler.createServiceError`. -/
def createServiceError (message : String) : JsError :=
  createError message "SERVICE_ERROR"

/-- Source `ErrorHandler.createFileError`. -/
def createFileError (message : String) : JsError :=
  createError message "FILE_ERROR"

/-- The value `response.data.data.text` reached through the guard
`response.data && response.data.data && response.data.data.text`; `none` when a link of
the chain is missing. -/
def ocrResponseText (data : Option OcrBody) : Option String :=
  match data with
  | some body =>
    match body.data with
    | some inner => inner.text
    | none => none
  | none => none

/-- Source `OCRService.recognizeText(imagePath)`: `pathExists` is what `fs.pathExists`
answers and `reply` how the `axios.post` settles. `Except.error e` is a rejection
with `e`, `Except.ok none` the returned `null`. -/
def recognizeText (imagePath : String) (pathExists : Bool) (reply : Http (Option OcrBody)) :
    Except JsError (Option String) :=
  let thrown : Except JsError (Option String) :=
    if !pathExists then
      .error (createFileError ("图片文件不存在: " ++ imagePath))
    else
      match reply with
      | .failure error => .error error
      | .response data =>
        if truthy (ocrResponseText data) then .ok (ocrResponseText data) else .ok none
  match thrown with
  | .ok v => .ok v
  | .error error =>
    if isCustomError error then .error error
    else .error (createServiceError ("OCR识别失败: " ++ error.message))

/-- The white space and line terminator characters removed by `String.prototype.trim`. -/
def isJsWhiteSpace (c : Char) : Bool :=
  let n := c.toNat
  n == 0x09 || n == 0x0A || n == 0x0B || n == 0x0C || n == 0x0D || n == 0x20 ||
  n == 0xA0 || n == 0x1680 || (0x2000 ≤ n && n ≤ 0x200A) || n == 0x2028 || n == 0x2029 ||
  n == 0x202F || n == 0x205F || n == 0x3000 || n == 0xFEFF

/-- The test `ocrText.trim().length === 0`. -/
def trimIsEmpty (s : String) : Bool :=
  s.data.all isJsWhiteSpace

/-- The value `response.data.data.outputs.text` reached through the guard
`response.data && response.data.data && response.data.data.outputs`; `none` when a link
of the chain is missing. -/
def llmResponseText (data : Option LlmBody) : Option String :=
  match data with
  | some body =>
    match body.data with
    | some inner =>
      match inner.outputs with
      | some outputs => outputs.text
      | none => none
    | none => none
  | none => none

/-- Source `LLMService.processText(ocrText)`; `reply` is how the `axios.post` settles when
the call is made. -/
def processText (ocrText : Option String) (reply : Http (Option LlmBody)) :
    Except JsError (Option String) :=
  let thrown : Except JsError (Option String) :=
    if !truthy ocrText || trimIsEmpty (ocrText.getD "") then .ok none
    else
      match reply with
      | .failure error => .error error
      | .response data =>
        if truthy (llmResponseText data) then .ok (llmResponseText data) else .ok none
  match thrown with
  | .ok v => .ok v
  | .error error =>
    if isCustomError error then .error error
    else .error (createServiceError ("大模型处理失败: " ++ error.message))

/-! ## Application._handleImageDetected -/

/-- The payload of the `imageDetected` event. -/
structure ImageDetected where
  filePath : String
  fileName : String
  timestamp : Nat
  deriving DecidableEq, Repr

/-- A call of the notification service made by the pipeline. -/
inductive Notification where
  | showResult (result : Option ProcessResult)
  | showError (error : JsError) (context : String)
  deriving DecidableEq, Repr

/-- The part of the `Application` that the pipeline acts on: its `ResultManager`,
and the calls made so far to `notificationService` and to `llmService.processText`
(with the text passed). -/
structure Application where
  resultManager : ResultManager
  notifications : List Notification
  llmCalls : List String
  deriving DecidableEq, Repr

/-- An application whose services were just initialised. -/
def Application.new : Application :=
  { resultManager := ResultManager.new, notifications := [], llmCalls := [] }

/-- The `TypeError` thrown by `printResultSummary(null)`. -/
def nullRecordError : JsError :=
  { message := "Cannot read properties of null (reading 'id')", code := none }

/-- Source `_handleImageDetected` from its entry to the call of `recognizeText` (lines
205-220): the record is created. The second component is the created record, or `none`
when the run ended in the outer `catch`. -/
def detectedStart (app : Application) (data : ImageDetected) (env : AddEnv) :
    Application × Option ProcessResult :=
  match addResult app.resultManager env
      (some { imagePath := some data.filePath, status := some "processing" }) with
  | (some result, rm) => ({ app with resultManager := rm }, some result)
  | (none, rm) =>
    ({ app with
        resultManager := rm
        notifications := app.notifications ++
          [.showError { message := "无法创建处理结果记录", code := none } data.fileName] }, none)

/-- Source `_handleImageDetected` from the settlement of `recognizeText` to the call of
`processText` (lines 220-237). `t1` and `t2` are the clock readings of the two
`updateResult` calls. The second component is the text passed to `processText`, or
`none` when the run ended here. -/
def afterOcr (app : Application) (id : String) (data : ImageDetected)
    (ocr : Except JsError (Option String)) (t1 t2 : Nat) : Application × Option String :=
  match ocr with
  | .error error =>
    ({ app with notifications := app.notifications ++ [.showError error data.fileName] }, none)
  | .ok ocrText =>
    let rm1 := (updateResult app.resultManager id
      (some { ocrText := some ocrText
              status := some (if truthy ocrText then "ocr_completed" else "ocr_failed") }) t1).2
    if !truthy ocrText then
      ({ app with resultManager :=
          (updateResult rm1 id (some { status := some "completed" }) t2).2 }, none)
    else
      ({ app with resultManager := rm1, llmCalls := app.llmCalls ++ [ocrText.getD ""] },
        some (ocrText.getD ""))

/-- Source `_handleImageDetected` from the settlement of `processText` to its end (lines
237-264); `t` is the clock reading of the `updateResult` call. When `getResult` finds
no record, `printResultSummary(null)` throws inside the inner `try` and the inner
`catch` runs. -/
def afterLlm (app : Application) (id : String) (data : ImageDetected)
    (llm : Except JsError (Option String)) (t : Nat) : Application :=
  match llm with
  | .ok llmResult =>
    let rm1 := (updateResult app.resultManager id
      (some { llmResult := some llmResult, status := some "completed" }) t).2
    let finalResult := getResult rm1 id
    match finalResult with
    | some _ =>
      { app with resultManager := rm1
                 notifications := app.notifications ++ [.showResult finalResult] }
    | none =>
      { app with
          resultManager := (updateResult rm1 id
            (some { status := some "failed", error := some (some nullRecordError) }) t).2
          notifications := app.notifications ++
            [.showResult finalResult, .showError nullRecordError data.fileName] }
  | .error llmError =>
    { app with
        resultManager := (updateResult app.resultManager id
          (some { status := some "failed", error := some (some llmError) }) t).2
        notifications := app.notifications ++ [.showError llmError data.fileName] }

/-- What one run of the pipeline reads from its environment: the readings of
`addResult`, and the clock at the first and at the second `updateResult`. -/
structure PipelineEnv where
  add : AddEnv
  t1 : Nat
  t2 : Nat
  deriving DecidableEq, Repr

/-- How the two remote services answer during one run. -/
structure ServiceReplies where
  pathExists : Bool
  ocr : Http (Option OcrBody)
  llm : Http (Option LlmBody)
  deriving DecidableEq, Repr

/-- Source `_handleImageDetected(data)` run from entry to return, each awaited call settling as
`io` says. -/
def _handleImageDetected (app : Application) (data : ImageDetected) (env : PipelineEnv)
    (io : ServiceReplies) : Application :=
  match detectedStart app data env.add with
  | (app1, none) => app1
  | (app1, some result) =>
    match afterOcr app1 result.id data (recognizeText data.filePath io.pathExists io.ocr)
        env.t1 env.t2 with
    | (app2, none) => app2
    | (app2, some ocrText) =>
      afterLlm app2 result.id data (processText (some ocrText) io.llm) env.t2

/-! ## ConfigManager.isImageFile -/

/-- The loop state of Node's `path.posix.extname`. -/
structure ExtScan where
  startDot : Option Nat := none
  startPart : Nat := 0
  endIdx : Option Nat := none
  matchedSlash : Bool := true
  preDotState : Int := 0
  done : Bool := false
  deriving DecidableEq, Repr

/-- One iteration of the backward loop of `extname`, at index `i` holding `c`. -/
def ExtScan.step (st : ExtScan) (ic : Nat × Char) : ExtScan :=
  if st.done then st
  else if ic.2 = '/' then
    if !st.matchedSlash then { st with startPart := ic.1 + 1, done := true } else st
  else
    let st1 := if st.endIdx = none then { st with matchedSlash := false, endIdx := some (ic.1 + 1) }
               else st
    if ic.2 = '.' then
      if st1.startDot = none then { st1 with startDot := some ic.1 }
      else if st1.preDotState ≠ 1 then { st1 with preDotState := 1 }
      else st1
    else if st1.startDot ≠ none then { st1 with preDotState := -1 }
    else st1

/-- Node's `path.extname(path)` (POSIX flavour): the text from the last `.` of the last
path segment to its end, or `""` when that segment has no `.` or only a leading one. -/
def extname (path : String) : String :=
  let st := (path.data.enum.reverse).foldl ExtScan.step {}
  match st.startDot, st.endIdx with
  | some startDot, some endIdx =>
    if st.preDotState = 0 ||
        (st.preDotState = 1 && startDot = endIdx - 1 && startDot = st.startPart + 1) then ""
    else String.mk ((path.data.drop startDot).take (endIdx - startDot))
  | _, _ => ""

/-- JavaScript `String.prototype.toLowerCase` on a string of ASCII characters: the letters
A-Z become a-z and every other character is kept. On other strings the engine applies the
Unicode lower-case mapping, which this function does not compute. -/
def asciiToLowerCase (s : String) : String :=
  String.mk (s.data.map Char.toLower)

/-- Node's `path.basename(path)` (POSIX flavour): the last path segment, trailing
slashes ignored. -/
def basename (path : String) : String :=
  String.mk (((path.data.reverse.dropWhile (· = '/')).takeWhile (· ≠ '/')).reverse)

/-- The configuration read by the watcher, together with the one function of the
JavaScript engine that `isImageFile` calls on the extension: `toLowerCase` stands for
`String.prototype.toLowerCase` (the Unicode lower-case mapping), taken as a parameter. -/
structure ConfigManager where
  supportedImageExtensions : List String
  toLowerCase : String → String

/-- The `defaultConfig` value of `supportedImageExtensions`, with the lower-casing of ASCII
text; the examples evaluated under this configuration are ASCII paths. -/
def ConfigManager.default : ConfigManager :=
  { supportedImageExtensions := [".jpg", ".jpeg", ".png", ".gif", ".bmp", ".webp"]
    toLowerCase := asciiToLowerCase }

/-- Source `ConfigManager.isImageFile(filePath)`:
`const ext = path.extname(filePath).toLowerCase();`
`return this.get("supportedImageExtensions").includes(ext);` -/
def isImageFile (config : ConfigManager) (filePath : String) : Bool :=
  let ext := config.toLowerCase (extname filePath)
  config.supportedImageExtensions.contains ext

/-- The loop of `extname` run on the reversed text: the character in front of `r` has
index `r.length` in the path. -/
def scanRev : List Char → ExtScan → ExtScan
  | [], st => st
  | c :: r, st => scanRev r (st.step (r.length, c))

/-- The extension of a path, in words. Its last portion is what `basename` gives: the
trailing slashes are dropped, and the portion is the text behind the last slash that
remains. The extension runs from the last `.` of the portion to the end of the portion; it
is empty when the portion has no `.`, when that last `.` is the first character of the
portion, and when the portion is `..`. -/
def extensionOf (path : String) : String :=
  let portion := (basename path).data
  let afterDot := (portion.reverse.takeWhile (· ≠ '.')).reverse
  let beforeDot := (portion.reverse.dropWhile (· ≠ '.')).tail.reverse
  if portion.contains '.' && beforeDot ≠ [] && portion ≠ ['.', '.'] then
    String.mk ('.' :: afterDot)
  else ""

/-! ## FileWatcherService and the event loop -/

/-- The mutable fields of `FileWatcherService`; the `Set` `watchedFiles` is the list of
its members in insertion order. -/
structure FileWatcherService where
  isRunning : Bool
  watchedFiles : List String
  deriving DecidableEq, Repr

/-- JavaScript `Set.prototype.add`. -/
def setAdd (s : List String) (x : String) : List String :=
  if s.contains x then s else s ++ [x]

/-- JavaScript `Set.prototype.delete`. -/
def setDelete (s : List String) (x : String) : List String :=
  s.filter (fun y => y != x)

/-- An event emitted by the watcher through `this.emit`. -/
inductive Emitted where
  | ready
  | stopped
  | imageDetected (data : ImageDetected)
  | fileError (filePath : String) (error : JsError)
  | fileRemoved (filePath : String)
  deriving DecidableEq, Repr

/-- An `async` function suspended at an `await`.
* `stabilityWait`: `_handleFileAdded` inside `await this._waitForFileStable(filePath)`;
* `accessCheck`: `_processImageFile` inside `await fs.access(..)`, called from
  `_handleFileAdded` (`admitted = true`) or from `processFile` (`admitted = false`);
* `ocr`: `_handleImageDetected` inside `await this.ocrService.recognizeText(filePath)`;
* `llm`: `_handleImageDetected` inside `await this.llmService.processText(ocrText)`. -/
inductive Pending where
  | stabilityWait (filePath : String)
  | accessCheck (filePath : String) (admitted : Bool)
  | ocr (id : String) (data : ImageDetected)
  | llm (id : String) (data : ImageDetected) (ocrText : String)
  deriving DecidableEq, Repr

/-- How the awaited operation of a suspended function settles, with the readings the
continuation takes from the clock and the random source.
* `stability error`: `_waitForFileStable` returned (`none`: stable or timed out) or
  threw `error`;
* `access error clock env`: `fs.access` succeeded (`none`) or threw `error`;
* `ocr pathExists reply t1 t2`, `llm reply t`: the answers read by `recognizeText` and
  `processText`. -/
inductive Settled where
  | stability (error : Option JsError)
  | access (error : Option JsError) (clock : Nat) (env : AddEnv)
  | ocr (pathExists : Bool) (reply : Http (Option OcrBody)) (t1 t2 : Nat)
  | llm (reply : Http (Option LlmBody)) (t : Nat)
  deriving DecidableEq, Repr

/-- The running program between two turns of the event loop: the application, the
watcher, the suspended functions (oldest first) and the events emitted so far. -/
structure World where
  app : Application
  watcher : FileWatcherService
  pending : List Pending
  emitted : List Emitted
  deriving DecidableEq, Repr

/-- The program after `_initializeServices` and `_setupEventListeners`. -/
def World.new : World :=
  { app := Application.new, watcher := { isRunning := false, watchedFiles := [] },
    pending := [], emitted := [] }

/-- Source `_handleFileAdded(filePath)` up to its first suspension. Both early `return`s are
inside the `try`, so the `finally` block (`watchedFiles.delete(filePath)`) runs for
them too. -/
def _handleFileAdded (config : ConfigManager) (w : World) (filePath : String) : World :=
  if !isImageFile config filePath then
    { w with watcher := { w.watcher with watchedFiles := setDelete w.watcher.watchedFiles filePath } }
  else if w.watcher.watchedFiles.contains filePath then
    { w with watcher := { w.watcher with watchedFiles := setDelete w.watcher.watchedFiles filePath } }
  else
    { w with
        watcher := { w.watcher with watchedFiles := setAdd w.watcher.watchedFiles filePath }
        pending := w.pending ++ [.stabilityWait filePath] }

/-- Source `_handleFileRemoved(filePath)`. -/
def _handleFileRemoved (config : ConfigManager) (w : World) (filePath : String) : World :=
  if isImageFile config filePath then
    { w with
        watcher := { w.watcher with watchedFiles := setDelete w.watcher.watchedFiles filePath }
        emitted := w.emitted ++ [.fileRemoved filePath] }
  else w

/-- Source `stopWatching()`. -/
def stopWatching (w : World) : World :=
  { w with watcher := { isRunning := false, watchedFiles := [] }
           emitted := w.emitted ++ [.stopped] }

/-- Source `processFile(filePath)` up to its first suspension. -/
def processFile (config : ConfigManager) (w : World) (filePath : String) : World :=
  if isImageFile config filePath then
    { w with pending := w.pending ++ [.accessCheck filePath false] }
  else w

/-- The `finally` block of `_handleFileAdded`, run when the handler was entered through
`_handleFileAdded` (`admitted`). -/
def release (w : World) (filePath : String) (admitted : Bool) : World :=
  if admitted then
    { w with watcher := { w.watcher with watchedFiles := setDelete w.watcher.watchedFiles filePath } }
  else w

/-- The continuation of `_handleFileAdded` when `_waitForFileStable` settles: on a
return `_processImageFile` starts and suspends in `fs.access`; on a throw the `catch`
emits `fileError` and the `finally` releases the path. -/
def afterStability (w : World) (filePath : String) (error : Option JsError) : World :=
  match error with
  | none => { w with pending := w.pending ++ [.accessCheck filePath true] }
  | some e => release { w with emitted := w.emitted ++ [.fileError filePath e] } filePath true

/-- The continuation of `_processImageFile` when `fs.access` settles. On success
`imageDetected` is emitted: `emit` runs the listener of `_setupEventListeners`, that is
`_handleImageDetected` up to its first `await`, and returns; the caller then finishes.
`ENOENT` is swallowed, any other error is rethrown to the caller. -/
def afterAccess (w : World) (filePath : String) (admitted : Bool) (error : Option JsError)
    (clock : Nat) (env : AddEnv) : World :=
  match error with
  | none =>
    let data : ImageDetected :=
      { filePath := filePath, fileName := basename filePath, timestamp := clock }
    let w1 : World := { w with emitted := w.emitted ++ [.imageDetected data] }
    let w2 : World :=
      match detectedStart w1.app data env with
      | (app, some result) => { w1 with app := app, pending := w1.pending ++ [.ocr result.id data] }
      | (app, none) => { w1 with app := app }
    release w2 filePath admitted
  | some e =>
    if e.code = some "ENOENT" then release w filePath admitted
    else if admitted then
      release { w with emitted := w.emitted ++ [.fileError filePath e] } filePath true
    else w

/-- The continuation of `_handleImageDetected` when `recognizeText` settles. -/
def afterOcrSettled (w : World) (id : String) (data : ImageDetected) (pathExists : Bool)
    (reply : Http (Option OcrBody)) (t1 t2 : Nat) : World :=
  match afterOcr w.app id data (recognizeText data.filePath pathExists reply) t1 t2 with
  | (app, some ocrText) => { w with app := app, pending := w.pending ++ [.llm id data ocrText] }
  | (app, none) => { w with app := app }

/-- The continuation of `_handleImageDetected` when `processText` settles. -/
def afterLlmSettled (w : World) (id : String) (data : ImageDetected) (ocrText : String)
    (reply : Http (Option LlmBody)) (t : Nat) : World :=
  { w with app := afterLlm w.app id data (processText (some ocrText) reply) t }

/-- What the event loop can run next: a file system notification delivered by the
subscription, a call of `stopWatching` or `processFile`, or the continuation of the
`i`-th suspended function. -/
inductive Event where
  | ready
  | add (filePath : String)
  | change (filePath : String)
  | unlink (filePath : String)
  | stopWatching
  | processFile (filePath : String)
  | settle (i : Nat) (s : Settled)
  deriving DecidableEq, Repr

/-- Run the continuation of the `i`-th suspended function, when `s` is a settlement of
the operation it awaits (nothing happens otherwise). -/
def settle (w : World) (i : Nat) (s : Settled) : World :=
  let rest : World := { w with pending := w.pending.eraseIdx i }
  match w.pending[i]?, s with
  | some (.stabilityWait filePath), .stability error => afterStability rest filePath error
  | some (.accessCheck filePath admitted), .access error clock env =>
    afterAccess rest filePath admitted error clock env
  | some (.ocr id data), .ocr pathExists reply t1 t2 =>
    afterOcrSettled rest id data pathExists reply t1 t2
  | some (.llm id data ocrText), .llm reply t => afterLlmSettled rest id data ocrText reply t
  | _, _ => w

/-- One turn of the event loop. -/
def step (config : ConfigManager) (w : World) : Event → World
  | .ready => { w with watcher := { w.watcher with isRunning := true }
                       emitted := w.emitted ++ [.ready] }
  | .add filePath => _handleFileAdded config w filePath
  | .change _ => w
  | .unlink filePath => _handleFileRemoved config w filePath
  | .stopWatching => stopWatching w
  | .processFile filePath => processFile config w filePath
  | .settle i s => settle w i s

/-- The program after the turns `es`, first to last. -/
def run (config : ConfigManager) (w : World) (es : List Event) : World :=
  es.foldl (step config) w

/-! ## Observations on one run of the pipeline -/

/-- The records of the ledger that `addResult` keeps in front of the new one: all of
them below capacity, all but the first at capacity (the `shift()` of line 28). -/
def keptRecords (rm : ResultManager) : List ProcessResult :=
  if rm.results.length < maxResults then rm.results else rm.results.tail

/-- The record that `_handleImageDetected` creates (lines 209-212). -/
def createdRecord (data : ImageDetected) (env : AddEnv) : ProcessResult :=
  mkProcessResult env { imagePath := some data.filePath, status := some "processing" }

/-- The path of the file that a suspended function is working on. -/
def Pending.filePath : Pending → String
  | .stabilityWait filePath => filePath
  | .accessCheck filePath _ => filePath
  | .ocr _ data => data.filePath
  | .llm _ data _ => data.filePath

/-- Every suspended function, every `imageDetected` event emitted so far and every stored
record is about a path that `isImageFile` accepts. -/
def ImagesOnly (config : ConfigManager) (w : World) : Prop :=
  (∀ t ∈ w.pending, isImageFile config t.filePath = true) ∧
  (∀ d, Emitted.imageDetected d ∈ w.emitted → isImageFile config d.filePath = true) ∧
  (∀ r ∈ w.app.resultManager.results, ∃ p, r.imagePath = some p ∧ isImageFile config p = true)

/-! ## FileWatcherService._waitForFileStable -/

/-- What `await fs.stat(filePath)` gives at one poll: the size of the file, or the error
thrown. -/
inductive Stat where
  | size (bytes : Nat)
  | error (error : JsError)
  deriving DecidableEq, Repr

/-- One turn of the `while` loop as the environment answers it: `elapsed` is the value of
`Date.now() - startTime` read by the loop test, `stat` what `fs.stat` answers when the
body runs. -/
structure Poll where
  elapsed : Nat
  stat : Stat
  deriving DecidableEq, Repr

/-- How the loop of `_waitForFileStable` ends, with the number of `setTimeout(.., 500)`
waits completed and the last reading of the elapsed time.
* `stable`: the `break` of line 201;
* `timedOut`: the loop test failed;
* `threw`: the `catch` of line 209 threw;
* `polling`: the environment has answered no further poll yet, the loop is still running
  with these values of `lastSize` and `stableCount`. -/
inductive WaitResult where
  | stable (lastSize sleeps elapsed : Nat)
  | timedOut (lastSize sleeps elapsed : Nat)
  | threw (error : JsError) (sleeps elapsed : Nat)
  | polling (lastSize stableCount sleeps : Nat)
  deriving DecidableEq, Repr

/-- The error thrown when a poll finds that the file is gone (line 211). -/
def vanishedError : JsError :=
  { message := "文件在等待过程中被删除", code := none }

/-- The `while` loop of `_waitForFileStable` (lines 194-215), from the loop state
`lastSize`, `stableCount` and the number of waits completed. -/
def waitLoop (maxWait : Nat) (lastSize stableCount sleeps : Nat) : List Poll → WaitResult
  | [] => .polling lastSize stableCount sleeps
  | poll :: rest =>
    if poll.elapsed < maxWait then
      match poll.stat with
      | .size bytes =>
        if bytes = lastSize then
          if stableCount + 1 ≥ 3 then .stable lastSize sleeps poll.elapsed
          else waitLoop maxWait lastSize (stableCount + 1) (sleeps + 1) rest
        else waitLoop maxWait bytes 0 (sleeps + 1) rest
      | .error error =>
        if error.code = some "ENOENT" then .threw vanishedError sleeps poll.elapsed
        else .threw error sleeps poll.elapsed
    else .timedOut lastSize sleeps poll.elapsed

/-- Source `_waitForFileStable(filePath, maxWait)`: `lastSize = 0`, `stableCount = 0`. -/
def _waitForFileStable (polls : List Poll) (maxWait : Nat := 5000) : WaitResult :=
  waitLoop maxWait 0 0 0 polls

/-- How the `await this._waitForFileStable(filePath)` of `_handleFileAdded` settles for
a finished wait: a return when the file is stable or the time is up, the error
otherwise. -/
def WaitResult.settled : WaitResult → Option Settled
  | .stable _ _ _ => some (.stability none)
  | .timedOut _ _ _ => some (.stability none)
  | .threw error _ _ => some (.stability (some error))
  | .polling _ _ _ => none

/-- The turn of the event loop in which the stability wait of the `i`-th suspended
function ends, the polls having been answered as `polls` says (nothing happens while
the wait is still polling). -/
def settleWait (w : World) (i : Nat) (polls : List Poll) : World :=
  match (_waitForFileStable polls).settled with
  | some s => settle w i s
  | none => w

/-- The polls of a file whose size never changes, on a clock where every wait takes the
500 ms asked for and `fs.stat` takes no time: poll `k` happens at `500 * k` ms. -/
def steadyPolls (bytes : Nat) (n : Nat) : List Poll :=
  (List.range n).map (fun k => { elapsed := 500 * k, stat := .size bytes })

/-! ## Application._handleImageDetected with notification calls that may throw -/

/-- One call of `showResult` or `showError`: the call is recorded, and it returns
(`none`) or throws (`some e`) as the first of `replies` says; a call that has no reply
returns. The rest of the replies is for the later calls. -/
def notify (app : Application) (n : Notification) (replies : List (Option JsError)) :
    Option JsError × Application × List (Option JsError) :=
  (replies.head?.join, { app with notifications := app.notifications ++ [n] }, replies.tail)

/-- The outer `catch` block (lines 266-271). What `showError` throws there is what the
promise of `_handleImageDetected` is rejected with (`Except.error`). -/
def outerCatch (app : Application) (data : ImageDetected) (error : JsError)
    (replies : List (Option JsError)) : Except JsError Application :=
  match notify app (.showError error data.fileName) replies with
  | (some thrown, _, _) => .error thrown
  | (none, app1, _) => .ok app1

/-- The inner `catch` block (lines 254-264); what `showError` throws there is caught by
the outer `catch`. -/
def innerCatch (app : Application) (id : String) (data : ImageDetected) (llmError : JsError)
    (t : Nat) (replies : List (Option JsError)) : Except JsError Application :=
  let app1 : Application :=
    { app with resultManager := (updateResult app.resultManager id
        (some { status := some "failed", error := some (some llmError) }) t).2 }
  match notify app1 (.showError llmError data.fileName) replies with
  | (some thrown, app2, rest) => outerCatch app2 data thrown rest
  | (none, app2, _) => .ok app2

/-- Source `_handleImageDetected(data)` with its two `try`/`catch` blocks, when the calls of
the notification service settle as `replies` says: `Except.ok` is the state in which the
function returns, `Except.error e` the rejection with `e`. -/
def _handleImageDetectedThrowing (app : Application) (data : ImageDetected) (env : PipelineEnv)
    (io : ServiceReplies) (replies : List (Option JsError)) : Except JsError Application :=
  match addResult app.resultManager env.add
      (some { imagePath := some data.filePath, status := some "processing" }) with
  | (none, rm) =>
    outerCatch { app with resultManager := rm } data
      { message := "无法创建处理结果记录", code := none } replies
  | (some result, rm) =>
    match recognizeText data.filePath io.pathExists io.ocr with
    | .error error => outerCatch { app with resultManager := rm } data error replies
    | .ok ocrText =>
      let rm1 := (updateResult rm result.id
        (some { ocrText := some ocrText
                status := some (if truthy ocrText then "ocr_completed" else "ocr_failed") })
        env.t1).2
      if !truthy ocrText then
        .ok { app with resultManager :=
                (updateResult rm1 result.id (some { status := some "completed" }) env.t2).2 }
      else
        let app2 : Application :=
          { app with resultManager := rm1, llmCalls := app.llmCalls ++ [ocrText.getD ""] }
        match processText (some (ocrText.getD "")) io.llm with
        | .error llmError => innerCatch app2 result.id data llmError env.t2 replies
        | .ok llmResult =>
          let rm2 := (updateResult rm1 result.id
            (some { llmResult := some llmResult, status := some "completed" }) env.t2).2
          let finalResult := getResult rm2 result.id
          match notify { app2 with resultManager := rm2 } (.showResult finalResult) replies with
          | (some thrown, app3, rest) => innerCatch app3 result.id data thrown env.t2 rest
          | (none, app3, rest) =>
            match finalResult with
            | some _ => .ok app3
            | none => innerCatch app3 result.id data nullRecordError env.t2 rest

/-! ## The calls of one run on the ledger, and runs in sequence -/

/-- The calls that one run of `_handleImageDetected` makes on `this.resultManager`, in
order: `addResult` (line 209), `updateResult` after OCR (line 223), then the `updateResult`
of line 230, 240 or 257; a last `updateResult` (line 257) when `printResultSummary` threw
because `getResult` found nothing. -/
def pipelineCalls (rm : ResultManager) (data : ImageDetected) (env : PipelineEnv)
    (io : ServiceReplies) : List LedgerOp :=
  let id := _generateId env.add.idClock env.add.rnd
  let add := LedgerOp.add env.add (some { imagePath := some data.filePath, status := some "processing" })
  match recognizeText data.filePath io.pathExists io.ocr with
  | .error _ => [add]
  | .ok ocrText =>
    let afterOcrCall := LedgerOp.update id
      (some { ocrText := some ocrText
              status := some (if truthy ocrText then "ocr_completed" else "ocr_failed") }) env.t1
    if !truthy ocrText then
      [add, afterOcrCall, .update id (some { status := some "completed" }) env.t2]
    else
      match processText (some (ocrText.getD "")) io.llm with
      | .error llmError =>
        [add, afterOcrCall,
          .update id (some { status := some "failed", error := some (some llmError) }) env.t2]
      | .ok llmResult =>
        let afterLlmCall := LedgerOp.update id
          (some { llmResult := some llmResult, status := some "completed" }) env.t2
        match getResult (runOps rm [add, afterOcrCall, afterLlmCall]) id with
        | some _ => [add, afterOcrCall, afterLlmCall]
        | none =>
          [add, afterOcrCall, afterLlmCall,
            .update id (some { status := some "failed", error := some (some nullRecordError) })
              env.t2]

/-- The status value that a call writes to the record carrying `id`, if it writes one:
`addResult` writes the status of the record it creates, `updateResult` the `status` of
its patch when it finds a record. -/
def LedgerOp.statusWritten (rm : ResultManager) (id : String) : LedgerOp → Option String
  | .add env (some result) =>
    if (mkProcessResult env result).id = id then some (mkProcessResult env result).status
    else none
  | .update target (some updates) _ =>
    if target = id ∧ (getResult rm target).isSome then updates.status else none
  | _ => none

/-- The status values written to the record carrying `id` by a sequence of calls, first to
last, from the ledger `rm`. -/
def statusesWritten (rm : ResultManager) (id : String) : List LedgerOp → List String
  | [] => []
  | op :: ops => (op.statusWritten rm id).toList ++ statusesWritten (op.run rm) id ops

/-- The edges `processing -> {ocr_completed | ocr_failed} -> {completed | failed}`. -/
def statusEdge (a b : String) : Bool :=
  (a == "processing" && (b == "ocr_completed" || b == "ocr_failed")) ||
  ((a == "ocr_completed" || a == "ocr_failed") && (b == "completed" || b == "failed"))

/-- One detected image with what its run reads and how the services answer it. -/
structure PipelineRun where
  data : ImageDetected
  env : PipelineEnv
  io : ServiceReplies
  deriving DecidableEq, Repr

/-- The application after the pipeline has run on each image of `runs`, one run after
the other. -/
def runPipelines (app : Application) (runs : List PipelineRun) : Application :=
  runs.foldl (fun a r => _handleImageDetected a r.data r.env r.io) app

/-- The statuses that the pipeline gives to a record without OCR text: every record
whose `ocrText` is `null` has status `processing`, `ocr_failed` or `completed`. -/
def OcrTextInvariant (r : ProcessResult) : Prop :=
  r.ocrText = none → r.status = "processing" ∨ r.status = "ocr_failed" ∨ r.status = "completed"

/-! ## ResultManager.getResults and ResultManager.getStats -/

/-- The `filter` argument of `getResults`; every property may be missing. `since` is a
`Date` object or a number of milliseconds, read through `new Date(filter.since)`. -/
structure ResultFilter where
  status : Option String := none
  since : Option Cutoff := none
  limit : Option Nat := none
  deriving DecidableEq, Repr

/-- JavaScript `array.slice(-n)` for a positive `n`: the last `n` elements, all of them
when the array is shorter. -/
def sliceLast (n : Nat) (l : List ProcessResult) : List ProcessResult :=
  l.drop (l.length - n)

/-- Source `getResults(filter = {})`: the array returned, and the state after the call
(the function works on the copy `[...this.results]` and assigns no field). Each of the
three steps is guarded by the truthiness of the filter property. -/
def getResults (rm : ResultManager) (filter : ResultFilter) :
    List ProcessResult × ResultManager :=
  let filteredResults := rm.results
  let byStatus :=
    if truthy filter.status then
      filteredResults.filter (fun r => r.status == filter.status.getD "")
    else filteredResults
  let bySince :=
    match filter.since with
    | some since =>
      if since.truthy then byStatus.filter (fun r => decide (r.timestamp ≥ since.ms))
      else byStatus
    | none => byStatus
  let limited :=
    match filter.limit with
    | some limit => if limit != 0 then sliceLast limit bySince else bySince
    | none => bySince
  (limited, rm)

/-- The records that a filter asks for: the status equals the one given (when a status
is given and is not the empty string) and the timestamp is not before the instant given
(when one is given). -/
def matchesFilter (filter : ResultFilter) (r : ProcessResult) : Bool :=
  (match filter.status with
    | some status => status == "" || r.status == status
    | none => true) &&
  (match filter.since with
    | some since => decide (r.timestamp ≥ since.ms)
    | none => true)

/-- A finite non-negative Number of the engine (IEEE-754 binary64), as the fraction
`mant / 2 ^ scale`. -/
structure Binary64 where
  mant : Nat
  scale : Nat
  deriving DecidableEq, Repr

/-- The integer nearest to `a / b`, the even one of the two when `a / b` is a midpoint
(roundTiesToEven). -/
def roundHalfEven (a b : Nat) : Nat :=
  let q := a / b
  let r := a % b
  if 2 * r < b then q
  else if b < 2 * r then q + 1
  else if q % 2 = 0 then q else q + 1

/-- The scale at which a positive `a / b` is rounded: the least `k`, from the candidate `k`
on, with `2 ^ 52 ≤ a / b * 2 ^ k`, so that the significand has 53 bits; `fuel` is the number
of candidates left, which stops the scale at 1074, the scale of the subnormal numbers. -/
def scaleExp (a b : Nat) : Nat → Nat → Nat
  | 0, k => k
  | fuel + 1, k => if 2 ^ 52 * b ≤ a * 2 ^ k then k else scaleExp a b fuel (k + 1)

/-- The Number nearest to the fraction `a / b`, for `0 ≤ a / b < 2 ^ 53`: the result that
IEEE-754 prescribes for an operation whose exact value is `a / b`. -/
def Binary64.round (a b : Nat) : Binary64 :=
  if a = 0 then { mant := 0, scale := 0 }
  else
    let k := scaleExp a b 1074 0
    { mant := roundHalfEven (a * 2 ^ k) b, scale := k }

/-- The Number holding the integer `n`, for `n < 2 ^ 53`. -/
def Binary64.ofNat (n : Nat) : Binary64 := { mant := n, scale := 0 }

/-- JavaScript `x / y` for a non-zero `y`. -/
def Binary64.div (x y : Binary64) : Binary64 :=
  Binary64.round (x.mant * 2 ^ y.scale) (y.mant * 2 ^ x.scale)

/-- JavaScript `x * y`. -/
def Binary64.mul (x y : Binary64) : Binary64 :=
  Binary64.round (x.mant * y.mant) (2 ^ (x.scale + y.scale))

/-- The integer `n` chosen by `Number.prototype.toFixed(2)`: the one for which
`n / 100 - x` is as close to zero as possible, the larger one when there are two. -/
def Binary64.hundredths (x : Binary64) : Nat :=
  (200 * x.mant + 2 ^ x.scale) / 2 ^ (x.scale + 1)

/-- The text that `toFixed(2)` makes of `n`: the decimal digits of `n`, padded on the left
with zeros to three characters when they are fewer, with a `.` before the last two. -/
def fixedText (n : Nat) : String :=
  let m := (Nat.repr n).data
  let m := if m.length ≤ 2 then List.replicate (3 - m.length) '0' ++ m else m
  String.mk (m.take (m.length - 2) ++ '.' :: m.drop (m.length - 2))

/-- JavaScript `x.toFixed(2)`, for `0 ≤ x < 10 ^ 21`. -/
def toFixed2 (x : Binary64) : String :=
  fixedText x.hundredths

/-- The number `n / 100` written with exactly two decimal places: the decimal digits of
its integer part `n / 100`, a `.`, and the two digits of `n % 100`. -/
def twoDecimals (n : Nat) : String :=
  Nat.repr (n / 100) ++ "." ++ String.mk [Nat.digitChar (n / 10 % 10), Nat.digitChar (n % 10)]

/-- The ratio `completed / total` expressed as a percentage with two decimal places and
followed by `%`, in the words of the specification: the exact ratio, rounded to the nearest
hundredth of a percent, upwards from a midpoint (the rounding that `toFixed` applies to the
number it is given). -/
def percentText (completed total : Nat) : String :=
  twoDecimals ((20000 * completed + total) / (2 * total)) ++ "%"

/-- A ledger whose records carry the given statuses, in this order (used to instantiate
the theorems on `getStats`). -/
def statusLedger (statuses : List String) : List ProcessResult :=
  statuses.map (fun status =>
    { id := "r", timestamp := 0, imagePath := none, ocrText := none, llmResult := none,
      status := status, error := none, updatedAt := none })

/-- The object `recent` of `getStats`. -/
structure RecentStats where
  total : Nat
  completed : Nat
  failed : Nat
  deriving DecidableEq, Repr

/-- The object returned by `getStats`. -/
structure Stats where
  total : Nat
  completed : Nat
  failed : Nat
  processing : Nat
  successRate : String
  recent : RecentStats
  deriving DecidableEq, Repr

/-- Source `getStats()`; `now` is the `Date.now()` of line 102, and the instant one hour
earlier is `now - 3600000`. The counts are Numbers holding integers, and `successRate` is
`((completed / total) * 100).toFixed(2) + '%'` computed on them. -/
def getStats (rm : ResultManager) (now : Nat) : Stats :=
  let total := rm.results.length
  let completed := (rm.results.filter (fun r => r.status == "completed")).length
  let failed := (rm.results.filter (fun r => r.status == "failed")).length
  let processing := (rm.results.filter (fun r => r.status == "processing")).length
  let successRate :=
    if total > 0 then
      toFixed2 (Binary64.mul (Binary64.div (.ofNat completed) (.ofNat total)) (.ofNat 100)) ++ "%"
    else "0%"
  let recentResults :=
    rm.results.filter (fun r => decide ((r.timestamp : Int) ≥ (now : Int) - 60 * 60 * 1000))
  { total := total
    completed := completed
    failed := failed
    processing := processing
    successRate := successRate
    recent :=
      { total := recentResults.length
        completed := (recentResults.filter (fun r => r.status == "completed")).length
        failed := (recentResults.filter (fun r => r.status == "failed")).length } }

/-! ## The admission window of a path -/

/-- Whether the turn `e`, taken in the program `w`, is one of the turns that can take `p`
out of the in-flight set: a remove event or a further add event for `p`, the call of
`stopWatching`, and the end of a handler admitted for `p` (its stability wait threw, or its
readability check settled). -/
def endsWindow (p : String) (w : World) : Event → Bool
  | .unlink q => q == p
  | .add q => q == p
  | .stopWatching => true
  | .settle i (.stability (some _)) => w.pending[i]? == some (.stabilityWait p)
  | .settle i (.access _ _ _) => w.pending[i]? == some (.accessCheck p true)
  | _ => false

/-- None of the turns `es`, run one after the other from `w`, is such a turn. -/
def windowOpen (config : ConfigManager) (p : String) : World → List Event → Bool
  | _, [] => true
  | w, e :: es => !endsWindow p w e && windowOpen config p (step config w e) es

/-! ## Lemmas on the ledger -/

theorem modifyFirst_length (p : ProcessResult → Bool) (f : ProcessResult → ProcessResult)
    (l : List ProcessResult) : (modifyFirst p f l).length = l.length := by
  induction l with
  | nil => rfl
  | cons r rs ih =>
    unfold modifyFirst
    split <;> simp [ih]

theorem addResult_length_le (rm : ResultManager) (env : AddEnv) (result : Option ResultInput)
    (h : rm.results.length ≤ maxResults) :
    (addResult rm env result).2.results.length ≤ maxResults := by
  cases result with
  | none => exact h
  | some result =>
    simp only [addResult]
    split
    · simp only [List.length_tail, List.length_append, List.length_singleton]
      omega
    · omega

theorem updateResult_length (rm : ResultManager) (id : String) (updates : Option Patch)
    (now : Nat) : (updateResult rm id updates now).2.results.length = rm.results.length := by
  unfold updateResult
  cases rm.results.find? (fun r => r.id == id) with
  | none => rfl
  | some r => cases updates <;> simp [modifyFirst_length]

theorem clearResults_length_le (rm : ResultManager) (olderThan : Option Cutoff) :
    (clearResults rm olderThan).2.results.length ≤ rm.results.length := by
  unfold clearResults
  cases olderThan with
  | none => simp
  | some c =>
    by_cases hc : c.truthy
    · simp [hc, List.length_filter_le]
    · simp [hc]

theorem run_length_le (rm : ResultManager) (op : LedgerOp)
    (h : rm.results.length ≤ maxResults) : (op.run rm).results.length ≤ maxResults := by
  cases op with
  | add env result => exact addResult_length_le rm env result h
  | update id updates now =>
    simp only [LedgerOp.run, updateResult_length]
    exact h
  | clear olderThan => exact le_trans (clearResults_length_le rm olderThan) h

theorem runOps_length_le (ops : List LedgerOp) (rm : ResultManager)
    (h : rm.results.length ≤ maxResults) : (runOps rm ops).results.length ≤ maxResults := by
  induction ops generalizing rm with
  | nil => exact h
  | cons op ops ih => exact ih (op.run rm) (run_length_le rm op h)

theorem fullLedger_length (n : Nat) : (fullLedger n).length = n := by
  simp [fullLedger]

theorem fullLedger_sorted (n : Nat) :
    (fullLedger n).Pairwise (fun a b => a.timestamp ≤ b.timestamp) := by
  unfold fullLedger
  rw [List.pairwise_map]
  exact (List.pairwise_lt_range n).imp (fun h => Nat.le_of_lt h)

/-! ## Theorems on the ledger -/

/-- C1: starting from the empty `ResultManager` of the constructor (`maxResults = 1000`),
after every finite sequence of `addResult`, `updateResult` and `clearResults` calls the
number of stored records is at most `maxResults`. -/
theorem capacity_bound (ops : List LedgerOp) :
    (runOps ResultManager.new ops).results.length ≤ maxResults ∧ maxResults = 1000 :=
  ⟨runOps_length_le ops ResultManager.new (Nat.zero_le _), rfl⟩

/-- C2: FIFO eviction of `addResult`. On a ledger that holds exactly `maxResults` records
the new array is the old one without its first record, the other records in their previous
order, followed by the new record; when the stored timestamps are non-decreasing in
insertion order that removed first record has the smallest timestamp of all stored
records. On a ledger that holds fewer than `maxResults` records nothing is removed: the new
array is the old one followed by the new record. -/
theorem addResult_fifo (rm : ResultManager) (env : AddEnv) (result : ResultInput) :
    (rm.results.length = maxResults →
      ∃ oldest rest, rm.results = oldest :: rest ∧
        (addResult rm env (some result)).2.results = rest ++ [mkProcessResult env result] ∧
        (rm.results.Pairwise (fun a b => a.timestamp ≤ b.timestamp) →
          ∀ r ∈ rm.results, oldest.timestamp ≤ r.timestamp)) ∧
    (rm.results.length < maxResults →
      (addResult rm env (some result)).2.results = rm.results ++ [mkProcessResult env result]) := by
  constructor
  · intro hlen
    cases hres : rm.results with
    | nil => rw [hres] at hlen; simp [maxResults] at hlen
    | cons oldest rest =>
      refine ⟨oldest, rest, rfl, ?_, ?_⟩
      · simp only [addResult, hres]
        rw [hres] at hlen
        simp [← hlen]
      · intro hsorted r hr
        rcases List.mem_cons.mp hr with h | h
        · rw [h]
        · exact (List.pairwise_cons.mp hsorted).1 r h
  · intro hlt
    simp only [addResult]
    rw [if_neg]
    simp only [List.length_append, List.length_singleton]
    omega

/-- Witness of C2 on the ledger of 1000 records stamped 0..999: the premises hold and the
record stamped 0 leaves. -/
theorem addResult_fifo_witness :
    (ResultManager.mk (fullLedger 1000)).results.length = maxResults ∧
    (ResultManager.mk (fullLedger 1000)).results.Pairwise (fun a b => a.timestamp ≤ b.timestamp) ∧
    ∃ oldest rest, (ResultManager.mk (fullLedger 1000)).results = oldest :: rest ∧
      (addResult (ResultManager.mk (fullLedger 1000)) ⟨5, "abc", 1000⟩ (some {})).2.results
        = rest ++ [mkProcessResult ⟨5, "abc", 1000⟩ {}] ∧
      ∀ r ∈ (ResultManager.mk (fullLedger 1000)).results, oldest.timestamp ≤ r.timestamp := by
  have hlen : (ResultManager.mk (fullLedger 1000)).results.length = maxResults := by
    simp only [fullLedger_length, maxResults]
  have hsorted : (ResultManager.mk (fullLedger 1000)).results.Pairwise
      (fun a b => a.timestamp ≤ b.timestamp) := by
    simp only [fullLedger_sorted]
  obtain ⟨oldest, rest, h1, h2, h3⟩ :=
    (addResult_fifo (ResultManager.mk (fullLedger 1000)) ⟨5, "abc", 1000⟩ {}).1 hlen
  exact ⟨hlen, hsorted, oldest, rest, h1, h2, h3 hsorted⟩

/-- C4: for an id that no stored record carries, `updateResult(id, patch)` returns `null`
(it returns, it does not throw) and leaves the ledger exactly as it was, for every patch,
the `null`/`undefined` patch included. -/
theorem updateResult_unknown_id (rm : ResultManager) (id : String) (updates : Option Patch)
    (now : Nat) (h : ∀ r ∈ rm.results, r.id ≠ id) :
    updateResult rm id updates now = (none, rm) := by
  have hfind : rm.results.find? (fun r => r.id == id) = none := by
    rw [List.find?_eq_none]
    intro r hr
    simpa using h r hr
  simp [updateResult, hfind]

/-- Witness of C4: a patch on an id absent from a ledger of two records. -/
theorem updateResult_unknown_id_witness :
    (∀ r ∈ (ResultManager.mk (fullLedger 2)).results, r.id ≠ "result_1_x") ∧
    updateResult (ResultManager.mk (fullLedger 2)) "result_1_x"
        (some { status := some "completed" }) 7
      = (none, ResultManager.mk (fullLedger 2)) :=
  ⟨by decide, updateResult_unknown_id _ _ _ _ (by decide)⟩

/-! ## Lemmas on the watcher -/

theorem mem_setDelete (s : List String) (x y : String) :
    y ∈ setDelete s x ↔ y ∈ s ∧ y ≠ x := by
  simp [setDelete]

theorem mem_setAdd (s : List String) (x y : String) :
    y ∈ setAdd s x ↔ y ∈ s ∨ y = x := by
  unfold setAdd
  by_cases h : s.contains x = true
  · rw [if_pos h]
    constructor
    · exact Or.inl
    · rintro (h1 | h1)
      · exact h1
      · rw [h1]; simpa using h
  · rw [if_neg h]
    simp

theorem release_watchedFiles (w : World) (filePath : String) (admitted : Bool) (p : String) :
    p ∈ (release w filePath admitted).watcher.watchedFiles ↔
      p ∈ w.watcher.watchedFiles ∧ (admitted = true → p ≠ filePath) := by
  cases admitted <;> simp [release, mem_setDelete]

theorem afterStability_watchedFiles (w : World) (filePath : String) (error : Option JsError)
    (p : String) :
    p ∈ (afterStability w filePath error).watcher.watchedFiles ↔
      p ∈ w.watcher.watchedFiles ∧ (error ≠ none → p ≠ filePath) := by
  cases error <;> simp [afterStability, release_watchedFiles]

theorem afterAccess_watchedFiles (w : World) (filePath : String) (admitted : Bool)
    (error : Option JsError) (clock : Nat) (env : AddEnv) (p : String) :
    p ∈ (afterAccess w filePath admitted error clock env).watcher.watchedFiles ↔
      p ∈ w.watcher.watchedFiles ∧ (admitted = true → p ≠ filePath) := by
  unfold afterAccess
  cases error with
  | none =>
    simp only [release_watchedFiles]
    split <;> rfl
  | some e =>
    by_cases hc : e.code = some "ENOENT"
    · simp [hc, release_watchedFiles]
    · cases admitted <;> simp [hc, release_watchedFiles]

/-! ## Theorems on the watcher -/

/-- C5: an `add` event for a path that is in the in-flight set `watchedFiles` is rejected by
`_handleFileAdded`: no event is emitted (so no `imageDetected`), no function is left
suspended (so no stability wait is started), and the ledger and the calls made to the
services are what they were (so no processing record is created). -/
theorem duplicate_add_rejected (config : ConfigManager) (w : World) (filePath : String)
    (h : filePath ∈ w.watcher.watchedFiles) :
    (step config w (.add filePath)).emitted = w.emitted ∧
    (step config w (.add filePath)).pending = w.pending ∧
    (step config w (.add filePath)).app = w.app := by
  have hc : w.watcher.watchedFiles.contains filePath = true := by simpa using h
  simp only [step, _handleFileAdded, hc]
  cases isImageFile config filePath <;> simp

/-- Witness of C5: a second `add` for a path whose first `add` is in its stability wait. -/
theorem duplicate_add_rejected_witness :
    "/w/a.png" ∈ (step ConfigManager.default World.new (.add "/w/a.png")).watcher.watchedFiles ∧
    (step ConfigManager.default (step ConfigManager.default World.new (.add "/w/a.png"))
        (.add "/w/a.png")).emitted = [] ∧
    (step ConfigManager.default (step ConfigManager.default World.new (.add "/w/a.png"))
        (.add "/w/a.png")).pending = [.stabilityWait "/w/a.png"] ∧
    (step ConfigManager.default (step ConfigManager.default World.new (.add "/w/a.png"))
        (.add "/w/a.png")).app = Application.new :=
  ⟨by decide,
   duplicate_add_rejected ConfigManager.default
     (step ConfigManager.default World.new (.add "/w/a.png")) "/w/a.png" (by decide)⟩

/-- What a turn of the event loop that runs a continuation does to the in-flight set: a
member `p` leaves it only when the continuation is the failed stability wait, or the
settled readability check, of a handler admitted for `p`. -/
theorem settle_removes (w : World) (i : Nat) (s : Settled) (p : String)
    (hin : p ∈ w.watcher.watchedFiles) (hout : p ∉ (settle w i s).watcher.watchedFiles) :
    (∃ err, s = .stability (some err) ∧ w.pending[i]? = some (.stabilityWait p)) ∨
    (∃ err clock env, s = .access err clock env ∧ w.pending[i]? = some (.accessCheck p true)) := by
  unfold settle at hout
  rcases hp : w.pending[i]? with _ | t
  · simp only [hp] at hout
    exact absurd hin hout
  · cases t with
    | stabilityWait filePath =>
      cases s with
      | stability error =>
        simp only [hp, afterStability_watchedFiles] at hout
        cases error with
        | none => simp [hin] at hout
        | some err =>
          left
          have : p = filePath := by
            by_contra hne
            exact hout ⟨hin, fun _ => hne⟩
          exact ⟨err, rfl, by rw [this]⟩
      | access _ _ _ => simp only [hp] at hout; exact absurd hin hout
      | ocr _ _ _ _ => simp only [hp] at hout; exact absurd hin hout
      | llm _ _ => simp only [hp] at hout; exact absurd hin hout
    | accessCheck filePath admitted =>
      cases s with
      | access error clock env =>
        simp only [hp, afterAccess_watchedFiles] at hout
        right
        cases admitted with
        | false => simp [hin] at hout
        | true =>
          have : p = filePath := by
            by_contra hne
            exact hout ⟨hin, fun _ => hne⟩
          exact ⟨error, clock, env, rfl, by rw [this]⟩
      | stability _ => simp only [hp] at hout; exact absurd hin hout
      | ocr _ _ _ _ => simp only [hp] at hout; exact absurd hin hout
      | llm _ _ => simp only [hp] at hout; exact absurd hin hout
    | ocr id data =>
      cases s with
      | ocr pathExists reply t1 t2 =>
        simp only [hp, afterOcrSettled] at hout
        exfalso
        apply hout
        split <;> exact hin
      | stability _ => simp only [hp] at hout; exact absurd hin hout
      | access _ _ _ => simp only [hp] at hout; exact absurd hin hout
      | llm _ _ => simp only [hp] at hout; exact absurd hin hout
    | llm id data ocrText =>
      cases s with
      | llm reply t =>
        simp only [hp, afterLlmSettled] at hout
        exact absurd hin hout
      | stability _ => simp only [hp] at hout; exact absurd hin hout
      | access _ _ _ => simp only [hp] at hout; exact absurd hin hout
      | ocr _ _ _ _ => simp only [hp] at hout; exact absurd hin hout

/-- C6, counterexample. With the default configuration, after `add /w/a.png` the path is in
the in-flight set and its handler is suspended in the stability wait. A `unlink` event for
the path empties the set although that handler has not finished; so does a second `add`
event for the path, rejected as a duplicate; in both cases the next `add` event for the
path is admitted, and a second stability wait starts beside the first. -/
theorem release_only_at_finish_counterexample :
    (run ConfigManager.default World.new [.add "/w/a.png"]).watcher.watchedFiles = ["/w/a.png"] ∧
    (run ConfigManager.default World.new [.add "/w/a.png", .unlink "/w/a.png"]).watcher.watchedFiles
      = [] ∧
    (run ConfigManager.default World.new [.add "/w/a.png", .unlink "/w/a.png"]).pending
      = [.stabilityWait "/w/a.png"] ∧
    (run ConfigManager.default World.new
        [.add "/w/a.png", .unlink "/w/a.png", .add "/w/a.png"]).pending
      = [.stabilityWait "/w/a.png", .stabilityWait "/w/a.png"] ∧
    (run ConfigManager.default World.new [.add "/w/a.png", .add "/w/a.png"]).watcher.watchedFiles
      = [] ∧
    (run ConfigManager.default World.new [.add "/w/a.png", .add "/w/a.png"]).pending
      = [.stabilityWait "/w/a.png"] ∧
    (run ConfigManager.default World.new
        [.add "/w/a.png", .add "/w/a.png", .add "/w/a.png"]).pending
      = [.stabilityWait "/w/a.png", .stabilityWait "/w/a.png"] := by
  decide

/-- C6, amended. For every path `p` and every turn of the event loop other than the
handling of an `add` event for `p` itself: `p` leaves the in-flight set only when the turn
is a `unlink` event for `p`, the call of `stopWatching`, or the end of a handler admitted
for `p` (its stability wait threw, or its readability check settled). Conversely each of
these removes `p`: the end of the handler on every exit path (event emitted, file vanished,
other fault), the `unlink` event of an image path, and `stopWatching`; the return of the
stability wait alone keeps `p` in the set. -/
theorem release_points (config : ConfigManager) (w : World) (p : String) :
    (∀ e, p ∈ w.watcher.watchedFiles → p ∉ (step config w e).watcher.watchedFiles →
      e ≠ .add p →
        e = .unlink p ∨ e = .stopWatching ∨
        ∃ i, (∃ err, e = .settle i (.stability (some err)) ∧
                w.pending[i]? = some (.stabilityWait p)) ∨
             (∃ err clock env, e = .settle i (.access err clock env) ∧
                w.pending[i]? = some (.accessCheck p true))) ∧
    (∀ i err, w.pending[i]? = some (.stabilityWait p) →
      p ∉ (step config w (.settle i (.stability (some err)))).watcher.watchedFiles) ∧
    (∀ i err clock env, w.pending[i]? = some (.accessCheck p true) →
      p ∉ (step config w (.settle i (.access err clock env))).watcher.watchedFiles) ∧
    (∀ i, w.pending[i]? = some (.stabilityWait p) → p ∈ w.watcher.watchedFiles →
      p ∈ (step config w (.settle i (.stability none))).watcher.watchedFiles) ∧
    (isImageFile config p = true → p ∉ (step config w (.unlink p)).watcher.watchedFiles) ∧
    p ∉ (step config w .stopWatching).watcher.watchedFiles := by
  refine ⟨?_, ?_, ?_, ?_, ?_, ?_⟩
  · intro e hin hout hne
    cases e with
    | ready => exact absurd hin hout
    | add q =>
      have hq : p ≠ q := fun h => hne (by rw [h])
      exfalso
      apply hout
      simp only [step, _handleFileAdded]
      split
      · exact (mem_setDelete _ _ _).2 ⟨hin, hq⟩
      · split
        · exact (mem_setDelete _ _ _).2 ⟨hin, hq⟩
        · exact (mem_setAdd _ _ _).2 (Or.inl hin)
    | change q => exact absurd hin hout
    | unlink q =>
      left
      simp only [step, _handleFileRemoved] at hout
      by_cases hq : isImageFile config q = true
      · simp only [hq, if_true, mem_setDelete] at hout
        have : p = q := by
          by_contra hne2
          exact hout ⟨hin, hne2⟩
        rw [this]
      · simp only [hq] at hout
        exact absurd hin hout
    | stopWatching => exact Or.inr (Or.inl rfl)
    | processFile q =>
      exfalso
      apply hout
      simp only [step, processFile]
      split <;> exact hin
    | settle i s =>
      right; right
      rcases settle_removes w i s p hin hout with ⟨err, hs, hp⟩ | ⟨err, clock, env, hs, hp⟩
      · exact ⟨i, Or.inl ⟨err, by rw [hs], hp⟩⟩
      · exact ⟨i, Or.inr ⟨err, clock, env, by rw [hs], hp⟩⟩
  · intro i err hp
    simp [step, settle, hp, afterStability_watchedFiles]
  · intro i err clock env hp
    simp [step, settle, hp, afterAccess_watchedFiles]
  · intro i hp hin
    simp [step, settle, hp, afterStability_watchedFiles, hin]
  · intro himg
    simp [step, _handleFileRemoved, himg, mem_setDelete]
  · simp [step, stopWatching]

/-- Witness of the amended C6: the handler admitted for `/w/a.png` ends because the file
vanished during the wait; the path was in the set before that turn and is not after it. -/
theorem release_points_witness :
    "/w/a.png" ∈ (run ConfigManager.default World.new [.add "/w/a.png"]).watcher.watchedFiles ∧
    "/w/a.png" ∉ (step ConfigManager.default (run ConfigManager.default World.new [.add "/w/a.png"])
      (.settle 0 (.stability (some ⟨"文件在等待过程中被删除", none⟩)))).watcher.watchedFiles ∧
    ((Event.settle 0 (.stability (some ⟨"文件在等待过程中被删除", none⟩)) = .unlink "/w/a.png") ∨
      (Event.settle 0 (.stability (some ⟨"文件在等待过程中被删除", none⟩)) = .stopWatching) ∨
      ∃ i, (∃ err, Event.settle 0 (.stability (some ⟨"文件在等待过程中被删除", none⟩))
                = .settle i (.stability (some err)) ∧
              (run ConfigManager.default World.new [.add "/w/a.png"]).pending[i]?
                = some (.stabilityWait "/w/a.png")) ∨
           (∃ err clock env, Event.settle 0 (.stability (some ⟨"文件在等待过程中被删除", none⟩))
                = .settle i (.access err clock env) ∧
              (run ConfigManager.default World.new [.add "/w/a.png"]).pending[i]?
                = some (.accessCheck "/w/a.png" true))) :=
  ⟨by decide, by decide,
   (release_points ConfigManager.default (run ConfigManager.default World.new [.add "/w/a.png"])
      "/w/a.png").1 _ (by decide) (by decide) (by decide)⟩

/-! ## Lemmas on the pipeline -/

/-- After `addResult` the new record is the last one, behind records that were stored
before. -/
theorem addResult_results (rm : ResultManager) (env : AddEnv) (result : ResultInput) :
    (addResult rm env (some result)).1 = some (mkProcessResult env result) ∧
    ∃ l, (addResult rm env (some result)).2.results = l ++ [mkProcessResult env result] ∧
      ∀ x ∈ l, x ∈ rm.results := by
  refine ⟨rfl, ?_⟩
  simp only [addResult]
  split
  · rename_i hgt
    cases hres : rm.results with
    | nil => rw [hres] at hgt; simp [maxResults] at hgt
    | cons a t => exact ⟨t, rfl, fun x hx => List.mem_cons_of_mem a hx⟩
  · exact ⟨rm.results, rfl, fun x hx => hx⟩

theorem detectedStart_eq (app : Application) (data : ImageDetected) (env : AddEnv) :
    detectedStart app data env =
      ({ app with resultManager := (addResult app.resultManager env
          (some { imagePath := some data.filePath, status := some "processing" })).2 },
       some (mkProcessResult env { imagePath := some data.filePath, status := some "processing" })) :=
  rfl

theorem find?_append_last (l : List ProcessResult) (rec : ProcessResult) (id : String)
    (hfresh : ∀ x ∈ l, x.id ≠ id) (hid : rec.id = id) :
    (l ++ [rec]).find? (fun r => r.id == id) = some rec := by
  induction l with
  | nil => simp [hid]
  | cons a t ih =>
    have ha : a.id ≠ id := hfresh a (List.mem_cons_self a t)
    have ht : ∀ x ∈ t, x.id ≠ id := fun x hx => hfresh x (List.mem_cons_of_mem a hx)
    simp only [List.cons_append, List.find?_cons]
    have : (a.id == id) = false := by simpa using ha
    rw [this]
    exact ih ht

theorem modifyFirst_append_last (f : ProcessResult → ProcessResult) (l : List ProcessResult)
    (rec : ProcessResult) (id : String) (hfresh : ∀ x ∈ l, x.id ≠ id) (hid : rec.id = id) :
    modifyFirst (fun r => r.id == id) f (l ++ [rec]) = l ++ [f rec] := by
  induction l with
  | nil => simp [modifyFirst, hid]
  | cons a t ih =>
    have ha : a.id ≠ id := hfresh a (List.mem_cons_self a t)
    have ht : ∀ x ∈ t, x.id ≠ id := fun x hx => hfresh x (List.mem_cons_of_mem a hx)
    have : (a.id == id) = false := by simpa using ha
    simp only [List.cons_append, modifyFirst, this]
    simp [ih ht]

/-- Effect of `updateResult` on a ledger whose last record is the only one carrying `id`. -/
theorem updateResult_last (l : List ProcessResult) (rec : ProcessResult) (id : String)
    (u : Patch) (now : Nat) (hfresh : ∀ x ∈ l, x.id ≠ id) (hid : rec.id = id) :
    (updateResult ⟨l ++ [rec]⟩ id (some u) now).2 = ⟨l ++ [applyUpdate (some u) now rec]⟩ := by
  simp [updateResult, find?_append_last l rec id hfresh hid,
    modifyFirst_append_last _ l rec id hfresh hid]

theorem getResult_last (l : List ProcessResult) (rec : ProcessResult) (id : String)
    (hfresh : ∀ x ∈ l, x.id ≠ id) (hid : rec.id = id) :
    getResult ⟨l ++ [rec]⟩ id = some rec :=
  find?_append_last l rec id hfresh hid

theorem recognizeText_ok_some (imagePath : String) (pathExists : Bool)
    (reply : Http (Option OcrBody)) (t : String)
    (h : recognizeText imagePath pathExists reply = .ok (some t)) : truthy (some t) = true := by
  unfold recognizeText at h
  cases pathExists with
  | false =>
    simp only [Bool.not_false, if_true] at h
    split at h <;> cases h
  | true =>
    cases reply with
    | failure error =>
      simp only [Bool.not_true, Bool.false_eq_true, if_false] at h
      split at h <;> cases h
    | response data =>
      simp only [Bool.not_true, Bool.false_eq_true, if_false] at h
      by_cases hd : truthy (ocrResponseText data) = true
      · simp only [hd, if_true] at h
        injection h with h
        rw [← h]
        exact hd
      · simp only [hd, if_false] at h
        cases h

theorem recognizeText_no_text (imagePath : String) (data : Option OcrBody)
    (h : truthy (ocrResponseText data) = false) :
    recognizeText imagePath true (.response data) = .ok none := by
  simp [recognizeText, h]

/-- The state in which the outer `catch` leaves the program when `recognizeText` rejects:
the ledger is the one `addResult` produced. -/
theorem handleImageDetected_ocr_rejected (app : Application) (data : ImageDetected)
    (env : PipelineEnv) (io : ServiceReplies) (e : JsError)
    (h : recognizeText data.filePath io.pathExists io.ocr = .error e) :
    _handleImageDetected app data env io =
      { resultManager := (addResult app.resultManager env.add
          (some { imagePath := some data.filePath, status := some "processing" })).2
        notifications := app.notifications ++ [.showError e data.fileName]
        llmCalls := app.llmCalls } := by
  simp [_handleImageDetected, detectedStart_eq, afterOcr, h]

/-! ## The admission window -/

/-- C7, counterexample. With the default configuration: `/w/a.png` is admitted, its stability
wait returns and its readability check succeeds. After that turn the record created for the
path has status `processing` and its OCR call is pending, but the in-flight set is already
empty; the next `add` event for the same path is admitted, and after its own wait and check
the ledger holds two `processing` records for the path with two OCR calls pending. -/
theorem admission_window_counterexample :
    (run ConfigManager.default World.new
        [.add "/w/a.png", .settle 0 (.stability none), .settle 0 (.access none 4 ⟨5, "abc", 6⟩)])
      = { app := { resultManager := { results := [
              { id := "result_5_abc", timestamp := 6, imagePath := some "/w/a.png",
                ocrText := none, llmResult := none, status := "processing", error := none,
                updatedAt := none }] }
                   notifications := [], llmCalls := [] }
          watcher := { isRunning := false, watchedFiles := [] }
          pending := [.ocr "result_5_abc" ⟨"/w/a.png", "a.png", 4⟩]
          emitted := [.imageDetected ⟨"/w/a.png", "a.png", 4⟩] } ∧
    (run ConfigManager.default World.new
        [.add "/w/a.png", .settle 0 (.stability none), .settle 0 (.access none 4 ⟨5, "abc", 6⟩),
         .add "/w/a.png"]).pending
      = [.ocr "result_5_abc" ⟨"/w/a.png", "a.png", 4⟩, .stabilityWait "/w/a.png"] ∧
    ((run ConfigManager.default World.new
        [.add "/w/a.png", .settle 0 (.stability none), .settle 0 (.access none 4 ⟨5, "abc", 6⟩),
         .add "/w/a.png", .settle 1 (.stability none),
         .settle 1 (.access none 9 ⟨10, "xyz", 11⟩)]).app.resultManager.results.map
        (fun r => (r.imagePath, r.status)))
      = [(some "/w/a.png", "processing"), (some "/w/a.png", "processing")] ∧
    (run ConfigManager.default World.new
        [.add "/w/a.png", .settle 0 (.stability none), .settle 0 (.access none 4 ⟨5, "abc", 6⟩),
         .add "/w/a.png", .settle 1 (.stability none),
         .settle 1 (.access none 9 ⟨10, "xyz", 11⟩)]).pending
      = [.ocr "result_5_abc" ⟨"/w/a.png", "a.png", 4⟩,
         .ocr "result_10_xyz" ⟨"/w/a.png", "a.png", 9⟩] := by
  decide

theorem settle_watchedFiles_subset (w : World) (i : Nat) (s : Settled) (p : String)
    (h : p ∈ (settle w i s).watcher.watchedFiles) : p ∈ w.watcher.watchedFiles := by
  unfold settle at h
  rcases hp : w.pending[i]? with _ | t
  · simp only [hp] at h
    exact h
  · cases t with
    | stabilityWait filePath =>
      cases s with
      | stability error =>
        simp only [hp, afterStability_watchedFiles] at h
        exact h.1
      | access _ _ _ => simp only [hp] at h; exact h
      | ocr _ _ _ _ => simp only [hp] at h; exact h
      | llm _ _ => simp only [hp] at h; exact h
    | accessCheck filePath admitted =>
      cases s with
      | access error clock env =>
        simp only [hp, afterAccess_watchedFiles] at h
        exact h.1
      | stability _ => simp only [hp] at h; exact h
      | ocr _ _ _ _ => simp only [hp] at h; exact h
      | llm _ _ => simp only [hp] at h; exact h
    | ocr id data =>
      cases s with
      | ocr pathExists reply t1 t2 =>
        simp only [hp, afterOcrSettled] at h
        split at h <;> exact h
      | stability _ => simp only [hp] at h; exact h
      | access _ _ _ => simp only [hp] at h; exact h
      | llm _ _ => simp only [hp] at h; exact h
    | llm id data ocrText =>
      cases s with
      | llm reply t =>
        simp only [hp, afterLlmSettled] at h
        exact h
      | stability _ => simp only [hp] at h; exact h
      | access _ _ _ => simp only [hp] at h; exact h
      | ocr _ _ _ _ => simp only [hp] at h; exact h

/-- A turn that is not one of those listed by `endsWindow` keeps `p` in the in-flight set. -/
theorem step_keeps (config : ConfigManager) (w : World) (p : String) (e : Event)
    (hin : p ∈ w.watcher.watchedFiles) (hq : endsWindow p w e = false) :
    p ∈ (step config w e).watcher.watchedFiles := by
  cases e with
  | ready => exact hin
  | add q =>
    have hne : p ≠ q := by
      intro h
      simp [endsWindow, h] at hq
    simp only [step, _handleFileAdded]
    split
    · exact (mem_setDelete _ _ _).2 ⟨hin, hne⟩
    · split
      · exact (mem_setDelete _ _ _).2 ⟨hin, hne⟩
      · exact (mem_setAdd _ _ _).2 (Or.inl hin)
  | change q => exact hin
  | unlink q =>
    have hne : p ≠ q := by
      intro h
      simp [endsWindow, h] at hq
    simp only [step, _handleFileRemoved]
    split
    · exact (mem_setDelete _ _ _).2 ⟨hin, hne⟩
    · exact hin
  | stopWatching => simp [endsWindow] at hq
  | processFile q =>
    simp only [step, processFile]
    split <;> exact hin
  | settle i s =>
    by_contra hout
    rcases settle_removes w i s p hin hout with ⟨err, hs, hp⟩ | ⟨err, clock, env, hs, hp⟩
    · simp [endsWindow, hs, hp] at hq
    · simp [endsWindow, hs, hp] at hq

theorem run_keeps (config : ConfigManager) (p : String) (es : List Event) (w : World)
    (hin : p ∈ w.watcher.watchedFiles) (hq : windowOpen config p w es = true) :
    p ∈ (run config w es).watcher.watchedFiles := by
  induction es generalizing w with
  | nil => exact hin
  | cons e es ih =>
    simp only [windowOpen, Bool.and_eq_true, Bool.not_eq_true'] at hq
    exact ih (step config w e) (step_keeps config w p e hin hq.1) hq.2

/-- Only the handling of an `add` event for `p` puts `p` into the in-flight set. -/
theorem step_stays_out (config : ConfigManager) (w : World) (p : String) (e : Event)
    (hne : e ≠ .add p) (hout : p ∉ w.watcher.watchedFiles) :
    p ∉ (step config w e).watcher.watchedFiles := by
  cases e with
  | ready => exact hout
  | add q =>
    have hq : p ≠ q := fun h => hne (by rw [h])
    simp only [step, _handleFileAdded]
    split
    · exact fun h => hout ((mem_setDelete _ _ _).1 h).1
    · split
      · exact fun h => hout ((mem_setDelete _ _ _).1 h).1
      · intro h
        rcases (mem_setAdd _ _ _).1 h with h1 | h1
        · exact hout h1
        · exact hq h1
  | change q => exact hout
  | unlink q =>
    simp only [step, _handleFileRemoved]
    split
    · exact fun h => hout ((mem_setDelete _ _ _).1 h).1
    · exact hout
  | stopWatching => simp [step, stopWatching]
  | processFile q =>
    simp only [step, processFile]
    split <;> exact hout
  | settle i s => exact fun h => hout (settle_watchedFiles_subset w i s p h)

theorem run_stays_out (config : ConfigManager) (p : String) (es : List Event) (w : World)
    (hne : ∀ e ∈ es, e ≠ .add p) (hout : p ∉ w.watcher.watchedFiles) :
    p ∉ (run config w es).watcher.watchedFiles := by
  induction es generalizing w with
  | nil => exact hout
  | cons e es ih =>
    exact ih (step config w e) (fun x hx => hne x (List.mem_cons_of_mem e hx))
      (step_stays_out config w p e (hne e (List.mem_cons_self e es)) hout)

/-- C7, amended. The in-flight set holds an admitted path `p` up to the emission of
`imageDetected`, not up to the final status of its record. (1) The `add` event of an image
path that is not in the set puts it in the set and starts the stability wait. (2) From any
program whose set holds `p`, the set still holds `p` after every sequence of turns none of
which is a remove event for `p`, a further `add` event for `p`, the call of `stopWatching`, or
the end of a handler admitted for `p` (its stability wait throws, or its readability check
settles). (3) The return of the stability wait of `p` leaves the watcher as it is and
starts the readability check. (4) In the turn in which the readability check of `p`
succeeds, `imageDetected` is emitted, the record created for `p` is the last of the ledger
with status `processing`, its OCR call is pending, and `p` is no longer in the set. (5) A
set that does not hold `p` does not hold it after any sequence of turns without an `add`
event for `p`. (6) Hence after the turn of (4) and any such sequence, in particular while
the OCR or the LLM call for `p` is pending, the next `add` event for `p` is admitted. -/
theorem admission_window (config : ConfigManager) (w : World) (p : String) :
    (isImageFile config p = true → p ∉ w.watcher.watchedFiles →
      p ∈ (step config w (.add p)).watcher.watchedFiles ∧
      (step config w (.add p)).pending = w.pending ++ [.stabilityWait p]) ∧
    (∀ es, p ∈ w.watcher.watchedFiles → windowOpen config p w es = true →
      p ∈ (run config w es).watcher.watchedFiles) ∧
    (∀ i, w.pending[i]? = some (.stabilityWait p) →
      (step config w (.settle i (.stability none))).watcher = w.watcher ∧
      (step config w (.settle i (.stability none))).pending
        = w.pending.eraseIdx i ++ [.accessCheck p true]) ∧
    (∀ i clock env, w.pending[i]? = some (.accessCheck p true) →
      p ∉ (step config w (.settle i (.access none clock env))).watcher.watchedFiles ∧
      (step config w (.settle i (.access none clock env))).emitted
        = w.emitted ++ [.imageDetected ⟨p, basename p, clock⟩] ∧
      (step config w (.settle i (.access none clock env))).app.resultManager.results.getLast?
        = some { id := _generateId env.idClock env.rnd, timestamp := env.clock,
                 imagePath := some p, ocrText := none, llmResult := none,
                 status := "processing", error := none, updatedAt := none } ∧
      (step config w (.settle i (.access none clock env))).pending
        = w.pending.eraseIdx i ++
            [.ocr (_generateId env.idClock env.rnd) ⟨p, basename p, clock⟩]) ∧
    (∀ es, (∀ e ∈ es, e ≠ .add p) → p ∉ w.watcher.watchedFiles →
      p ∉ (run config w es).watcher.watchedFiles) ∧
    (∀ i clock env es, isImageFile config p = true →
      w.pending[i]? = some (.accessCheck p true) → (∀ e ∈ es, e ≠ .add p) →
      p ∉ (run config w (.settle i (.access none clock env) :: es)).watcher.watchedFiles ∧
      p ∈ (run config w (.settle i (.access none clock env) :: es ++ [.add p])).watcher.watchedFiles ∧
      (run config w (.settle i (.access none clock env) :: es ++ [.add p])).pending
        = (run config w (.settle i (.access none clock env) :: es)).pending
            ++ [.stabilityWait p]) := by
  have h4 : ∀ i clock env, w.pending[i]? = some (.accessCheck p true) →
      p ∉ (step config w (.settle i (.access none clock env))).watcher.watchedFiles := by
    intro i clock env hp
    simp [step, settle, hp, afterAccess_watchedFiles]
  refine ⟨?_, ?_, ?_, ?_, ?_, ?_⟩
  · intro himg hnot
    simp [step, _handleFileAdded, himg, hnot, mem_setAdd]
  · intro es hin hq
    exact run_keeps config p es w hin hq
  · intro i hp
    simp [step, settle, hp, afterStability]
  · intro i clock env hp
    obtain ⟨-, l, hl, -⟩ := addResult_results w.app.resultManager env
      { imagePath := some p, status := some "processing" }
    refine ⟨h4 i clock env hp, ?_, ?_, ?_⟩
    · simp [step, settle, hp, afterAccess, detectedStart_eq, release]
    · simp only [step, settle, hp, afterAccess, detectedStart_eq, release]
      simp only [if_true, hl, List.getLast?_append, List.getLast?_singleton]
      rfl
    · simp [step, settle, hp, afterAccess, detectedStart_eq, release]
      rfl
  · intro es hne hout
    exact run_stays_out config p es w hne hout
  · intro i clock env es himg hp hne
    have hout : p ∉ (run config w (.settle i (.access none clock env) :: es)).watcher.watchedFiles :=
      run_stays_out config p es _ hne (h4 i clock env hp)
    have hrun : run config w (.settle i (.access none clock env) :: es ++ [.add p])
        = step config (run config w (.settle i (.access none clock env) :: es)) (.add p) := by
      simp [run, List.foldl_append]
    rw [hrun]
    refine ⟨hout, ?_, ?_⟩
    · simp [step, _handleFileAdded, himg, hout, mem_setAdd]
    · simp [step, _handleFileAdded, himg, hout]

/-- Witness of the amended C7 with the default configuration. `/w/a.png` is admitted in the
initial program; its set membership survives the turns `add /w/b.png`, the return of its own
stability wait, `change`, `processFile` and `ready`; when its readability check succeeds
(suspended function 1 after `add /w/a.png`, `add /w/b.png` and the return of the wait) the
path leaves the set, stays out while the OCR call settles, and the next `add` event for it
is admitted. -/
theorem admission_window_witness :
    (isImageFile ConfigManager.default "/w/a.png" = true ∧
      "/w/a.png" ∉ World.new.watcher.watchedFiles ∧
      "/w/a.png" ∈ (step ConfigManager.default World.new (.add "/w/a.png")).watcher.watchedFiles ∧
      (step ConfigManager.default World.new (.add "/w/a.png")).pending
        = World.new.pending ++ [.stabilityWait "/w/a.png"]) ∧
    (windowOpen ConfigManager.default "/w/a.png"
        (step ConfigManager.default World.new (.add "/w/a.png"))
        [.add "/w/b.png", .settle 0 (.stability none), .change "/w/a.png",
         .processFile "/w/a.png", .ready] = true ∧
      "/w/a.png" ∈ (run ConfigManager.default
        (step ConfigManager.default World.new (.add "/w/a.png"))
        [.add "/w/b.png", .settle 0 (.stability none), .change "/w/a.png",
         .processFile "/w/a.png", .ready]).watcher.watchedFiles) ∧
    ((run ConfigManager.default World.new
        [.add "/w/a.png", .add "/w/b.png", .settle 0 (.stability none)]).pending[1]?
        = some (.accessCheck "/w/a.png" true) ∧
      "/w/a.png" ∉ (run ConfigManager.default
        (run ConfigManager.default World.new
          [.add "/w/a.png", .add "/w/b.png", .settle 0 (.stability none)])
        [.settle 1 (.access none 4 ⟨5, "abc", 6⟩),
         .settle 1 (.ocr true (.response none) 7 8)]).watcher.watchedFiles ∧
      "/w/a.png" ∈ (run ConfigManager.default
        (run ConfigManager.default World.new
          [.add "/w/a.png", .add "/w/b.png", .settle 0 (.stability none)])
        (.settle 1 (.access none 4 ⟨5, "abc", 6⟩) ::
          [.settle 1 (.ocr true (.response none) 7 8)] ++ [.add "/w/a.png"])).watcher.watchedFiles) :=
  ⟨⟨by decide, by decide,
    (admission_window ConfigManager.default World.new "/w/a.png").1 (by decide) (by decide)⟩,
   ⟨by decide,
    (admission_window ConfigManager.default
      (step ConfigManager.default World.new (.add "/w/a.png")) "/w/a.png").2.1 _
      (by decide) (by decide)⟩,
   ⟨by decide,
    ((admission_window ConfigManager.default
      (run ConfigManager.default World.new
        [.add "/w/a.png", .add "/w/b.png", .settle 0 (.stability none)])
      "/w/a.png").2.2.2.2.2 1 4 ⟨5, "abc", 6⟩ [.settle 1 (.ocr true (.response none) 7 8)]
      (by decide) (by decide) (by decide)).1,
    ((admission_window ConfigManager.default
      (run ConfigManager.default World.new
        [.add "/w/a.png", .add "/w/b.png", .settle 0 (.stability none)])
      "/w/a.png").2.2.2.2.2 1 4 ⟨5, "abc", 6⟩ [.settle 1 (.ocr true (.response none) 7 8)]
      (by decide) (by decide) (by decide)).2.1⟩⟩

/-! ## Theorems on the pipeline -/

/-- C8: success path. When the OCR stage returns the text `t` and the LLM stage returns the
result `r` (both are then non-empty), and the id generated for the new record is carried by
no record already stored, then at the end of `_handleImageDetected` the record it created
is the last of the ledger and the one found under its id, with `status = 'completed'`,
`ocrText = t`, `llmResult = r` and no error. -/
theorem success_path (app : Application) (data : ImageDetected) (env : PipelineEnv)
    (io : ServiceReplies) (t r : String)
    (hocr : recognizeText data.filePath io.pathExists io.ocr = .ok (some t))
    (hllm : processText (some t) io.llm = .ok (some r))
    (hfresh : ∀ x ∈ app.resultManager.results, x.id ≠ _generateId env.add.idClock env.add.rnd) :
    (_handleImageDetected app data env io).resultManager.results.getLast?
      = some { id := _generateId env.add.idClock env.add.rnd, timestamp := env.add.clock,
               imagePath := some data.filePath, ocrText := some t, llmResult := some r,
               status := "completed", error := none, updatedAt := some env.t2 } ∧
    getResult (_handleImageDetected app data env io).resultManager
        (_generateId env.add.idClock env.add.rnd)
      = some { id := _generateId env.add.idClock env.add.rnd, timestamp := env.add.clock,
               imagePath := some data.filePath, ocrText := some t, llmResult := some r,
               status := "completed", error := none, updatedAt := some env.t2 } := by
  obtain ⟨-, l, hl, hmem⟩ := addResult_results app.resultManager env.add
    { imagePath := some data.filePath, status := some "processing" }
  have hl' : (addResult app.resultManager env.add
      (some { imagePath := some data.filePath, status := some "processing" })).2
      = ⟨l ++ [mkProcessResult env.add
          { imagePath := some data.filePath, status := some "processing" }]⟩ := by
    cases hx : (addResult app.resultManager env.add
      (some { imagePath := some data.filePath, status := some "processing" })).2
    rw [hx] at hl
    simp only at hl
    rw [hl]
  have hfl : ∀ x ∈ l, x.id ≠ _generateId env.add.idClock env.add.rnd :=
    fun x hx => hfresh x (hmem x hx)
  have ht : truthy (some t) = true := recognizeText_ok_some _ _ _ _ hocr
  have h1 := updateResult_last l
    (mkProcessResult env.add { imagePath := some data.filePath, status := some "processing" })
    (_generateId env.add.idClock env.add.rnd)
    { ocrText := some (some t), status := some "ocr_completed" } env.t1 hfl rfl
  have h2 := updateResult_last l
    (applyUpdate (some { ocrText := some (some t), status := some "ocr_completed" }) env.t1
      (mkProcessResult env.add { imagePath := some data.filePath, status := some "processing" }))
    (_generateId env.add.idClock env.add.rnd)
    { llmResult := some (some r), status := some "completed" } env.t2 hfl rfl
  have h3 := getResult_last l
    (applyUpdate (some { llmResult := some (some r), status := some "completed" }) env.t2
      (applyUpdate (some { ocrText := some (some t), status := some "ocr_completed" }) env.t1
        (mkProcessResult env.add
          { imagePath := some data.filePath, status := some "processing" })))
    (_generateId env.add.idClock env.add.rnd) hfl rfl
  have hfinal : (_handleImageDetected app data env io).resultManager
      = ⟨l ++ [applyUpdate (some { llmResult := some (some r), status := some "completed" }) env.t2
          (applyUpdate (some { ocrText := some (some t), status := some "ocr_completed" }) env.t1
            (mkProcessResult env.add
              { imagePath := some data.filePath, status := some "processing" }))]⟩ := by
    simp only [_handleImageDetected, detectedStart_eq, afterOcr, hocr, ht, hl', mkProcessResult,
      Bool.not_true, Bool.false_eq_true, if_false, if_true, Option.getD_some, hllm, afterLlm]
      at h1 h2 h3 ⊢
    simp only [h1, h2, h3]
  rw [hfinal]
  constructor
  · simp only [List.getLast?_append, List.getLast?_singleton]
    rfl
  · rw [h3]
    rfl

/-- Witness of C8: `t = "hello"`, `r = "world"`, on the empty ledger. -/
theorem success_path_witness :
    recognizeText "/w/a.png" true (.response (some ⟨some ⟨some "hello"⟩⟩)) = .ok (some "hello") ∧
    processText (some "hello") (.response (some ⟨some ⟨some ⟨some "world"⟩⟩⟩)) = .ok (some "world") ∧
    (_handleImageDetected Application.new ⟨"/w/a.png", "a.png", 4⟩ ⟨⟨5, "abc", 6⟩, 7, 8⟩
      ⟨true, .response (some ⟨some ⟨some "hello"⟩⟩),
        .response (some ⟨some ⟨some ⟨some "world"⟩⟩⟩)⟩).resultManager.results.getLast?
      = some { id := "result_5_abc", timestamp := 6, imagePath := some "/w/a.png",
               ocrText := some "hello", llmResult := some "world", status := "completed",
               error := none, updatedAt := some 8 } :=
  ⟨by decide, by decide,
   (success_path Application.new ⟨"/w/a.png", "a.png", 4⟩ ⟨⟨5, "abc", 6⟩, 7, 8⟩
      ⟨true, .response (some ⟨some ⟨some "hello"⟩⟩),
        .response (some ⟨some ⟨some ⟨some "world"⟩⟩⟩)⟩ "hello" "world"
      (by decide) (by decide) (by decide)).1⟩

/-- C9: text-free short circuit. When the image file exists and the OCR response carries no
`data.text`, or an empty one (and the id generated for the new record is carried by no record
already stored), then at the end of `_handleImageDetected` the record it created is the last
of the ledger with `status = 'completed'`, `ocrText = null` and `llmResult = null`, and
`llmService.processText` was not called. -/
theorem no_text_short_circuit (app : Application) (data : ImageDetected) (env : PipelineEnv)
    (io : ServiceReplies) (body : Option OcrBody)
    (hexists : io.pathExists = true) (hreply : io.ocr = .response body)
    (hnotext : truthy (ocrResponseText body) = false)
    (hfresh : ∀ x ∈ app.resultManager.results, x.id ≠ _generateId env.add.idClock env.add.rnd) :
    (_handleImageDetected app data env io).resultManager.results.getLast?
      = some { id := _generateId env.add.idClock env.add.rnd, timestamp := env.add.clock,
               imagePath := some data.filePath, ocrText := none, llmResult := none,
               status := "completed", error := none, updatedAt := some env.t2 } ∧
    (_handleImageDetected app data env io).llmCalls = app.llmCalls := by
  obtain ⟨-, l, hl, hmem⟩ := addResult_results app.resultManager env.add
    { imagePath := some data.filePath, status := some "processing" }
  have hl' : (addResult app.resultManager env.add
      (some { imagePath := some data.filePath, status := some "processing" })).2
      = ⟨l ++ [mkProcessResult env.add
          { imagePath := some data.filePath, status := some "processing" }]⟩ := by
    cases hx : (addResult app.resultManager env.add
      (some { imagePath := some data.filePath, status := some "processing" })).2
    rw [hx] at hl
    simp only at hl
    rw [hl]
  have hfl : ∀ x ∈ l, x.id ≠ _generateId env.add.idClock env.add.rnd :=
    fun x hx => hfresh x (hmem x hx)
  have hocr : recognizeText data.filePath io.pathExists io.ocr = .ok none := by
    rw [hexists, hreply]
    exact recognizeText_no_text _ _ hnotext
  have h1 := updateResult_last l
    (mkProcessResult env.add { imagePath := some data.filePath, status := some "processing" })
    (_generateId env.add.idClock env.add.rnd)
    { ocrText := some none, status := some "ocr_failed" } env.t1 hfl rfl
  have h2 := updateResult_last l
    (applyUpdate (some { ocrText := some none, status := some "ocr_failed" }) env.t1
      (mkProcessResult env.add { imagePath := some data.filePath, status := some "processing" }))
    (_generateId env.add.idClock env.add.rnd)
    { status := some "completed" } env.t2 hfl rfl
  have hfinal : _handleImageDetected app data env io
      = { resultManager :=
            ⟨l ++ [applyUpdate (some { status := some "completed" }) env.t2
              (applyUpdate (some { ocrText := some none, status := some "ocr_failed" }) env.t1
                (mkProcessResult env.add
                  { imagePath := some data.filePath, status := some "processing" }))]⟩
          notifications := app.notifications
          llmCalls := app.llmCalls } := by
    simp only [_handleImageDetected, detectedStart_eq, afterOcr, hocr, hl', mkProcessResult,
      truthy, Bool.not_false, Bool.false_eq_true, if_false, if_true] at h1 h2 ⊢
    simp only [h1, h2]
  rw [hfinal]
  constructor
  · simp only [List.getLast?_append, List.getLast?_singleton]
    rfl
  · rfl

/-- Witness of C9: an OCR response `{ data: {} }`, on the empty ledger. -/
theorem no_text_short_circuit_witness :
    truthy (ocrResponseText (some ⟨some ⟨none⟩⟩)) = false ∧
    (_handleImageDetected Application.new ⟨"/w/a.png", "a.png", 4⟩ ⟨⟨5, "abc", 6⟩, 7, 8⟩
      ⟨true, .response (some ⟨some ⟨none⟩⟩),
        .response (some ⟨some ⟨some ⟨some "world"⟩⟩⟩)⟩).resultManager.results.getLast?
      = some { id := "result_5_abc", timestamp := 6, imagePath := some "/w/a.png",
               ocrText := none, llmResult := none, status := "completed",
               error := none, updatedAt := some 8 } ∧
    (_handleImageDetected Application.new ⟨"/w/a.png", "a.png", 4⟩ ⟨⟨5, "abc", 6⟩, 7, 8⟩
      ⟨true, .response (some ⟨some ⟨none⟩⟩),
        .response (some ⟨some ⟨some ⟨some "world"⟩⟩⟩)⟩).llmCalls = [] :=
  ⟨by decide,
   no_text_short_circuit Application.new ⟨"/w/a.png", "a.png", 4⟩ ⟨⟨5, "abc", 6⟩, 7, 8⟩
      ⟨true, .response (some ⟨some ⟨none⟩⟩), .response (some ⟨some ⟨some ⟨some "world"⟩⟩⟩)⟩
      (some ⟨some ⟨none⟩⟩) rfl rfl (by decide) (by decide)⟩

/-- C10, the code at a failing OCR call. The OCR request is refused (`ECONNREFUSED`), so
`recognizeText` rejects with its wrapped service error. At the end of
`_handleImageDetected` the record it created still has `status = 'processing'` and
`error = null`: the outer `catch` only shows the error notification and never updates the
record. The LLM stage was not called. -/
theorem ocr_failure_leaves_processing :
    recognizeText "/w/a.png" true
        (.failure ⟨"connect ECONNREFUSED 127.0.0.1:7321", some "ECONNREFUSED"⟩)
      = .error ⟨"OCR识别失败: connect ECONNREFUSED 127.0.0.1:7321", some "SERVICE_ERROR"⟩ ∧
    _handleImageDetected Application.new ⟨"/w/a.png", "a.png", 4⟩ ⟨⟨5, "abc", 6⟩, 7, 8⟩
      ⟨true, .failure ⟨"connect ECONNREFUSED 127.0.0.1:7321", some "ECONNREFUSED"⟩,
        .response (some ⟨some ⟨some ⟨some "world"⟩⟩⟩)⟩
      = { resultManager := { results := [
            { id := "result_5_abc", timestamp := 6, imagePath := some "/w/a.png",
              ocrText := none, llmResult := none, status := "processing", error := none,
              updatedAt := none }] }
          notifications := [.showError
            ⟨"OCR识别失败: connect ECONNREFUSED 127.0.0.1:7321", some "SERVICE_ERROR"⟩ "a.png"]
          llmCalls := [] } := by
  decide

/-! ## The four ways through the pipeline -/

theorem addResult_kept (rm : ResultManager) (env : AddEnv) (result : ResultInput) :
    (addResult rm env (some result)).2 = ⟨keptRecords rm ++ [mkProcessResult env result]⟩ := by
  simp only [addResult, keptRecords, List.length_append, List.length_singleton]
  by_cases h : rm.results.length < maxResults
  · rw [if_neg (by omega), if_pos h]
  · rw [if_pos (by omega), if_neg h]
    cases hres : rm.results with
    | nil => rw [hres] at h; simp [maxResults] at h
    | cons a t => rfl

theorem mem_keptRecords (rm : ResultManager) (x : ProcessResult) (h : x ∈ keptRecords rm) :
    x ∈ rm.results := by
  unfold keptRecords at h
  split at h
  · exact h
  · exact List.mem_of_mem_tail h

theorem createdRecord_id (data : ImageDetected) (env : AddEnv) :
    (createdRecord data env).id = _generateId env.idClock env.rnd := rfl

theorem processText_no_text (ocrText : Option String) (data : Option LlmBody)
    (h : truthy (llmResponseText data) = false) :
    processText ocrText (.response data) = .ok none := by
  unfold processText
  by_cases hb : (!truthy ocrText || trimIsEmpty (ocrText.getD "")) = true
  · simp [hb]
  · simp [hb, h]

/-- The run in which OCR finds no text: two updates, no LLM call, no notification. -/
theorem handleImageDetected_no_text (app : Application) (data : ImageDetected)
    (env : PipelineEnv) (io : ServiceReplies)
    (hocr : recognizeText data.filePath io.pathExists io.ocr = .ok none)
    (hfresh : ∀ x ∈ app.resultManager.results, x.id ≠ _generateId env.add.idClock env.add.rnd) :
    _handleImageDetected app data env io =
      { resultManager := ⟨keptRecords app.resultManager ++
          [{ createdRecord data env.add with
              ocrText := none, status := "completed", updatedAt := some env.t2 }]⟩
        notifications := app.notifications
        llmCalls := app.llmCalls } := by
  have hfl : ∀ x ∈ keptRecords app.resultManager,
      x.id ≠ _generateId env.add.idClock env.add.rnd :=
    fun x hx => hfresh x (mem_keptRecords _ x hx)
  have h1 := updateResult_last (keptRecords app.resultManager) (createdRecord data env.add)
    (_generateId env.add.idClock env.add.rnd)
    { ocrText := some none, status := some "ocr_failed" } env.t1 hfl rfl
  have h2 := updateResult_last (keptRecords app.resultManager)
    (applyUpdate (some { ocrText := some none, status := some "ocr_failed" }) env.t1
      (createdRecord data env.add))
    (_generateId env.add.idClock env.add.rnd) { status := some "completed" } env.t2 hfl rfl
  simp only [_handleImageDetected, detectedStart_eq, afterOcr, hocr, addResult_kept, truthy,
    Bool.not_false, Bool.false_eq_true, if_false, if_true]
  simp only [createdRecord, mkProcessResult] at h1 h2 ⊢
  simp only [h1, h2]
  rfl

/-- The run in which OCR returns `t` and the LLM stage returns `v` (a text or `null`). -/
theorem handleImageDetected_llm_returned (app : Application) (data : ImageDetected)
    (env : PipelineEnv) (io : ServiceReplies) (t : String) (v : Option String)
    (hocr : recognizeText data.filePath io.pathExists io.ocr = .ok (some t))
    (hllm : processText (some t) io.llm = .ok v)
    (hfresh : ∀ x ∈ app.resultManager.results, x.id ≠ _generateId env.add.idClock env.add.rnd) :
    _handleImageDetected app data env io =
      { resultManager := ⟨keptRecords app.resultManager ++
          [{ createdRecord data env.add with
              ocrText := some t, llmResult := v, status := "completed",
              updatedAt := some env.t2 }]⟩
        notifications := app.notifications ++
          [.showResult (some { createdRecord data env.add with
              ocrText := some t, llmResult := v, status := "completed",
              updatedAt := some env.t2 })]
        llmCalls := app.llmCalls ++ [t] } := by
  have hfl : ∀ x ∈ keptRecords app.resultManager,
      x.id ≠ _generateId env.add.idClock env.add.rnd :=
    fun x hx => hfresh x (mem_keptRecords _ x hx)
  have ht : truthy (some t) = true := recognizeText_ok_some _ _ _ _ hocr
  have h1 := updateResult_last (keptRecords app.resultManager) (createdRecord data env.add)
    (_generateId env.add.idClock env.add.rnd)
    { ocrText := some (some t), status := some "ocr_completed" } env.t1 hfl rfl
  have h2 := updateResult_last (keptRecords app.resultManager)
    (applyUpdate (some { ocrText := some (some t), status := some "ocr_completed" }) env.t1
      (createdRecord data env.add))
    (_generateId env.add.idClock env.add.rnd)
    { llmResult := some v, status := some "completed" } env.t2 hfl rfl
  have h3 := getResult_last (keptRecords app.resultManager)
    (applyUpdate (some { llmResult := some v, status := some "completed" }) env.t2
      (applyUpdate (some { ocrText := some (some t), status := some "ocr_completed" }) env.t1
        (createdRecord data env.add)))
    (_generateId env.add.idClock env.add.rnd) hfl rfl
  simp only [_handleImageDetected, detectedStart_eq, afterOcr, hocr, ht, addResult_kept,
    Bool.not_true, Bool.false_eq_true, if_false, if_true, Option.getD_some, hllm, afterLlm]
  simp only [createdRecord, mkProcessResult] at h1 h2 h3 ⊢
  simp only [h1, h2, h3]
  rfl

/-- The run in which OCR returns `t` and the LLM call rejects with `e`. -/
theorem handleImageDetected_llm_rejected (app : Application) (data : ImageDetected)
    (env : PipelineEnv) (io : ServiceReplies) (t : String) (e : JsError)
    (hocr : recognizeText data.filePath io.pathExists io.ocr = .ok (some t))
    (hllm : processText (some t) io.llm = .error e)
    (hfresh : ∀ x ∈ app.resultManager.results, x.id ≠ _generateId env.add.idClock env.add.rnd) :
    _handleImageDetected app data env io =
      { resultManager := ⟨keptRecords app.resultManager ++
          [{ createdRecord data env.add with
              ocrText := some t, status := "failed", error := some e,
              updatedAt := some env.t2 }]⟩
        notifications := app.notifications ++ [.showError e data.fileName]
        llmCalls := app.llmCalls ++ [t] } := by
  have hfl : ∀ x ∈ keptRecords app.resultManager,
      x.id ≠ _generateId env.add.idClock env.add.rnd :=
    fun x hx => hfresh x (mem_keptRecords _ x hx)
  have ht : truthy (some t) = true := recognizeText_ok_some _ _ _ _ hocr
  have h1 := updateResult_last (keptRecords app.resultManager) (createdRecord data env.add)
    (_generateId env.add.idClock env.add.rnd)
    { ocrText := some (some t), status := some "ocr_completed" } env.t1 hfl rfl
  have h2 := updateResult_last (keptRecords app.resultManager)
    (applyUpdate (some { ocrText := some (some t), status := some "ocr_completed" }) env.t1
      (createdRecord data env.add))
    (_generateId env.add.idClock env.add.rnd)
    { status := some "failed", error := some (some e) } env.t2 hfl rfl
  simp only [_handleImageDetected, detectedStart_eq, afterOcr, hocr, ht, addResult_kept,
    Bool.not_true, Bool.false_eq_true, if_false, if_true, Option.getD_some, hllm, afterLlm]
  simp only [createdRecord, mkProcessResult] at h1 h2 ⊢
  simp only [h1, h2]
  rfl

/-! ## Theorems on the LLM stage and the notifications -/

/-- C11: LLM call failure. When the OCR stage returns the text `t` (then non-empty) and the
LLM call throws `e`, and the id generated for the new record is carried by no record already
stored, then at the end of `_handleImageDetected` the record it created is the last of the
ledger with `status = 'failed'`, `ocrText = t`, `llmResult = null` and `error = e`. -/
theorem llm_failure_path (app : Application) (data : ImageDetected) (env : PipelineEnv)
    (io : ServiceReplies) (t : String) (e : JsError)
    (hocr : recognizeText data.filePath io.pathExists io.ocr = .ok (some t))
    (hllm : processText (some t) io.llm = .error e)
    (hfresh : ∀ x ∈ app.resultManager.results, x.id ≠ _generateId env.add.idClock env.add.rnd) :
    (_handleImageDetected app data env io).resultManager.results.getLast?
      = some { id := _generateId env.add.idClock env.add.rnd, timestamp := env.add.clock,
               imagePath := some data.filePath, ocrText := some t, llmResult := none,
               status := "failed", error := some e, updatedAt := some env.t2 } := by
  rw [handleImageDetected_llm_rejected app data env io t e hocr hllm hfresh]
  simp only [List.getLast?_append, List.getLast?_singleton]
  rfl

/-- Witness of C11: OCR returns "hello" and the LLM request times out. -/
theorem llm_failure_path_witness :
    recognizeText "/w/a.png" true (.response (some ⟨some ⟨some "hello"⟩⟩)) = .ok (some "hello") ∧
    processText (some "hello") (.failure ⟨"timeout of 60000ms exceeded", some "ECONNABORTED"⟩)
      = .error ⟨"大模型处理失败: timeout of 60000ms exceeded", some "SERVICE_ERROR"⟩ ∧
    (_handleImageDetected Application.new ⟨"/w/a.png", "a.png", 4⟩ ⟨⟨5, "abc", 6⟩, 7, 8⟩
      ⟨true, .response (some ⟨some ⟨some "hello"⟩⟩),
        .failure ⟨"timeout of 60000ms exceeded", some "ECONNABORTED"⟩⟩).resultManager.results.getLast?
      = some { id := "result_5_abc", timestamp := 6, imagePath := some "/w/a.png",
               ocrText := some "hello", llmResult := none, status := "failed",
               error := some ⟨"大模型处理失败: timeout of 60000ms exceeded", some "SERVICE_ERROR"⟩,
               updatedAt := some 8 } :=
  ⟨by decide, by decide,
   llm_failure_path Application.new ⟨"/w/a.png", "a.png", 4⟩ ⟨⟨5, "abc", 6⟩, 7, 8⟩
      ⟨true, .response (some ⟨some ⟨some "hello"⟩⟩),
        .failure ⟨"timeout of 60000ms exceeded", some "ECONNABORTED"⟩⟩ "hello"
      ⟨"大模型处理失败: timeout of 60000ms exceeded", some "SERVICE_ERROR"⟩
      (by decide) (by decide) (by decide)⟩

/-- C12, counterexample. OCR returns "hello" and the LLM answers `{ data: { outputs: {} } }`,
a body without `outputs.text`: `processText` returns `null` and the record ends with
`status = 'completed'` and `llmResult = null`, not with `'failed'`. -/
theorem llm_empty_is_failed_counterexample :
    processText (some "hello") (.response (some ⟨some ⟨some ⟨none⟩⟩⟩)) = .ok none ∧
    (_handleImageDetected Application.new ⟨"/w/a.png", "a.png", 4⟩ ⟨⟨5, "abc", 6⟩, 7, 8⟩
      ⟨true, .response (some ⟨some ⟨some "hello"⟩⟩),
        .response (some ⟨some ⟨some ⟨none⟩⟩⟩)⟩).resultManager.results
      = [{ id := "result_5_abc", timestamp := 6, imagePath := some "/w/a.png",
           ocrText := some "hello", llmResult := none, status := "completed",
           error := none, updatedAt := some 8 }] := by
  decide

/-- C12, amended. When the OCR stage returns the text `t` and the LLM response body lacks
`data.outputs.text` (absent or empty), `processText` returns `null` and, the generated id
being new to the ledger, the record ends with `status = 'completed'`, `ocrText = t`,
`llmResult = null` and no error; `showResult` is called with that record. -/
theorem llm_empty_completes (app : Application) (data : ImageDetected) (env : PipelineEnv)
    (io : ServiceReplies) (t : String) (body : Option LlmBody)
    (hocr : recognizeText data.filePath io.pathExists io.ocr = .ok (some t))
    (hreply : io.llm = .response body)
    (hnotext : truthy (llmResponseText body) = false)
    (hfresh : ∀ x ∈ app.resultManager.results, x.id ≠ _generateId env.add.idClock env.add.rnd) :
    processText (some t) io.llm = .ok none ∧
    (_handleImageDetected app data env io).resultManager.results.getLast?
      = some { id := _generateId env.add.idClock env.add.rnd, timestamp := env.add.clock,
               imagePath := some data.filePath, ocrText := some t, llmResult := none,
               status := "completed", error := none, updatedAt := some env.t2 } ∧
    (_handleImageDetected app data env io).notifications
      = app.notifications ++
        [.showResult (some
          { id := _generateId env.add.idClock env.add.rnd, timestamp := env.add.clock,
            imagePath := some data.filePath, ocrText := some t, llmResult := none,
            status := "completed", error := none, updatedAt := some env.t2 })] := by
  have hllm : processText (some t) io.llm = .ok none := by
    rw [hreply]
    exact processText_no_text _ _ hnotext
  rw [handleImageDetected_llm_returned app data env io t none hocr hllm hfresh]
  refine ⟨hllm, ?_, rfl⟩
  simp only [List.getLast?_append, List.getLast?_singleton]
  rfl

/-- Witness of the amended C12: the body `{ data: { outputs: { text: "" } } }`. -/
theorem llm_empty_completes_witness :
    recognizeText "/w/a.png" true (.response (some ⟨some ⟨some "hello"⟩⟩)) = .ok (some "hello") ∧
    truthy (llmResponseText (some ⟨some ⟨some ⟨some ""⟩⟩⟩)) = false ∧
    (_handleImageDetected Application.new ⟨"/w/a.png", "a.png", 4⟩ ⟨⟨5, "abc", 6⟩, 7, 8⟩
      ⟨true, .response (some ⟨some ⟨some "hello"⟩⟩),
        .response (some ⟨some ⟨some ⟨some ""⟩⟩⟩)⟩).resultManager.results.getLast?
      = some { id := "result_5_abc", timestamp := 6, imagePath := some "/w/a.png",
               ocrText := some "hello", llmResult := none, status := "completed",
               error := none, updatedAt := some 8 } :=
  ⟨by decide, by decide,
   (llm_empty_completes Application.new ⟨"/w/a.png", "a.png", 4⟩ ⟨⟨5, "abc", 6⟩, 7, 8⟩
      ⟨true, .response (some ⟨some ⟨some "hello"⟩⟩), .response (some ⟨some ⟨some ⟨some ""⟩⟩⟩)⟩
      "hello" (some ⟨some ⟨some ⟨some ""⟩⟩⟩) (by decide) rfl (by decide) (by decide)).2.1⟩

/-- C15, counterexample. The OCR response carries no text: the record reaches the terminal
status `completed`, and `_handleImageDetected` returns without any call of the
notification service. -/
theorem notification_on_terminal_counterexample :
    _handleImageDetected Application.new ⟨"/w/a.png", "a.png", 4⟩ ⟨⟨5, "abc", 6⟩, 7, 8⟩
      ⟨true, .response (some ⟨some ⟨none⟩⟩), .response (some ⟨some ⟨some ⟨some "world"⟩⟩⟩)⟩
      = { resultManager := { results := [
            { id := "result_5_abc", timestamp := 6, imagePath := some "/w/a.png",
              ocrText := none, llmResult := none, status := "completed", error := none,
              updatedAt := some 8 }] }
          notifications := []
          llmCalls := [] } := by
  decide

/-- C15, amended. The generated id being new to the ledger: whenever the LLM stage is
reached (OCR returned a text `t`), the record reaches a terminal status and the notification
service is called before `_handleImageDetected` returns, `showResult` with the final record
(`completed`) when the LLM stage returns and `showError` with the error (`failed`) when it
throws; when the record completes because OCR found no text, no call is made. -/
theorem notification_when_llm_reached (app : Application) (data : ImageDetected)
    (env : PipelineEnv) (io : ServiceReplies)
    (hfresh : ∀ x ∈ app.resultManager.results, x.id ≠ _generateId env.add.idClock env.add.rnd) :
    (∀ t v, recognizeText data.filePath io.pathExists io.ocr = .ok (some t) →
      processText (some t) io.llm = .ok v →
      ∃ r, (_handleImageDetected app data env io).resultManager.results.getLast? = some r ∧
        r.id = _generateId env.add.idClock env.add.rnd ∧ r.status = "completed" ∧
        (_handleImageDetected app data env io).notifications
          = app.notifications ++ [.showResult (some r)]) ∧
    (∀ t e, recognizeText data.filePath io.pathExists io.ocr = .ok (some t) →
      processText (some t) io.llm = .error e →
      ∃ r, (_handleImageDetected app data env io).resultManager.results.getLast? = some r ∧
        r.id = _generateId env.add.idClock env.add.rnd ∧ r.status = "failed" ∧
        r.error = some e ∧
        (_handleImageDetected app data env io).notifications
          = app.notifications ++ [.showError e data.fileName]) ∧
    (recognizeText data.filePath io.pathExists io.ocr = .ok none →
      ∃ r, (_handleImageDetected app data env io).resultManager.results.getLast? = some r ∧
        r.id = _generateId env.add.idClock env.add.rnd ∧ r.status = "completed" ∧
        (_handleImageDetected app data env io).notifications = app.notifications) := by
  refine ⟨?_, ?_, ?_⟩
  · intro t v hocr hllm
    rw [handleImageDetected_llm_returned app data env io t v hocr hllm hfresh]
    exact ⟨_, (by simp only [List.getLast?_append, List.getLast?_singleton]; rfl), rfl, rfl, rfl⟩
  · intro t e hocr hllm
    rw [handleImageDetected_llm_rejected app data env io t e hocr hllm hfresh]
    exact ⟨_, (by simp only [List.getLast?_append, List.getLast?_singleton]; rfl), rfl, rfl, rfl,
      rfl⟩
  · intro hocr
    rw [handleImageDetected_no_text app data env io hocr hfresh]
    exact ⟨_, (by simp only [List.getLast?_append, List.getLast?_singleton]; rfl), rfl, rfl, rfl⟩

/-- Witness of the amended C15: OCR returns "hello", the LLM returns "world", and
`showResult` is called with the completed record. -/
theorem notification_when_llm_reached_witness :
    ∃ r, (_handleImageDetected Application.new ⟨"/w/a.png", "a.png", 4⟩ ⟨⟨5, "abc", 6⟩, 7, 8⟩
        ⟨true, .response (some ⟨some ⟨some "hello"⟩⟩),
          .response (some ⟨some ⟨some ⟨some "world"⟩⟩⟩)⟩).resultManager.results.getLast? = some r ∧
      r.id = "result_5_abc" ∧ r.status = "completed" ∧
      (_handleImageDetected Application.new ⟨"/w/a.png", "a.png", 4⟩ ⟨⟨5, "abc", 6⟩, 7, 8⟩
        ⟨true, .response (some ⟨some ⟨some "hello"⟩⟩),
          .response (some ⟨some ⟨some ⟨some "world"⟩⟩⟩)⟩).notifications
        = Application.new.notifications ++ [.showResult (some r)] :=
  (notification_when_llm_reached Application.new ⟨"/w/a.png", "a.png", 4⟩ ⟨⟨5, "abc", 6⟩, 7, 8⟩
    ⟨true, .response (some ⟨some ⟨some "hello"⟩⟩), .response (some ⟨some ⟨some ⟨some "world"⟩⟩⟩)⟩
    (by decide)).1 "hello" (some "world") (by decide) (by decide)

/-! ## Theorems on clearResults -/

/-- C20, counterexample. On the ledger of two records stamped 0 and 1, `clearResults(0)`
removes both and returns 2, although both timestamps are `>= 0`: the test `if (olderThan)`
takes the number 0 for a missing cutoff. -/
theorem clearResults_cutoff_counterexample :
    clearResults (ResultManager.mk (fullLedger 2)) (some (.number 0)) = (2, ⟨[]⟩) ∧
    ((fullLedger 2).filter (fun r => decide (r.timestamp ≥ (Cutoff.number 0).ms))).length = 2 := by
  decide

/-- C20, amended. For every ledger: `clearResults()` with no cutoff, or with a falsy cutoff
(the number 0), empties the ledger and returns the previous number of records;
`clearResults(cutoff)` with a truthy cutoff (a `Date`, or a non-zero number of milliseconds)
keeps exactly the records whose timestamp is `>= cutoff`, in their previous order, and
returns the previous length minus the new length. -/
theorem clearResults_spec (rm : ResultManager) :
    clearResults rm none = (rm.results.length, ⟨[]⟩) ∧
    (∀ c, c.truthy = false → clearResults rm (some c) = (rm.results.length, ⟨[]⟩)) ∧
    (∀ c, c.truthy = true →
      (clearResults rm (some c)).2.results
        = rm.results.filter (fun r => decide (r.timestamp ≥ c.ms)) ∧
      (∀ r, r ∈ (clearResults rm (some c)).2.results ↔ r ∈ rm.results ∧ r.timestamp ≥ c.ms) ∧
      (clearResults rm (some c)).2.results.Sublist rm.results ∧
      (clearResults rm (some c)).1
        = rm.results.length - (clearResults rm (some c)).2.results.length) := by
  refine ⟨?_, ?_, ?_⟩
  · simp [clearResults]
  · intro c hc
    simp [clearResults, hc]
  · intro c hc
    have h : (clearResults rm (some c)).2.results
        = rm.results.filter (fun r => decide (r.timestamp ≥ c.ms)) := by
      simp [clearResults, hc]
    refine ⟨h, ?_, ?_, ?_⟩
    · intro r
      rw [h]
      simp
    · rw [h]
      exact List.filter_sublist rm.results
    · simp [clearResults, hc]

/-- Witness of the amended C20: the cutoff `new Date(1)` on the ledger stamped 0 and 1
keeps the second record and returns 1. -/
theorem clearResults_spec_witness :
    (Cutoff.date 1).truthy = true ∧
    (clearResults (ResultManager.mk (fullLedger 2)) (some (.date 1))).2.results
      = (ResultManager.mk (fullLedger 2)).results.filter
          (fun r => decide (r.timestamp ≥ (Cutoff.date 1).ms)) ∧
    (clearResults (ResultManager.mk (fullLedger 2)) (some (.date 1))).1 = 1 :=
  ⟨rfl,
   ((clearResults_spec (ResultManager.mk (fullLedger 2))).2.2 (.date 1) rfl).1,
   by decide⟩

/-! ## The extension filter -/

theorem modifyFirst_forall (P : ProcessResult → Prop) (p : ProcessResult → Bool)
    (f : ProcessResult → ProcessResult) (l : List ProcessResult)
    (h : ∀ r ∈ l, P r) (hf : ∀ r, l.find? p = some r → P (f r)) :
    ∀ r ∈ modifyFirst p f l, P r := by
  induction l with
  | nil => intro r hr; simp [modifyFirst] at hr
  | cons a t ih =>
    intro r hr
    unfold modifyFirst at hr
    by_cases hp : p a = true
    · rw [if_pos hp] at hr
      rcases List.mem_cons.mp hr with h1 | h1
      · rw [h1]
        exact hf a (by simp [List.find?_cons, hp])
      · exact h r (List.mem_cons_of_mem a h1)
    · rw [if_neg hp] at hr
      rcases List.mem_cons.mp hr with h1 | h1
      · rw [h1]
        exact h a (List.mem_cons_self a t)
      · refine ih (fun x hx => h x (List.mem_cons_of_mem a hx)) ?_ r h1
        intro x hx
        apply hf
        have : p a = false := by simpa using hp
        simp [List.find?_cons, this, hx]

/-- A property of the stored records survives `updateResult` when the patched record
has it. -/
theorem updateResult_forall (P : ProcessResult → Prop) (rm : ResultManager) (id : String)
    (updates : Option Patch) (now : Nat) (h : ∀ r ∈ rm.results, P r)
    (hf : ∀ r, rm.results.find? (fun r => r.id == id) = some r → P (applyUpdate updates now r)) :
    ∀ r ∈ (updateResult rm id updates now).2.results, P r := by
  unfold updateResult
  cases hfind : rm.results.find? (fun r => r.id == id) with
  | none => exact h
  | some x =>
    have := modifyFirst_forall P (fun r => r.id == id) (applyUpdate updates now) rm.results h hf
    cases updates <;> exact this

theorem applyUpdate_imagePath (u : Patch) (now : Nat) (r : ProcessResult)
    (hu : u.imagePath = none) : (applyUpdate (some u) now r).imagePath = r.imagePath := by
  simp [applyUpdate, assign, hu]

theorem updateResult_imagePath (Q : Option String → Prop) (rm : ResultManager) (id : String)
    (u : Patch) (now : Nat) (hu : u.imagePath = none) (h : ∀ r ∈ rm.results, Q r.imagePath) :
    ∀ r ∈ (updateResult rm id (some u) now).2.results, Q r.imagePath := by
  apply updateResult_forall (fun r => Q r.imagePath) rm id (some u) now h
  intro r hr
  rw [applyUpdate_imagePath u now r hu]
  exact h r (List.mem_of_find?_eq_some hr)

theorem afterOcr_imagePath (Q : Option String → Prop) (app : Application) (id : String)
    (data : ImageDetected) (ocr : Except JsError (Option String)) (t1 t2 : Nat)
    (h : ∀ r ∈ app.resultManager.results, Q r.imagePath) :
    ∀ r ∈ (afterOcr app id data ocr t1 t2).1.resultManager.results, Q r.imagePath := by
  unfold afterOcr
  cases ocr with
  | error e => exact h
  | ok ocrText =>
    by_cases ht : truthy ocrText = true
    · simp only [ht, Bool.not_true, Bool.false_eq_true, if_false, if_true]
      exact updateResult_imagePath Q app.resultManager id _ t1 rfl h
    · simp only [ht, Bool.not_false, if_true, if_false]
      exact updateResult_imagePath Q _ id { status := some "completed" } t2 rfl
        (updateResult_imagePath Q app.resultManager id _ t1 rfl h)

theorem afterLlm_imagePath (Q : Option String → Prop) (app : Application) (id : String)
    (data : ImageDetected) (llm : Except JsError (Option String)) (t : Nat)
    (h : ∀ r ∈ app.resultManager.results, Q r.imagePath) :
    ∀ r ∈ (afterLlm app id data llm t).resultManager.results, Q r.imagePath := by
  unfold afterLlm
  cases llm with
  | error e =>
    exact updateResult_imagePath Q _ id { status := some "failed", error := some (some e) } t
      rfl h
  | ok llmResult =>
    have h1 := updateResult_imagePath Q app.resultManager id
      { llmResult := some llmResult, status := some "completed" } t rfl h
    simp only
    split
    · exact h1
    · exact updateResult_imagePath Q _ id
        { status := some "failed", error := some (some nullRecordError) } t rfl h1

theorem release_imagesOnly (config : ConfigManager) (w : World) (filePath : String)
    (admitted : Bool) (h : ImagesOnly config w) : ImagesOnly config (release w filePath admitted) := by
  cases admitted <;> exact h

theorem settle_imagesOnly (config : ConfigManager) (w : World) (i : Nat) (s : Settled)
    (h : ImagesOnly config w) : ImagesOnly config (settle w i s) := by
  obtain ⟨hp, he, hr⟩ := h
  have hrest : ∀ t ∈ w.pending.eraseIdx i, isImageFile config t.filePath = true :=
    fun t ht => hp t ((List.eraseIdx_sublist w.pending i).subset ht)
  unfold settle
  rcases hi : w.pending[i]? with _ | task
  · exact ⟨hp, he, hr⟩
  · have htask : isImageFile config task.filePath = true :=
      hp task (List.getElem?_mem hi)
    cases task with
    | stabilityWait filePath =>
      cases s with
      | stability error =>
        cases error with
        | none =>
          refine ⟨?_, he, hr⟩
          intro t ht
          rcases List.mem_append.mp ht with h1 | h1
          · exact hrest t h1
          · rw [List.mem_singleton.mp h1]; exact htask
        | some e =>
          refine ⟨hrest, ?_, hr⟩
          intro d hd
          rcases List.mem_append.mp hd with h1 | h1
          · exact he d h1
          · simp at h1
      | access _ _ _ => exact ⟨hp, he, hr⟩
      | ocr _ _ _ _ => exact ⟨hp, he, hr⟩
      | llm _ _ => exact ⟨hp, he, hr⟩
    | accessCheck filePath admitted =>
      cases s with
      | access error clock env =>
        simp only [afterAccess]
        cases error with
        | none =>
          apply release_imagesOnly
          simp only [detectedStart_eq, addResult_kept]
          refine ⟨?_, ?_, ?_⟩
          · intro t ht
            rcases List.mem_append.mp ht with h1 | h1
            · exact hrest t h1
            · rw [List.mem_singleton.mp h1]; exact htask
          · intro d hd
            rcases List.mem_append.mp hd with h1 | h1
            · exact he d h1
            · have : d = ⟨filePath, basename filePath, clock⟩ := by simpa using h1
              rw [this]; exact htask
          · intro r hr1
            rcases List.mem_append.mp hr1 with h1 | h1
            · exact hr r (mem_keptRecords _ r h1)
            · rw [List.mem_singleton.mp h1]
              exact ⟨filePath, rfl, htask⟩
        | some e =>
          by_cases hc : e.code = some "ENOENT"
          · simp only [hc, if_true]
            exact release_imagesOnly config _ _ _ ⟨hrest, he, hr⟩
          · simp only [hc, if_false]
            cases admitted with
            | false => exact ⟨hrest, he, hr⟩
            | true =>
              simp only [if_true]
              apply release_imagesOnly
              refine ⟨hrest, ?_, hr⟩
              intro d hd
              rcases List.mem_append.mp hd with h1 | h1
              · exact he d h1
              · simp at h1
      | stability _ => exact ⟨hp, he, hr⟩
      | ocr _ _ _ _ => exact ⟨hp, he, hr⟩
      | llm _ _ => exact ⟨hp, he, hr⟩
    | ocr id data =>
      cases s with
      | ocr pathExists reply t1 t2 =>
        have hrec := afterOcr_imagePath
          (fun o => ∃ p, o = some p ∧ isImageFile config p = true) w.app id data
          (recognizeText data.filePath pathExists reply) t1 t2 hr
        simp only [afterOcrSettled]
        split
        · rename_i app ocrText heq
          rw [heq] at hrec
          refine ⟨?_, he, hrec⟩
          intro t ht
          rcases List.mem_append.mp ht with h1 | h1
          · exact hrest t h1
          · rw [List.mem_singleton.mp h1]; exact htask
        · rename_i app heq
          rw [heq] at hrec
          exact ⟨hrest, he, hrec⟩
      | stability _ => exact ⟨hp, he, hr⟩
      | access _ _ _ => exact ⟨hp, he, hr⟩
      | llm _ _ => exact ⟨hp, he, hr⟩
    | llm id data ocrText =>
      cases s with
      | llm reply t =>
        exact ⟨hrest, he, afterLlm_imagePath
          (fun o => ∃ p, o = some p ∧ isImageFile config p = true) w.app id data _ t hr⟩
      | stability _ => exact ⟨hp, he, hr⟩
      | access _ _ _ => exact ⟨hp, he, hr⟩
      | ocr _ _ _ _ => exact ⟨hp, he, hr⟩

theorem step_imagesOnly (config : ConfigManager) (w : World) (e : Event)
    (h : ImagesOnly config w) : ImagesOnly config (step config w e) := by
  cases e with
  | ready =>
    obtain ⟨hp, he, hr⟩ := h
    refine ⟨hp, ?_, hr⟩
    intro d hd
    rcases List.mem_append.mp hd with h1 | h1
    · exact he d h1
    · simp at h1
  | add filePath =>
    obtain ⟨hp, he, hr⟩ := h
    simp only [step, _handleFileAdded]
    by_cases himg : isImageFile config filePath = true
    · simp only [himg, Bool.not_true, Bool.false_eq_true, if_false]
      split
      · exact ⟨hp, he, hr⟩
      · refine ⟨?_, he, hr⟩
        intro t ht
        rcases List.mem_append.mp ht with h1 | h1
        · exact hp t h1
        · rw [List.mem_singleton.mp h1]; exact himg
    · simp only [himg, Bool.not_false, if_true]
      exact ⟨hp, he, hr⟩
  | change _ => exact h
  | unlink filePath =>
    obtain ⟨hp, he, hr⟩ := h
    simp only [step, _handleFileRemoved]
    split
    · refine ⟨hp, ?_, hr⟩
      intro d hd
      rcases List.mem_append.mp hd with h1 | h1
      · exact he d h1
      · simp at h1
    · exact ⟨hp, he, hr⟩
  | stopWatching =>
    obtain ⟨hp, he, hr⟩ := h
    refine ⟨hp, ?_, hr⟩
    intro d hd
    rcases List.mem_append.mp hd with h1 | h1
    · exact he d h1
    · simp at h1
  | processFile filePath =>
    obtain ⟨hp, he, hr⟩ := h
    simp only [step, processFile]
    split
    · rename_i himg
      refine ⟨?_, he, hr⟩
      intro t ht
      rcases List.mem_append.mp ht with h1 | h1
      · exact hp t h1
      · rw [List.mem_singleton.mp h1]; exact himg
    · exact ⟨hp, he, hr⟩
  | settle i s => exact settle_imagesOnly config w i s h

theorem run_imagesOnly (config : ConfigManager) (es : List Event) (w : World)
    (h : ImagesOnly config w) : ImagesOnly config (run config w es) := by
  induction es generalizing w with
  | nil => exact h
  | cons e es ih => exact ih (step config w e) (step_imagesOnly config w e h)

/-! ## The extension of a path -/

theorem foldl_enum_reverse (cs : List Char) (st : ExtScan) :
    cs.enum.reverse.foldl ExtScan.step st = scanRev cs.reverse st := by
  induction cs using List.reverseRecOn generalizing st with
  | nil => rfl
  | append_singleton l c ih =>
    simp only [List.enum_append, List.reverse_append, List.enumFrom_singleton,
      List.reverse_singleton, List.singleton_append, List.foldl_cons, scanRev,
      List.length_reverse, ih]

theorem scanRev_done (r : List Char) (st : ExtScan) (h : st.done = true) : scanRev r st = st := by
  induction r with
  | nil => rfl
  | cons c r ih =>
    have : st.step (r.length, c) = st := by simp [ExtScan.step, h]
    rw [scanRev, this]
    exact ih

theorem scanRev_slashes (slashes r : List Char) (st : ExtScan) (hs : ∀ c ∈ slashes, c = '/')
    (hd : st.done = false) (hm : st.matchedSlash = true) :
    scanRev (slashes ++ r) st = scanRev r st := by
  induction slashes with
  | nil => rfl
  | cons c t ih =>
    have hc : c = '/' := hs c (List.mem_cons_self c t)
    have : st.step ((t ++ r).length, c) = st := by simp [ExtScan.step, hd, hm, hc]
    rw [List.cons_append, scanRev, this]
    exact ih (fun x hx => hs x (List.mem_cons_of_mem c hx))

/-- The end of the segment: nothing is left, or a slash is met and the loop breaks. -/
theorem scanRev_rest (rest : List Char) (st : ExtScan)
    (hrest : rest = [] ∨ ∃ t, rest = '/' :: t)
    (hd : st.done = false) (hm : st.matchedSlash = false) (hp : st.startPart = 0) :
    scanRev rest st = { st with startPart := rest.length, done := !rest.isEmpty } := by
  rcases hrest with h | ⟨t, h⟩
  · subst h
    cases st
    simp_all [scanRev]
  · subst h
    have : st.step (t.length, '/') = { st with startPart := t.length + 1, done := true } := by
      simp [ExtScan.step, hd, hm]
    rw [scanRev, this, scanRev_done _ _ rfl]
    simp

theorem scanRev_head (headR rest : List Char) (st : ExtScan)
    (hh : ∀ c ∈ headR, c ≠ '/') (hrest : rest = [] ∨ ∃ t, rest = '/' :: t)
    (hd : st.done = false) (hm : st.matchedSlash = false) (he : st.endIdx ≠ none)
    (hs : st.startDot ≠ none) (hp : st.startPart = 0) :
    scanRev (headR ++ rest) st =
      { st with preDotState := headR.foldl (fun _ c => if c = '.' then 1 else -1) st.preDotState
                startPart := rest.length, done := !rest.isEmpty } := by
  induction headR generalizing st with
  | nil =>
    rw [List.nil_append, scanRev_rest rest st hrest hd hm hp]
    rfl
  | cons c t ih =>
    have hc : c ≠ '/' := hh c (List.mem_cons_self c t)
    have hstep : st.step ((t ++ rest).length, c)
        = { st with preDotState := if c = '.' then 1 else -1 } := by
      by_cases hdot : c = '.'
      · by_cases h1 : st.preDotState = 1
        · cases st
          simp_all [ExtScan.step]
        · simp [ExtScan.step, hd, hc, he, hs, hdot, h1]
      · simp [ExtScan.step, hd, hc, he, hs, hdot]
    rw [List.cons_append, scanRev, hstep,
      ih { st with preDotState := if c = '.' then 1 else -1 }
        (fun x hx => hh x (List.mem_cons_of_mem c hx)) hd hm he hs hp]
    rfl

theorem scanRev_tail (tailR more : List Char) (st : ExtScan)
    (ht : ∀ c ∈ tailR, c ≠ '/' ∧ c ≠ '.')
    (hd : st.done = false) (he : st.endIdx ≠ none) (hs : st.startDot = none) :
    scanRev (tailR ++ more) st = scanRev more st := by
  induction tailR with
  | nil => rfl
  | cons c t ih =>
    obtain ⟨h1, h2⟩ := ht c (List.mem_cons_self c t)
    have : st.step ((t ++ more).length, c) = st := by simp [ExtScan.step, hd, he, hs, h1, h2]
    rw [List.cons_append, scanRev, this]
    exact ih (fun x hx => ht x (List.mem_cons_of_mem c hx))

theorem scanRev_open (c : Char) (r : List Char) (st : ExtScan) (hc : c ≠ '/')
    (hd : st.done = false) (he : st.endIdx = none) :
    scanRev (c :: r) st
      = scanRev (c :: r) { st with matchedSlash := false, endIdx := some (r.length + 1) } := by
  have : st.step (r.length, c)
      = ExtScan.step { st with matchedSlash := false, endIdx := some (r.length + 1) }
          (r.length, c) := by
    simp [ExtScan.step, hd, hc, he]
  rw [scanRev, scanRev, this]


theorem scanRev_dot (tailR headR rest : List Char) (st : ExtScan)
    (ht : ∀ c ∈ tailR, c ≠ '/' ∧ c ≠ '.') (hh : ∀ c ∈ headR, c ≠ '/')
    (hrest : rest = [] ∨ ∃ t, rest = '/' :: t)
    (hd : st.done = false) (hm : st.matchedSlash = false) (he : st.endIdx ≠ none)
    (hs : st.startDot = none) (hp : st.startPart = 0) :
    scanRev (tailR ++ '.' :: (headR ++ rest)) st =
      { st with startDot := some (headR.length + rest.length)
                preDotState := headR.foldl (fun _ c => if c = '.' then 1 else -1) st.preDotState
                startPart := rest.length, done := !rest.isEmpty } := by
  have hstep : st.step ((headR ++ rest).length, '.')
      = { st with startDot := some (headR.length + rest.length) } := by
    simp [ExtScan.step, hd, he, hs]
  rw [scanRev_tail tailR _ st ht hd he hs, scanRev, hstep,
    scanRev_head headR rest { st with startDot := some (headR.length + rest.length) } hh hrest
      hd hm he (by simp) hp]

theorem scanRev_nodot (tailR rest : List Char) (st : ExtScan)
    (ht : ∀ c ∈ tailR, c ≠ '/' ∧ c ≠ '.') (hrest : rest = [] ∨ ∃ t, rest = '/' :: t)
    (hd : st.done = false) (hm : st.matchedSlash = false) (he : st.endIdx ≠ none)
    (hs : st.startDot = none) (hp : st.startPart = 0) :
    scanRev (tailR ++ rest) st = { st with startPart := rest.length, done := !rest.isEmpty } := by
  rw [scanRev_tail tailR _ st ht hd he hs, scanRev_rest rest st hrest hd hm hp]

theorem foldl_preDot (headR : List Char) (a : Int) (h : headR ≠ []) :
    headR.foldl (fun _ c => if c = '.' then 1 else -1) a
      = if headR.getLast h = '.' then 1 else -1 := by
  induction headR generalizing a with
  | nil => exact absurd rfl h
  | cons c t ih =>
    cases t with
    | nil => rfl
    | cons d u =>
      rw [List.foldl_cons, ih _ (List.cons_ne_nil d u)]
      rfl


theorem scanRev_segment_dot (tailR headR rest : List Char)
    (ht : ∀ c ∈ tailR, c ≠ '/' ∧ c ≠ '.') (hh : ∀ c ∈ headR, c ≠ '/')
    (hrest : rest = [] ∨ ∃ t, rest = '/' :: t) :
    scanRev (tailR ++ '.' :: (headR ++ rest)) {} =
      { startDot := some (headR.length + rest.length)
        startPart := rest.length
        endIdx := some (tailR.length + (headR.length + rest.length) + 1)
        matchedSlash := false
        preDotState := headR.foldl (fun _ c => if c = '.' then 1 else -1) 0
        done := !rest.isEmpty } := by
  cases tailR with
  | nil =>
    rw [List.nil_append, scanRev_open '.' _ {} (by decide) rfl rfl]
    have := scanRev_dot [] headR rest
      { matchedSlash := false, endIdx := some ((headR ++ rest).length + 1) }
      (by simp) hh hrest rfl rfl (by simp) rfl rfl
    rw [List.nil_append] at this
    rw [this]
    simp
  | cons c t =>
    rw [List.cons_append, scanRev_open c _ {} (ht c (List.mem_cons_self c t)).1 rfl rfl]
    have := scanRev_dot (c :: t) headR rest
      { matchedSlash := false, endIdx := some ((t ++ '.' :: (headR ++ rest)).length + 1) }
      ht hh hrest rfl rfl (by simp) rfl rfl
    rw [List.cons_append] at this
    rw [this]
    simp
    omega

theorem extname_of_dot (path : String) (slashes tailR headR rest : List Char)
    (h : path.data.reverse = slashes ++ (tailR ++ '.' :: (headR ++ rest)))
    (hsl : ∀ c ∈ slashes, c = '/') (ht : ∀ c ∈ tailR, c ≠ '/' ∧ c ≠ '.')
    (hh : ∀ c ∈ headR, c ≠ '/') (hrest : rest = [] ∨ ∃ t, rest = '/' :: t) :
    extname path
      = if headR = [] ∨ (tailR = [] ∧ headR = ['.']) then ""
        else String.mk ('.' :: tailR.reverse) := by
  have hdata : path.data
      = (rest.reverse ++ headR.reverse) ++ (('.' :: tailR.reverse) ++ slashes.reverse) := by
    have := congrArg List.reverse h
    simpa using this
  unfold extname
  rw [foldl_enum_reverse, h, scanRev_slashes _ _ _ hsl rfl rfl,
    scanRev_segment_dot tailR headR rest ht hh hrest]
  simp only []
  have hslice : List.take (tailR.length + (headR.length + rest.length) + 1
        - (headR.length + rest.length)) (List.drop (headR.length + rest.length) path.data)
      = '.' :: tailR.reverse := by
    rw [hdata, List.drop_left' (by simp [Nat.add_comm]), List.take_left' (by simp; omega)]
  rw [hslice]
  cases headR with
  | nil => simp
  | cons c t =>
    cases t with
    | nil =>
      by_cases hc : c = '.'
      · cases tailR with
        | nil => simp [hc, Nat.add_comm]
        | cons d u => simp [hc]
      · simp [hc]
    | cons d u =>
      have hpd := foldl_preDot (c :: d :: u) 0 (List.cons_ne_nil c _)
      have h0 : List.foldl (fun _ c => if c = '.' then (1 : Int) else -1) 0 (c :: d :: u) ≠ 0 := by
        rw [hpd]
        split <;> decide
      simp only [List.foldl_cons] at h0
      simp
      rintro (h1 | ⟨-, h2⟩)
      · exact absurd h1 h0
      · omega


theorem extname_of_nodot (path : String) (slashes tailR rest : List Char)
    (h : path.data.reverse = slashes ++ (tailR ++ rest))
    (hsl : ∀ c ∈ slashes, c = '/') (ht : ∀ c ∈ tailR, c ≠ '/' ∧ c ≠ '.')
    (hrest : rest = [] ∨ ∃ t, rest = '/' :: t) (hnil : tailR = [] → rest = []) :
    extname path = "" := by
  unfold extname
  rw [foldl_enum_reverse, h, scanRev_slashes _ _ _ hsl rfl rfl]
  cases tailR with
  | nil =>
    rw [hnil rfl]
    rfl
  | cons c t =>
    rw [List.cons_append, scanRev_open c _ {} (ht c (List.mem_cons_self c t)).1 rfl rfl]
    have := scanRev_nodot (c :: t) rest
      { matchedSlash := false, endIdx := some ((t ++ rest).length + 1) }
      ht hrest rfl rfl (by simp) rfl rfl
    rw [List.cons_append] at this
    rw [this]

theorem takeWhile_dropWhile_cases {α : Type} (p : α → Bool) (l : List α) :
    (∀ x ∈ l.takeWhile p, p x = true) ∧
    (l.dropWhile p = [] ∨ ∃ y ys, l.dropWhile p = y :: ys ∧ p y = false) := by
  refine ⟨fun x hx => List.mem_takeWhile_imp hx, ?_⟩
  cases h : l.dropWhile p with
  | nil => exact Or.inl rfl
  | cons y ys =>
    right
    have := List.head_dropWhile_not p l (by rw [h]; exact List.cons_ne_nil y ys)
    simp only [h, List.head_cons] at this
    exact ⟨y, ys, rfl, this⟩

theorem extname_eq_extensionOf (path : String) : extname path = extensionOf path := by
  obtain ⟨hsl, hr1⟩ := takeWhile_dropWhile_cases (· = '/') path.data.reverse
  obtain ⟨hseg, hrest⟩ :=
    takeWhile_dropWhile_cases (· ≠ '/') (path.data.reverse.dropWhile (· = '/'))
  obtain ⟨htail, hafter⟩ := takeWhile_dropWhile_cases (· ≠ '.')
    ((path.data.reverse.dropWhile (· = '/')).takeWhile (· ≠ '/'))
  have e1 := (List.takeWhile_append_dropWhile (· = '/') path.data.reverse).symm
  have e2 := (List.takeWhile_append_dropWhile (· ≠ '/')
    (path.data.reverse.dropWhile (· = '/'))).symm
  have e3 := (List.takeWhile_append_dropWhile (· ≠ '.')
    ((path.data.reverse.dropWhile (· = '/')).takeWhile (· ≠ '/'))).symm
  unfold extensionOf basename
  simp only [List.reverse_reverse]
  generalize List.takeWhile (· ≠ '.')
    ((path.data.reverse.dropWhile (· = '/')).takeWhile (· ≠ '/')) = tailR at *
  generalize List.dropWhile (· ≠ '.')
    ((path.data.reverse.dropWhile (· = '/')).takeWhile (· ≠ '/')) = after at *
  generalize (path.data.reverse.dropWhile (· = '/')).takeWhile (· ≠ '/') = segR at *
  generalize (path.data.reverse.dropWhile (· = '/')).dropWhile (· ≠ '/') = rest at *
  generalize path.data.reverse.dropWhile (· = '/') = r1 at *
  generalize path.data.reverse.takeWhile (· = '/') = slashes at *
  have hsl2 : ∀ c ∈ slashes, c = '/' := fun c hc => by simpa using hsl c hc
  have hseg2 : ∀ c ∈ segR, c ≠ '/' := fun c hc => by simpa using hseg c hc
  have htail2 : ∀ c ∈ tailR, c ≠ '/' ∧ c ≠ '.' := fun c hc =>
    ⟨hseg2 c (by rw [e3]; exact List.mem_append_left _ hc), by simpa using htail c hc⟩
  have hrest2 : rest = [] ∨ ∃ t, rest = '/' :: t := by
    rcases hrest with h | ⟨y, ys, h, hy⟩
    · exact Or.inl h
    · exact Or.inr ⟨ys, by rw [h]; simp at hy; rw [hy]⟩
  rcases hafter with ha | ⟨y, headR, ha, hy⟩
  · rw [ha, List.append_nil] at e3
    have hnodot : '.' ∉ segR := by
      rw [e3]
      exact fun hx => (htail2 '.' hx).2 rfl
    have hnil : tailR = [] → rest = [] := by
      intro ht
      rw [← e3] at ht
      rw [ht, List.nil_append] at e2
      rcases hrest2 with h | ⟨t, h⟩
      · exact h
      · rcases hr1 with h1 | ⟨z, zs, h1, hz⟩
        · rw [h1] at e2; exact e2.symm
        · rw [h1, h] at e2
          injection e2 with e2 _
          rw [e2] at hz
          simp at hz
    rw [extname_of_nodot path slashes tailR rest (by rw [e1, e2, e3]) hsl2 htail2 hrest2 hnil]
    simp [hnodot]
  · have hy2 : y = '.' := by simpa using hy
    subst hy2
    rw [ha] at e3
    have hh : ∀ c ∈ headR, c ≠ '/' := fun c hc =>
      hseg2 c (by rw [e3]; exact List.mem_append_right _ (List.mem_cons_of_mem _ hc))
    rw [extname_of_dot path slashes tailR headR rest (by rw [e1, e2, e3, List.append_assoc]; rfl)
      hsl2 htail2 hh hrest2]
    have hmem : '.' ∈ segR := by
      rw [e3]
      exact List.mem_append_right _ (List.mem_cons_self _ _)
    have hdd : segR.reverse = ['.', '.'] ↔ tailR = [] ∧ headR = ['.'] := by
      rw [List.reverse_eq_iff, e3]
      cases tailR with
      | nil => simp
      | cons d u =>
        have hd : d ≠ '.' := (htail2 d (List.mem_cons_self d u)).2
        simp [hd]
    by_cases h1 : headR = []
    · simp [h1, ha]
    · by_cases h2 : tailR = [] ∧ headR = ['.']
      · have h3 := hdd.2 h2
        simp [h2, h3]
      · have h3 : ¬ segR.reverse = ['.', '.'] := fun h => h2 (hdd.1 h)
        simp only [h1, h2, or_self, if_false]
        simp [hmem, ha, h1, h3]

/-- C16: the extension filter. (1) `isImageFile(path)` is true exactly when the extension of
the path (from the last `.` of its last portion to the end of that portion; none when the
portion has no `.`, starts with its last `.`, or is `..`), lower-cased by the engine, is a
member of `supportedImageExtensions`; (2) with the default list `test.jpg` is an image and
`test.txt` is not, upper-case extensions are accepted, only the extension of the last
portion counts, and a leading or a trailing `.` gives no accepted extension; (3) an
extension outside ASCII (`É`, or the Kelvin sign U+212A) is accepted when the engine
lowers it to a listed one; (4) for a
path that is not an image, `_handleFileAdded` emits nothing, suspends nothing and leaves the
application as it was, and `processFile` does nothing at all; (5) whatever the events handled
from the initial program, every `imageDetected` event emitted and every record stored
carries a path that `isImageFile` accepts, so no record is ever created for another path. -/
theorem extension_filter (config : ConfigManager) :
    (∀ path, isImageFile config path = true ↔
      config.toLowerCase (extensionOf path) ∈ config.supportedImageExtensions) ∧
    (isImageFile ConfigManager.default "test.jpg" = true ∧
      isImageFile ConfigManager.default "test.txt" = false ∧
      isImageFile ConfigManager.default "/shots/IMG_0001.PNG" = true ∧
      isImageFile ConfigManager.default "photo.JpEg" = true ∧
      isImageFile ConfigManager.default "/w/archive.tar.webp" = true ∧
      isImageFile ConfigManager.default "/w/scan.png/" = true ∧
      isImageFile ConfigManager.default "/w/..gif" = true ∧
      isImageFile ConfigManager.default "/w/scan.png.txt" = false ∧
      isImageFile ConfigManager.default "/w/shots.png/readme" = false ∧
      isImageFile ConfigManager.default "/w/.png" = false ∧
      isImageFile ConfigManager.default "/w/png" = false ∧
      isImageFile ConfigManager.default "/w/scan.png." = false ∧
      isImageFile ConfigManager.default "/w/scan.pngx" = false ∧
      isImageFile ConfigManager.default "/w/scan png" = false) ∧
    (∀ lower : String → String,
      (lower ".É" = ".é" → isImageFile ⟨[".é", ".mkv"], lower⟩ "a.É" = true) ∧
      (lower ".m\u212Av" = ".mkv" → isImageFile ⟨[".é", ".mkv"], lower⟩ "a.m\u212Av" = true)) ∧
    (∀ w path, isImageFile config path = false →
      (step config w (.add path)).emitted = w.emitted ∧
      (step config w (.add path)).pending = w.pending ∧
      (step config w (.add path)).app = w.app ∧
      step config w (.processFile path) = w) ∧
    (∀ es,
      (∀ d, Emitted.imageDetected d ∈ (run config World.new es).emitted →
        isImageFile config d.filePath = true) ∧
      (∀ r ∈ (run config World.new es).app.resultManager.results,
        ∃ p, r.imagePath = some p ∧ isImageFile config p = true)) := by
  refine ⟨?_, by decide, ?_, ?_, ?_⟩
  · intro path
    simp [isImageFile, extname_eq_extensionOf]
  · intro lower
    constructor
    · intro h
      have he : extname "a.É" = ".É" := by decide
      simp [isImageFile, he, h]
    · intro h
      have he : extname "a.m\u212Av" = ".m\u212Av" := by decide
      simp [isImageFile, he, h]
  · intro w path himg
    simp [step, _handleFileAdded, processFile, himg]
  · intro es
    have hinit : ImagesOnly config World.new := by
      refine ⟨?_, ?_, ?_⟩ <;> simp [World.new, Application.new, ResultManager.new]
    exact (run_imagesOnly config es World.new hinit).2

/-- Witness of C16: `/w/notes.txt`, which the default configuration rejects, goes through
`_handleFileAdded` and `processFile` without a trace; `/shots/IMG_0001.PNG` is accepted
because its extension `.PNG` of the words above, lower-cased, is in the default list. -/
theorem extension_filter_witness :
    isImageFile ConfigManager.default "/w/notes.txt" = false ∧
    ((step ConfigManager.default World.new (.add "/w/notes.txt")).emitted = World.new.emitted ∧
      (step ConfigManager.default World.new (.add "/w/notes.txt")).pending = World.new.pending ∧
      (step ConfigManager.default World.new (.add "/w/notes.txt")).app = World.new.app ∧
      step ConfigManager.default World.new (.processFile "/w/notes.txt") = World.new) ∧
    extensionOf "/shots/IMG_0001.PNG" = ".PNG" ∧
    ConfigManager.default.toLowerCase (extensionOf "/shots/IMG_0001.PNG")
      ∈ ConfigManager.default.supportedImageExtensions ∧
    isImageFile ConfigManager.default "/shots/IMG_0001.PNG" = true :=
  ⟨by decide,
   (extension_filter ConfigManager.default).2.2.2.1 World.new "/w/notes.txt" (by decide),
   by decide, by decide,
   ((extension_filter ConfigManager.default).1 "/shots/IMG_0001.PNG").2 (by decide)⟩

/-! ## The stability wait -/

/-- A file of constant non-zero size: the first poll records the size, the next three
find it unchanged, and the wait ends as stable at the fourth poll, after three waits. -/
theorem waitLoop_nonempty (maxWait bytes e0 e1 e2 e3 : Nat) (rest : List Poll)
    (hb : bytes ≠ 0) (h0 : e0 < maxWait) (h1 : e1 < maxWait) (h2 : e2 < maxWait)
    (h3 : e3 < maxWait) :
    waitLoop maxWait 0 0 0
        (⟨e0, .size bytes⟩ :: ⟨e1, .size bytes⟩ :: ⟨e2, .size bytes⟩ :: ⟨e3, .size bytes⟩ :: rest)
      = .stable bytes 3 e3 := by
  simp [waitLoop, h0, h1, h2, h3, hb]

/-- An empty file: the first poll already finds the size equal to the initial
`lastSize = 0`, and the wait ends as stable at the third poll, after two waits. -/
theorem waitLoop_empty (maxWait e0 e1 e2 : Nat) (rest : List Poll)
    (h0 : e0 < maxWait) (h1 : e1 < maxWait) (h2 : e2 < maxWait) :
    waitLoop maxWait 0 0 0 (⟨e0, .size 0⟩ :: ⟨e1, .size 0⟩ :: ⟨e2, .size 0⟩ :: rest)
      = .stable 0 2 e2 := by
  simp [waitLoop, h0, h1, h2]

theorem steadyPolls_four (bytes n : Nat) :
    steadyPolls bytes (n + 4) =
      ⟨0, .size bytes⟩ :: ⟨500, .size bytes⟩ :: ⟨1000, .size bytes⟩ :: ⟨1500, .size bytes⟩ ::
        (List.range n).map (fun k => { elapsed := 500 * (k + 4), stat := .size bytes }) := by
  simp [steadyPolls, List.range_succ_eq_map, List.map_map, Function.comp_def]

/-- On the clock where every wait takes 500 ms, a file of constant non-zero size is reported
stable at 1500 ms, after three waits and before `maxWait = 5000`, as soon as four polls have
been answered. -/
theorem waitForFileStable_steady_nonempty (bytes n : Nat) (hb : bytes ≠ 0) :
    _waitForFileStable (steadyPolls bytes (n + 4)) = .stable bytes 3 1500 := by
  rw [steadyPolls_four]
  exact waitLoop_nonempty 5000 bytes 0 500 1000 1500 _ hb (by decide) (by decide) (by decide)
    (by decide)

/-- C17, the code on an empty file. The size is 0 at every poll, on the clock where every
wait takes 500 ms: `_waitForFileStable` (threshold 3, `maxWait = 5000`) ends as stable at
the third poll, after two waits, 1000 ms after its start, not at or after 1500 ms. The
10-byte file of the claim is reported stable at 1500 ms, after three waits. -/
theorem stable_empty_file_after_two_waits :
    _waitForFileStable (steadyPolls 0 12) = .stable 0 2 1000 ∧
    _waitForFileStable (steadyPolls 10 12) = .stable 10 3 1500 := by
  decide

theorem waitLoop_append (maxWait : Nat) (pre rest : List Poll) :
    ∀ lastSize stableCount sleeps lastSize1 stableCount1 sleeps1,
      waitLoop maxWait lastSize stableCount sleeps pre = .polling lastSize1 stableCount1 sleeps1 →
      waitLoop maxWait lastSize stableCount sleeps (pre ++ rest)
        = waitLoop maxWait lastSize1 stableCount1 sleeps1 rest := by
  induction pre with
  | nil =>
    intro ls sc sl ls1 sc1 sl1 h
    simp only [waitLoop] at h
    injection h with h1 h2 h3
    rw [h1, h2, h3]
    rfl
  | cons poll pre ih =>
    intro ls sc sl ls1 sc1 sl1 h
    simp only [List.cons_append, waitLoop] at h ⊢
    by_cases ht : poll.elapsed < maxWait
    · simp only [ht, if_true] at h ⊢
      cases hs : poll.stat with
      | size bytes =>
        simp only [hs] at h ⊢
        by_cases hb : bytes = ls
        · simp only [hb, if_true] at h ⊢
          by_cases hc : sc + 1 ≥ 3
          · simp only [hc, if_true] at h
            cases h
          · simp only [hc, if_false] at h ⊢
            exact ih _ _ _ _ _ _ h
        · simp only [hb, if_false] at h ⊢
          exact ih _ _ _ _ _ _ h
      | error e =>
        simp only [hs] at h
        split at h <;> cases h
    · simp only [ht, if_false] at h
      cases h

/-- C18: vanished file. Let the handler admitted for `path` be suspended in its stability
wait, and let a poll of the wait take place (the loop is still polling after the polls
before it, and its loop test passes) and find that the path no longer exists (`ENOENT`).
Then the wait ends at that poll by throwing the file-vanished error, it is neither stable
nor timed out, whatever later polls would answer; and in the turn that ends the wait the
watcher emits `fileError` and no `imageDetected`, suspends nothing further, leaves the
application (ledger included) as it was, and the path is no longer in the in-flight set. -/
theorem vanished_file (w : World) (i : Nat) (path : String) (pre rest : List Poll)
    (poll : Poll) (e : JsError) (lastSize stableCount sleeps : Nat)
    (hpending : w.pending[i]? = some (.stabilityWait path))
    (hpre : _waitForFileStable pre = .polling lastSize stableCount sleeps)
    (htime : poll.elapsed < 5000) (hstat : poll.stat = .error e)
    (hcode : e.code = some "ENOENT") :
    _waitForFileStable (pre ++ poll :: rest) = .threw vanishedError sleeps poll.elapsed ∧
    (settleWait w i (pre ++ poll :: rest)).emitted
      = w.emitted ++ [.fileError path vanishedError] ∧
    (settleWait w i (pre ++ poll :: rest)).pending = w.pending.eraseIdx i ∧
    (settleWait w i (pre ++ poll :: rest)).app = w.app ∧
    path ∉ (settleWait w i (pre ++ poll :: rest)).watcher.watchedFiles := by
  have hwait : _waitForFileStable (pre ++ poll :: rest)
      = .threw vanishedError sleeps poll.elapsed := by
    unfold _waitForFileStable at hpre ⊢
    rw [waitLoop_append 5000 pre (poll :: rest) _ _ _ _ _ _ hpre]
    simp [waitLoop, htime, hstat, hcode]
  refine ⟨hwait, ?_, ?_, ?_, ?_⟩
  · simp [settleWait, hwait, WaitResult.settled, settle, hpending, afterStability, release]
  · simp [settleWait, hwait, WaitResult.settled, settle, hpending, afterStability, release]
  · simp [settleWait, hwait, WaitResult.settled, settle, hpending, afterStability, release]
  · simp [settleWait, hwait, WaitResult.settled, settle, hpending, afterStability,
      release_watchedFiles]

/-- Witness of C18: `/w/a.png` is admitted, its first poll sees 10 bytes and its second poll,
500 ms later, finds the file gone. -/
theorem vanished_file_witness :
    (step ConfigManager.default World.new (.add "/w/a.png")).pending[0]?
      = some (.stabilityWait "/w/a.png") ∧
    _waitForFileStable [⟨0, .size 10⟩] = .polling 10 0 1 ∧
    _waitForFileStable ([⟨0, .size 10⟩] ++
        ⟨500, .error ⟨"ENOENT: no such file or directory", some "ENOENT"⟩⟩ :: [])
      = .threw vanishedError 1 500 ∧
    (settleWait (step ConfigManager.default World.new (.add "/w/a.png")) 0
        ([⟨0, .size 10⟩] ++
          ⟨500, .error ⟨"ENOENT: no such file or directory", some "ENOENT"⟩⟩ :: [])).emitted
      = (step ConfigManager.default World.new (.add "/w/a.png")).emitted ++
          [.fileError "/w/a.png" vanishedError] ∧
    "/w/a.png" ∉ (settleWait (step ConfigManager.default World.new (.add "/w/a.png")) 0
        ([⟨0, .size 10⟩] ++
          ⟨500, .error ⟨"ENOENT: no such file or directory", some "ENOENT"⟩⟩ :: [])
        ).watcher.watchedFiles := by
  have h := vanished_file (step ConfigManager.default World.new (.add "/w/a.png")) 0 "/w/a.png"
    [⟨0, .size 10⟩] [] ⟨500, .error ⟨"ENOENT: no such file or directory", some "ENOENT"⟩⟩
    ⟨"ENOENT: no such file or directory", some "ENOENT"⟩ 10 0 1
    (by decide) (by decide) (by decide) rfl rfl
  exact ⟨by decide, by decide, h.1, h.2.1, h.2.2.2.2⟩

/-! ## Containment of the failures of one file -/

theorem notify_of_return (app : Application) (n : Notification)
    (replies : List (Option JsError)) (h : ∀ o ∈ replies, o = none) :
    notify app n replies
      = (none, { app with notifications := app.notifications ++ [n] }, replies.tail) := by
  unfold notify
  cases replies with
  | nil => rfl
  | cons o rest =>
    have ho : o = none := h o (List.mem_cons_self o rest)
    rw [ho]
    rfl

theorem tail_all_return (replies : List (Option JsError)) (h : ∀ o ∈ replies, o = none) :
    ∀ o ∈ replies.tail, o = none :=
  fun o ho => h o (List.mem_of_mem_tail ho)

/-- When every notification call returns, the function returns, in the state computed by
`_handleImageDetected`. -/
theorem handleImageDetectedThrowing_of_return (app : Application) (data : ImageDetected)
    (env : PipelineEnv) (io : ServiceReplies) (replies : List (Option JsError))
    (hreturn : ∀ o ∈ replies, o = none) :
    _handleImageDetectedThrowing app data env io replies
      = .ok (_handleImageDetected app data env io) := by
  have htail := tail_all_return replies hreturn
  simp only [_handleImageDetectedThrowing, _handleImageDetected, detectedStart_eq, addResult,
    afterOcr]
  cases hocr : recognizeText data.filePath io.pathExists io.ocr with
  | error e => simp only [outerCatch, notify_of_return _ _ replies hreturn]
  | ok ocrText =>
    by_cases ht : truthy ocrText = true
    · simp only [ht, Bool.not_true, Bool.false_eq_true, if_false, if_true, afterLlm]
      cases hllm : processText (some (ocrText.getD "")) io.llm with
      | error e =>
        simp only [innerCatch, notify_of_return _ _ replies hreturn]
      | ok llmResult =>
        simp only [notify_of_return _ _ replies hreturn]
        split
        · rename_i x hx
          simp only [hx]
        · rename_i hx
          simp only [hx, innerCatch, notify_of_return _ _ replies.tail htail,
            List.append_assoc, List.singleton_append]
    · simp only [ht, Bool.not_false, if_true, if_false]

/-- C19: per-file failures are contained. Whatever the OCR and LLM stages answer or throw,
provided every call of `showResult`/`showError` returns without throwing,
`_handleImageDetected` returns (its promise is fulfilled, not rejected); and, the generated
id being new to the ledger, the ledger it leaves is the records that `addResult` kept, each
with all its field values and in the same order, followed by the one record created for
this image: no other record is modified. -/
theorem failures_contained (app : Application) (data : ImageDetected) (env : PipelineEnv)
    (io : ServiceReplies) (replies : List (Option JsError))
    (hreturn : ∀ o ∈ replies, o = none)
    (hfresh : ∀ x ∈ app.resultManager.results, x.id ≠ _generateId env.add.idClock env.add.rnd) :
    (∃ final, _handleImageDetectedThrowing app data env io replies = .ok final ∧
      final = _handleImageDetected app data env io) ∧
    ∃ rec, (_handleImageDetected app data env io).resultManager.results
        = keptRecords app.resultManager ++ [rec] ∧
      rec.id = _generateId env.add.idClock env.add.rnd ∧
      rec.imagePath = some data.filePath := by
  refine ⟨⟨_, handleImageDetectedThrowing_of_return app data env io replies hreturn, rfl⟩, ?_⟩
  cases hocr : recognizeText data.filePath io.pathExists io.ocr with
  | error e =>
    rw [handleImageDetected_ocr_rejected app data env io e hocr, addResult_kept]
    exact ⟨_, rfl, rfl, rfl⟩
  | ok ocrText =>
    cases ocrText with
    | none =>
      rw [handleImageDetected_no_text app data env io hocr hfresh]
      exact ⟨_, rfl, rfl, rfl⟩
    | some t =>
      cases hllm : processText (some t) io.llm with
      | error e =>
        rw [handleImageDetected_llm_rejected app data env io t e hocr hllm hfresh]
        exact ⟨_, rfl, rfl, rfl⟩
      | ok v =>
        rw [handleImageDetected_llm_returned app data env io t v hocr hllm hfresh]
        exact ⟨_, rfl, rfl, rfl⟩

/-- Witness of C19: on the ledger of two records, OCR returns "hello", the LLM request times
out and the notification returns; the two stored records are left as they were. -/
theorem failures_contained_witness :
    (∃ final, _handleImageDetectedThrowing ⟨⟨fullLedger 2⟩, [], []⟩ ⟨"/w/a.png", "a.png", 4⟩
        ⟨⟨5, "abc", 6⟩, 7, 8⟩
        ⟨true, .response (some ⟨some ⟨some "hello"⟩⟩),
          .failure ⟨"timeout of 60000ms exceeded", some "ECONNABORTED"⟩⟩ [none] = .ok final ∧
      final = _handleImageDetected ⟨⟨fullLedger 2⟩, [], []⟩ ⟨"/w/a.png", "a.png", 4⟩
        ⟨⟨5, "abc", 6⟩, 7, 8⟩
        ⟨true, .response (some ⟨some ⟨some "hello"⟩⟩),
          .failure ⟨"timeout of 60000ms exceeded", some "ECONNABORTED"⟩⟩) ∧
    ∃ rec, (_handleImageDetected ⟨⟨fullLedger 2⟩, [], []⟩ ⟨"/w/a.png", "a.png", 4⟩
        ⟨⟨5, "abc", 6⟩, 7, 8⟩
        ⟨true, .response (some ⟨some ⟨some "hello"⟩⟩),
          .failure ⟨"timeout of 60000ms exceeded", some "ECONNABORTED"⟩⟩).resultManager.results
        = keptRecords ⟨fullLedger 2⟩ ++ [rec] ∧
      rec.id = "result_5_abc" ∧ rec.imagePath = some "/w/a.png" :=
  failures_contained ⟨⟨fullLedger 2⟩, [], []⟩ ⟨"/w/a.png", "a.png", 4⟩ ⟨⟨5, "abc", 6⟩, 7, 8⟩
    ⟨true, .response (some ⟨some ⟨some "hello"⟩⟩),
      .failure ⟨"timeout of 60000ms exceeded", some "ECONNABORTED"⟩⟩ [none]
    (by decide) (by decide)

/-! ## The status values written by one run -/

/-- The calls listed by `pipelineCalls` are the calls of the run: they lead to the ledger in
which `_handleImageDetected` leaves the application. -/
theorem runOps_pipelineCalls (app : Application) (data : ImageDetected) (env : PipelineEnv)
    (io : ServiceReplies) :
    runOps app.resultManager (pipelineCalls app.resultManager data env io)
      = (_handleImageDetected app data env io).resultManager := by
  simp only [pipelineCalls, _handleImageDetected, detectedStart_eq, afterOcr]
  cases hocr : recognizeText data.filePath io.pathExists io.ocr with
  | error e => rfl
  | ok ocrText =>
    by_cases ht : truthy ocrText = true
    · simp only [ht, Bool.not_true, Bool.false_eq_true, if_false, if_true, afterLlm]
      cases hllm : processText (some (ocrText.getD "")) io.llm with
      | error e => rfl
      | ok llmResult =>
        simp only [runOps, List.foldl, LedgerOp.run, mkProcessResult]
        split <;> rename_i hx <;> simp only [hx] <;> rfl
    · simp only [ht, Bool.not_false, if_true, if_false]
      rfl

theorem find?_modifyFirst (p : ProcessResult → Bool) (f : ProcessResult → ProcessResult)
    (l : List ProcessResult) (hpf : ∀ r, p (f r) = p r) :
    (modifyFirst p f l).find? p = (l.find? p).map f := by
  induction l with
  | nil => rfl
  | cons a t ih =>
    unfold modifyFirst
    by_cases hp : p a = true
    · simp [hp, List.find?_cons, hpf]
    · have hp1 : p a = false := by simpa using hp
      simp [hp1, List.find?_cons, ih]

theorem applyUpdate_id (u : Patch) (now : Nat) (r : ProcessResult) (hu : u.id = none) :
    (applyUpdate (some u) now r).id = r.id := by
  simp [applyUpdate, assign, hu]

/-- After `updateResult` with a patch that does not name `id`, the record found under the id
is the patched one. -/
theorem getResult_updateResult (rm : ResultManager) (id : String) (u : Patch) (now : Nat)
    (hu : u.id = none) :
    getResult (updateResult rm id (some u) now).2 id
      = (getResult rm id).map (applyUpdate (some u) now) := by
  unfold updateResult getResult
  cases hfind : rm.results.find? (fun r => r.id == id) with
  | none => simp [hfind]
  | some x =>
    simp only [Option.map_some']
    rw [find?_modifyFirst _ _ _ (fun r => by rw [applyUpdate_id u now r hu]), hfind]
    rfl

theorem getResult_addResult_isSome (rm : ResultManager) (env : AddEnv) (result : ResultInput) :
    (getResult (addResult rm env (some result)).2 (mkProcessResult env result).id).isSome
      = true := by
  rw [addResult_kept]
  unfold getResult
  rw [List.find?_isSome]
  exact ⟨mkProcessResult env result, by simp, by simp⟩

/-- The status values written by one run, for each way through the pipeline. -/
theorem statusesWritten_pipeline (app : Application) (data : ImageDetected)
    (env : PipelineEnv) (io : ServiceReplies) :
    statusesWritten app.resultManager (_generateId env.add.idClock env.add.rnd)
        (pipelineCalls app.resultManager data env io)
      = match recognizeText data.filePath io.pathExists io.ocr with
        | .error _ => ["processing"]
        | .ok ocrText =>
          if truthy ocrText then
            match processText (some (ocrText.getD "")) io.llm with
            | .error _ => ["processing", "ocr_completed", "failed"]
            | .ok _ => ["processing", "ocr_completed", "completed"]
          else ["processing", "ocr_failed", "completed"] := by
  have h0 := getResult_addResult_isSome app.resultManager env.add
    { imagePath := some data.filePath, status := some "processing" }
  have hid : (mkProcessResult env.add
      { imagePath := some data.filePath, status := some "processing" }).id
      = _generateId env.add.idClock env.add.rnd := rfl
  rw [hid] at h0
  have h1 : ∀ u now, u.id = none →
      (getResult (updateResult (addResult app.resultManager env.add
        (some { imagePath := some data.filePath, status := some "processing" })).2
        (_generateId env.add.idClock env.add.rnd) (some u) now).2
        (_generateId env.add.idClock env.add.rnd)).isSome = true := by
    intro u now hu
    rw [getResult_updateResult _ _ u now hu, Option.isSome_map', h0]
  have h2 : ∀ u now v later, u.id = none → v.id = none →
      (getResult (updateResult (updateResult (addResult app.resultManager env.add
        (some { imagePath := some data.filePath, status := some "processing" })).2
        (_generateId env.add.idClock env.add.rnd) (some u) now).2
        (_generateId env.add.idClock env.add.rnd) (some v) later).2
        (_generateId env.add.idClock env.add.rnd)).isSome = true := by
    intro u now v later hu hv
    rw [getResult_updateResult _ _ v later hv, Option.isSome_map', h1 u now hu]
  simp only [pipelineCalls]
  cases hocr : recognizeText data.filePath io.pathExists io.ocr with
  | error e =>
    simp [statusesWritten, LedgerOp.statusWritten, mkProcessResult, orDefault]
  | ok ocrText =>
    by_cases ht : truthy ocrText = true
    · simp only [ht, Bool.not_true, Bool.false_eq_true, if_false, if_true]
      cases hllm : processText (some (ocrText.getD "")) io.llm with
      | error e =>
        simp [statusesWritten, LedgerOp.statusWritten, LedgerOp.run, mkProcessResult, orDefault,
          h0, h1]
      | ok llmResult =>
        simp only [runOps, List.foldl, LedgerOp.run]
        cases hg : getResult (updateResult (updateResult (addResult app.resultManager env.add
            (some { imagePath := some data.filePath, status := some "processing" })).2
            (_generateId env.add.idClock env.add.rnd)
            (some { ocrText := some ocrText, status := some "ocr_completed" }) env.t1).2
            (_generateId env.add.idClock env.add.rnd)
            (some { llmResult := some llmResult, status := some "completed" }) env.t2).2
            (_generateId env.add.idClock env.add.rnd) with
        | none =>
          have := h2 { ocrText := some ocrText, status := some "ocr_completed" } env.t1
            { llmResult := some llmResult, status := some "completed" } env.t2 rfl rfl
          rw [hg] at this
          cases this
        | some x =>
          simp [statusesWritten, LedgerOp.statusWritten, LedgerOp.run, mkProcessResult,
            orDefault, h0, h1]
    · simp only [ht, Bool.not_false, if_true, if_false]
      simp [statusesWritten, LedgerOp.statusWritten, LedgerOp.run, mkProcessResult, orDefault,
        h0, h1]

/-- C13: status never regresses. For every outcome of the OCR and LLM stages, the status
values that one run of the pipeline writes, through `addResult` and `updateResult`, to the
record carrying the id it generated start with `processing`, contain no value twice, and
every two successive values are joined by an edge of
`processing -> {ocr_completed | ocr_failed} -> {completed | failed}` (the run without text
goes `processing`, `ocr_failed`, `completed`). The calls considered are those of the run:
they produce the ledger that `_handleImageDetected` leaves. -/
theorem status_never_regresses (app : Application) (data : ImageDetected) (env : PipelineEnv)
    (io : ServiceReplies) :
    runOps app.resultManager (pipelineCalls app.resultManager data env io)
      = (_handleImageDetected app data env io).resultManager ∧
    (statusesWritten app.resultManager (_generateId env.add.idClock env.add.rnd)
      (pipelineCalls app.resultManager data env io)).head? = some "processing" ∧
    (statusesWritten app.resultManager (_generateId env.add.idClock env.add.rnd)
      (pipelineCalls app.resultManager data env io)).Nodup ∧
    (statusesWritten app.resultManager (_generateId env.add.idClock env.add.rnd)
      (pipelineCalls app.resultManager data env io)).Chain' (fun a b => statusEdge a b = true) := by
  refine ⟨runOps_pipelineCalls app data env io, ?_⟩
  rw [statusesWritten_pipeline]
  cases recognizeText data.filePath io.pathExists io.ocr with
  | error e =>
    dsimp only
    exact ⟨rfl, by decide, by simp⟩
  | ok ocrText =>
    by_cases ht : truthy ocrText = true
    · simp only [ht, if_true]
      cases processText (some (ocrText.getD "")) io.llm with
      | error e =>
        dsimp only
        exact ⟨rfl, by decide, by simp [statusEdge]⟩
      | ok v =>
        dsimp only
        exact ⟨rfl, by decide, by simp [statusEdge]⟩
    · simp only [ht, Bool.false_eq_true, if_false]
      exact ⟨rfl, by decide, by simp [statusEdge]⟩

/-! ## The record invariant on ocrText -/

theorem applyUpdate_status (u : Patch) (now : Nat) (r : ProcessResult) (s : String)
    (hu : u.status = some s) : (applyUpdate (some u) now r).status = s := by
  simp [applyUpdate, assign, hu]

theorem applyUpdate_ocrText_set (u : Patch) (now : Nat) (r : ProcessResult) (v : Option String)
    (hu : u.ocrText = some v) : (applyUpdate (some u) now r).ocrText = v := by
  simp [applyUpdate, assign, hu]

theorem applyUpdate_ocrText_kept (u : Patch) (now : Nat) (r : ProcessResult)
    (hu : u.ocrText = none) : (applyUpdate (some u) now r).ocrText = r.ocrText := by
  simp [applyUpdate, assign, hu]

/-- An update whose patch sets one of the three statuses keeps the invariant. -/
theorem updateResult_invariant_status (rm : ResultManager) (id : String) (u : Patch)
    (now : Nat) (s : String) (hu : u.status = some s)
    (hs : s = "processing" ∨ s = "ocr_failed" ∨ s = "completed")
    (h : ∀ r ∈ rm.results, OcrTextInvariant r) :
    ∀ r ∈ (updateResult rm id (some u) now).2.results, OcrTextInvariant r := by
  apply updateResult_forall OcrTextInvariant rm id (some u) now h
  intro r _ _
  rw [applyUpdate_status u now r s hu]
  exact hs

/-- An update whose patch sets a text keeps the invariant. -/
theorem updateResult_invariant_text (rm : ResultManager) (id : String) (u : Patch)
    (now : Nat) (t : String) (hu : u.ocrText = some (some t))
    (h : ∀ r ∈ rm.results, OcrTextInvariant r) :
    ∀ r ∈ (updateResult rm id (some u) now).2.results, OcrTextInvariant r := by
  apply updateResult_forall OcrTextInvariant rm id (some u) now h
  intro r _ hnone
  rw [applyUpdate_ocrText_set u now r (some t) hu] at hnone
  cases hnone

theorem afterLlm_invariant (rm : ResultManager) (ns : List Notification) (calls : List String)
    (id : String) (data : ImageDetected) (llm : Except JsError (Option String)) (t : Nat)
    (h : ∀ r ∈ rm.results, OcrTextInvariant r)
    (htext : ∀ r, getResult rm id = some r → r.ocrText ≠ none) :
    ∀ r ∈ (afterLlm ⟨rm, ns, calls⟩ id data llm t).resultManager.results, OcrTextInvariant r := by
  unfold afterLlm
  cases llm with
  | error e =>
    apply updateResult_forall OcrTextInvariant rm id _ t h
    intro r hr hnone
    rw [applyUpdate_ocrText_kept _ t r rfl] at hnone
    exact absurd hnone (htext r hr)
  | ok llmResult =>
    have h1 := updateResult_invariant_status rm id
      { llmResult := some llmResult, status := some "completed" } t "completed" rfl
      (Or.inr (Or.inr rfl)) h
    simp only
    split
    · exact h1
    · rename_i hnone
      apply updateResult_forall OcrTextInvariant _ id _ t h1
      intro r hr
      unfold getResult at hnone
      rw [hnone] at hr
      cases hr

/-- One run of the pipeline keeps the invariant, whatever the services answer. -/
theorem handleImageDetected_invariant (app : Application) (data : ImageDetected)
    (env : PipelineEnv) (io : ServiceReplies)
    (h : ∀ r ∈ app.resultManager.results, OcrTextInvariant r) :
    ∀ r ∈ (_handleImageDetected app data env io).resultManager.results, OcrTextInvariant r := by
  have h0 : ∀ r ∈ (addResult app.resultManager env.add
      (some { imagePath := some data.filePath, status := some "processing" })).2.results,
      OcrTextInvariant r := by
    rw [addResult_kept]
    intro r hr
    rcases List.mem_append.mp hr with h1 | h1
    · exact h r (mem_keptRecords _ r h1)
    · rw [List.mem_singleton.mp h1]
      exact fun _ => Or.inl rfl
  simp only [_handleImageDetected, detectedStart_eq, afterOcr]
  cases hocr : recognizeText data.filePath io.pathExists io.ocr with
  | error e => exact h0
  | ok ocrText =>
    cases ocrText with
    | none =>
      simp only [truthy, Bool.not_false, if_true, Bool.false_eq_true, if_false]
      exact updateResult_invariant_status _ _ { status := some "completed" } env.t2 "completed"
        rfl (Or.inr (Or.inr rfl))
        (updateResult_invariant_status _ _ { ocrText := some none, status := some "ocr_failed" }
          env.t1 "ocr_failed" rfl (Or.inr (Or.inl rfl)) h0)
    | some t =>
      by_cases ht : truthy (some t) = true
      · simp only [ht, Bool.not_true, Bool.false_eq_true, if_false, if_true, Option.getD_some]
        apply afterLlm_invariant
        · exact updateResult_invariant_text _ _
            { ocrText := some (some t), status := some "ocr_completed" } env.t1 t rfl h0
        · intro r hr
          rw [getResult_updateResult _ _ _ _ rfl] at hr
          cases hg : getResult (addResult app.resultManager env.add
              (some { imagePath := some data.filePath, status := some "processing" })).2
              (mkProcessResult env.add
                { imagePath := some data.filePath, status := some "processing" }).id with
          | none => rw [hg] at hr; cases hr
          | some x =>
            rw [hg] at hr
            simp only [Option.map_some', Option.some.injEq] at hr
            rw [← hr, applyUpdate_ocrText_set _ _ _ (some t) rfl]
            exact fun hc => by cases hc
      · simp only [ht, Bool.not_false, if_true, Bool.false_eq_true, if_false]
        exact updateResult_invariant_status _ _ { status := some "completed" } env.t2
          "completed" rfl (Or.inr (Or.inr rfl))
          (updateResult_invariant_status _ _
            { ocrText := some (some t), status := some "ocr_failed" }
            env.t1 "ocr_failed" rfl (Or.inr (Or.inl rfl)) h0)

theorem runPipelines_invariant (runs : List PipelineRun) (app : Application)
    (h : ∀ r ∈ app.resultManager.results, OcrTextInvariant r) :
    ∀ r ∈ (runPipelines app runs).resultManager.results, OcrTextInvariant r := by
  induction runs generalizing app with
  | nil => exact h
  | cons run runs ih =>
    exact ih (_handleImageDetected app run.data run.env run.io)
      (handleImageDetected_invariant app run.data run.env run.io h)

/-- C14, counterexample. One run of the pipeline from the empty ledger, on an image whose OCR
response carries no text, leaves a record with `ocrText = null` and `status = 'completed'`,
which is neither `processing` nor `ocr_failed`. -/
theorem ocrText_unset_counterexample :
    (runPipelines Application.new
        [⟨⟨"/w/a.png", "a.png", 4⟩, ⟨⟨5, "abc", 6⟩, 7, 8⟩,
          ⟨true, .response (some ⟨some ⟨none⟩⟩), .response none⟩⟩]).resultManager.results
      = [{ id := "result_5_abc", timestamp := 6, imagePath := some "/w/a.png",
           ocrText := none, llmResult := none, status := "completed", error := none,
           updatedAt := some 8 }] := by
  decide

/-- C14, amended. In every ledger reached from the empty one by running the pipeline on any
detected images, one run after the other, with any OCR and LLM outcomes, every record whose
`ocrText` is unset (`null`) has status `processing`, `ocr_failed` or `completed`. -/
theorem ocrText_unset_statuses (runs : List PipelineRun) :
    ∀ r ∈ (runPipelines Application.new runs).resultManager.results,
      r.ocrText = none →
        r.status = "processing" ∨ r.status = "ocr_failed" ∨ r.status = "completed" :=
  runPipelines_invariant runs Application.new (fun r hr => by
    simp [Application.new, ResultManager.new] at hr)

/-- Witness of the amended C14: after a run whose OCR call failed, the record has no OCR text
and status `processing`. -/
theorem ocrText_unset_statuses_witness :
    ({ id := "result_5_abc", timestamp := 6, imagePath := some "/w/a.png", ocrText := none,
       llmResult := none, status := "processing", error := none, updatedAt := none }
        : ProcessResult) ∈
      (runPipelines Application.new
        [⟨⟨"/w/a.png", "a.png", 4⟩, ⟨⟨5, "abc", 6⟩, 7, 8⟩,
          ⟨false, .response none, .response none⟩⟩]).resultManager.results ∧
    (("processing" : String) = "processing" ∨ ("processing" : String) = "ocr_failed" ∨
      ("processing" : String) = "completed") :=
  ⟨by decide,
   ocrText_unset_statuses
     [⟨⟨"/w/a.png", "a.png", 4⟩, ⟨⟨5, "abc", 6⟩, 7, 8⟩, ⟨false, .response none, .response none⟩⟩]
     { id := "result_5_abc", timestamp := 6, imagePath := some "/w/a.png", ocrText := none,
       llmResult := none, status := "processing", error := none, updatedAt := none }
     (by decide) rfl⟩

/-! ## Theorems on getResults -/

theorem sliceLast_sublist (n : Nat) (l : List ProcessResult) : (sliceLast n l).Sublist l :=
  List.drop_sublist _ l

theorem sliceLast_length_le (n : Nat) (l : List ProcessResult) : (sliceLast n l).length ≤ n := by
  simp only [sliceLast, List.length_drop]
  omega

/-- The two filtering steps of `getResults` keep exactly the records that the filter asks
for, in their order. -/
theorem getResults_eq (rm : ResultManager) (filter : ResultFilter) :
    (getResults rm filter).1 =
      match filter.limit with
      | some limit =>
        if limit != 0 then sliceLast limit (rm.results.filter (matchesFilter filter))
        else rm.results.filter (matchesFilter filter)
      | none => rm.results.filter (matchesFilter filter) := by
  have hM : (match filter.since with
      | some since =>
        if since.truthy then
          (if truthy filter.status then
            rm.results.filter (fun r => r.status == filter.status.getD "")
          else rm.results).filter (fun r => decide (r.timestamp ≥ since.ms))
        else (if truthy filter.status then
            rm.results.filter (fun r => r.status == filter.status.getD "")
          else rm.results)
      | none => (if truthy filter.status then
            rm.results.filter (fun r => r.status == filter.status.getD "")
          else rm.results)) = rm.results.filter (matchesFilter filter) := by
    cases hs : filter.status with
    | none =>
      cases hc : filter.since with
      | none =>
        simp only [truthy, hs, hc, Cutoff.truthy, Cutoff.ms, List.filter_filter, Option.getD_some, bne_iff_ne, ne_eq, not_true_eq_false,
          not_false_eq_true, decide_True, decide_False, if_true, if_false, Bool.false_eq_true,
          bne_self_eq_false, reduceCtorEq]
        exact (List.filter_eq_self.mpr (fun r _ => by simp [matchesFilter, hs, hc, Cutoff.ms])).symm
      | some c =>
        cases c with
        | date ms =>
          simp only [truthy, hs, hc, Cutoff.truthy, Cutoff.ms, List.filter_filter, Option.getD_some, bne_iff_ne, ne_eq, not_true_eq_false,
            not_false_eq_true, decide_True, decide_False, if_true, if_false, Bool.false_eq_true,
            bne_self_eq_false, reduceCtorEq]
          first
            | exact (List.filter_eq_self.mpr (fun r _ => by simp [matchesFilter, hs, hc, Cutoff.ms])).symm
            | exact List.filter_congr (fun r _ => by simp [matchesFilter, hs, hc, Cutoff.ms, Bool.and_comm])
        | number ms =>
          by_cases hz : ms = 0
          · subst hz
            simp only [truthy, hs, hc, Cutoff.truthy, Cutoff.ms, List.filter_filter, Option.getD_some, bne_iff_ne, ne_eq, not_true_eq_false,
              not_false_eq_true, decide_True, decide_False, if_true, if_false, Bool.false_eq_true,
              bne_self_eq_false, reduceCtorEq]
            exact (List.filter_eq_self.mpr (fun r _ => by simp [matchesFilter, hs, hc, Cutoff.ms])).symm
          ·
            simp only [truthy, hs, hc, Cutoff.truthy, Cutoff.ms, List.filter_filter, hz, Option.getD_some, bne_iff_ne, ne_eq, not_true_eq_false,
              not_false_eq_true, decide_True, decide_False, if_true, if_false, Bool.false_eq_true,
              bne_self_eq_false, reduceCtorEq]
            first
              | exact (List.filter_eq_self.mpr (fun r _ => by simp [matchesFilter, hz, hs, hc, Cutoff.ms])).symm
              | exact List.filter_congr (fun r _ => by simp [matchesFilter, hz, hs, hc, Cutoff.ms, Bool.and_comm])
    | some s =>
      by_cases he : s = ""
      · subst he
        cases hc : filter.since with
        | none =>
          simp only [truthy, hs, hc, Cutoff.truthy, Cutoff.ms, List.filter_filter, Option.getD_some, bne_iff_ne, ne_eq, not_true_eq_false,
            not_false_eq_true, decide_True, decide_False, if_true, if_false, Bool.false_eq_true,
            bne_self_eq_false, reduceCtorEq]
          exact (List.filter_eq_self.mpr (fun r _ => by simp [matchesFilter, hs, hc, Cutoff.ms])).symm
        | some c =>
          cases c with
          | date ms =>
            simp only [truthy, hs, hc, Cutoff.truthy, Cutoff.ms, List.filter_filter, Option.getD_some, bne_iff_ne, ne_eq, not_true_eq_false,
              not_false_eq_true, decide_True, decide_False, if_true, if_false, Bool.false_eq_true,
              bne_self_eq_false, reduceCtorEq]
            first
              | exact (List.filter_eq_self.mpr (fun r _ => by simp [matchesFilter, hs, hc, Cutoff.ms])).symm
              | exact List.filter_congr (fun r _ => by simp [matchesFilter, hs, hc, Cutoff.ms, Bool.and_comm])
          | number ms =>
            by_cases hz : ms = 0
            · subst hz
              simp only [truthy, hs, hc, Cutoff.truthy, Cutoff.ms, List.filter_filter, Option.getD_some, bne_iff_ne, ne_eq, not_true_eq_false,
                not_false_eq_true, decide_True, decide_False, if_true, if_false, Bool.false_eq_true,
                bne_self_eq_false, reduceCtorEq]
              exact (List.filter_eq_self.mpr (fun r _ => by simp [matchesFilter, hs, hc, Cutoff.ms])).symm
            ·
              simp only [truthy, hs, hc, Cutoff.truthy, Cutoff.ms, List.filter_filter, hz, Option.getD_some, bne_iff_ne, ne_eq, not_true_eq_false,
                not_false_eq_true, decide_True, decide_False, if_true, if_false, Bool.false_eq_true,
                bne_self_eq_false, reduceCtorEq]
              first
                | exact (List.filter_eq_self.mpr (fun r _ => by simp [matchesFilter, hz, hs, hc, Cutoff.ms])).symm
                | exact List.filter_congr (fun r _ => by simp [matchesFilter, hz, hs, hc, Cutoff.ms, Bool.and_comm])
      · have heb : (s == "") = false := by simpa using he
        cases hc : filter.since with
        | none =>
          simp only [truthy, hs, hc, Cutoff.truthy, Cutoff.ms, List.filter_filter, he, Option.getD_some, bne_iff_ne, ne_eq, not_true_eq_false,
            not_false_eq_true, decide_True, decide_False, if_true, if_false, Bool.false_eq_true,
            bne_self_eq_false, reduceCtorEq]
          first
            | exact (List.filter_eq_self.mpr (fun r _ => by simp [matchesFilter, he, heb, hs, hc, Cutoff.ms])).symm
            | exact List.filter_congr (fun r _ => by simp [matchesFilter, he, heb, hs, hc, Cutoff.ms, Bool.and_comm])
        | some c =>
          cases c with
          | date ms =>
            simp only [truthy, hs, hc, Cutoff.truthy, Cutoff.ms, List.filter_filter, he, Option.getD_some, bne_iff_ne, ne_eq, not_true_eq_false,
              not_false_eq_true, decide_True, decide_False, if_true, if_false, Bool.false_eq_true,
              bne_self_eq_false, reduceCtorEq]
            first
              | exact (List.filter_eq_self.mpr (fun r _ => by simp [matchesFilter, he, heb, hs, hc, Cutoff.ms])).symm
              | exact List.filter_congr (fun r _ => by simp [matchesFilter, he, heb, hs, hc, Cutoff.ms, Bool.and_comm])
          | number ms =>
            by_cases hz : ms = 0
            · subst hz
              simp only [truthy, hs, hc, Cutoff.truthy, Cutoff.ms, List.filter_filter, he, Option.getD_some, bne_iff_ne, ne_eq, not_true_eq_false,
                not_false_eq_true, decide_True, decide_False, if_true, if_false, Bool.false_eq_true,
                bne_self_eq_false, reduceCtorEq]
              first
                | exact (List.filter_eq_self.mpr (fun r _ => by simp [matchesFilter, he, heb, hs, hc, Cutoff.ms])).symm
                | exact List.filter_congr (fun r _ => by simp [matchesFilter, he, heb, hs, hc, Cutoff.ms, Bool.and_comm])
            ·
              simp only [truthy, hs, hc, Cutoff.truthy, Cutoff.ms, List.filter_filter, he, hz, Option.getD_some, bne_iff_ne, ne_eq, not_true_eq_false,
                not_false_eq_true, decide_True, decide_False, if_true, if_false, Bool.false_eq_true,
                bne_self_eq_false, reduceCtorEq]
              first
                | exact (List.filter_eq_self.mpr (fun r _ => by simp [matchesFilter, he, heb, hz, hs, hc, Cutoff.ms])).symm
                | exact List.filter_congr (fun r _ => by simp [matchesFilter, he, heb, hz, hs, hc, Cutoff.ms, Bool.and_comm])
  simp only [getResults, hM]

/-- C21, counterexample. On the ledger of two `processing` records, `getResults({limit: 0})`
returns both records, not the last 0 of them, and `getResults({status: ''})` returns both
records although their status is not the empty string: a falsy filter property is taken
for a missing one. -/
theorem getResults_limit_counterexample :
    (getResults (ResultManager.mk (fullLedger 2)) { limit := some 0 }).1 = fullLedger 2 ∧
    (fullLedger 2).length = 2 ∧
    (getResults (ResultManager.mk (fullLedger 2)) { status := some "" }).1 = fullLedger 2 ∧
    (fullLedger 2).map (fun r => r.status) = ["processing", "processing"] := by
  decide

/-- C21, amended. For every ledger and every filter, `getResults(filter)` leaves the ledger
as it is and returns a subsequence of it, in insertion order, that contains only records
whose status is the one given (when a non-empty status is given) and whose timestamp is
`>= since` (when given). Without a limit, or with the limit 0, the result is all of these
matching records; with a limit `n` other than 0 it is the last `n` of them and has at most
`n` elements. -/
theorem getResults_spec (rm : ResultManager) (filter : ResultFilter) :
    (getResults rm filter).2 = rm ∧
    (getResults rm filter).1.Sublist rm.results ∧
    (∀ s, filter.status = some s → s ≠ "" → ∀ r ∈ (getResults rm filter).1, r.status = s) ∧
    (∀ c, filter.since = some c → ∀ r ∈ (getResults rm filter).1, r.timestamp ≥ c.ms) ∧
    ((filter.limit = none ∨ filter.limit = some 0) →
      (getResults rm filter).1 = rm.results.filter (matchesFilter filter)) ∧
    (∀ n, filter.limit = some n → n ≠ 0 →
      (getResults rm filter).1 = sliceLast n (rm.results.filter (matchesFilter filter)) ∧
      (getResults rm filter).1.length ≤ n) := by
  have hsub : (getResults rm filter).1.Sublist (rm.results.filter (matchesFilter filter)) := by
    rw [getResults_eq]
    cases filter.limit with
    | none => exact List.Sublist.refl _
    | some n =>
      dsimp only
      split
      · exact sliceLast_sublist _ _
      · exact List.Sublist.refl _
  have hmatch : ∀ r ∈ (getResults rm filter).1, matchesFilter filter r = true :=
    fun r hr => (List.mem_filter.mp (hsub.subset hr)).2
  refine ⟨rfl, hsub.trans (List.filter_sublist _), ?_, ?_, ?_, ?_⟩
  · intro s hs hne r hr
    have := hmatch r hr
    simp only [matchesFilter, hs, Bool.and_eq_true, Bool.or_eq_true, beq_iff_eq] at this
    rcases this.1 with h | h
    · exact absurd h hne
    · exact h
  · intro c hc r hr
    have := hmatch r hr
    simp only [matchesFilter, hc, Bool.and_eq_true, decide_eq_true_eq] at this
    exact this.2
  · intro hlim
    rw [getResults_eq]
    rcases hlim with h | h <;> simp [h]
  · intro n hn hne
    have : (getResults rm filter).1
        = sliceLast n (rm.results.filter (matchesFilter filter)) := by
      rw [getResults_eq]
      simp [hn, hne]
    exact ⟨this, by rw [this]; exact sliceLast_length_le _ _⟩

/-- Witness of the amended C21: the limit 2 on the ledger stamped 0..4 returns the records
stamped 3 and 4. -/
theorem getResults_spec_witness :
    (getResults (ResultManager.mk (fullLedger 5)) { limit := some 2 }).1
      = sliceLast 2 ((ResultManager.mk (fullLedger 5)).results.filter
          (matchesFilter { limit := some 2 })) ∧
    (getResults (ResultManager.mk (fullLedger 5)) { limit := some 2 }).1.length ≤ 2 ∧
    (getResults (ResultManager.mk (fullLedger 5)) { limit := some 2 }).1.map (fun r => r.timestamp)
      = [3, 4] :=
  ⟨((getResults_spec (ResultManager.mk (fullLedger 5)) { limit := some 2 }).2.2.2.2.2 2 rfl
      (by decide)).1,
   ((getResults_spec (ResultManager.mk (fullLedger 5)) { limit := some 2 }).2.2.2.2.2 2 rfl
      (by decide)).2,
   by decide⟩

/-! ## Theorems on addResult and updateResult -/

theorem generateId_ne_empty (idClock : Nat) (rnd : String) : _generateId idClock rnd ≠ "" := by
  intro h
  have hlen := congrArg String.length h
  simp only [_generateId, String.length_append] at hlen
  have h7 : "result_".length = 7 := by decide
  have h0 : "".length = 0 := by decide
  rw [h7, h0] at hlen
  omega

/-- C22, counterexample. `addResult({imagePath: '/test/path.jpg', status: '', ocrText: ''})`
on the empty ledger returns a record whose status is `processing`, not the given empty
status, and whose `ocrText` is `null`, not the given empty text: `||` replaces every falsy
value. -/
theorem addResult_given_values_counterexample :
    (addResult ResultManager.new ⟨5, "abc", 6⟩
        (some { imagePath := some "/test/path.jpg", status := some "", ocrText := some "" })).1
      = some { id := "result_5_abc", timestamp := 6, imagePath := some "/test/path.jpg",
               ocrText := none, llmResult := none, status := "processing", error := none,
               updatedAt := none } := by
  decide

/-- C22, amended. For every input with an imagePath `p`, `addResult` returns a non-null
record with a non-empty id and the imagePath `p`; its status is the given status when that
is a non-empty string and `processing` when none or the empty string is given; its
`ocrText` and `llmResult` are the given values when these are non-empty strings and `null`
when they are omitted or empty; its `error` is the given error, or `null`. The record is
the last element of the ledger; `getResult` of its id returns it when no other record of
the new ledger carries that id; and `getStats().total` grows by one when the ledger was
below capacity. -/
theorem addResult_postcondition (rm : ResultManager) (env : AddEnv) (input : ResultInput)
    (p : String) (now : Nat) (hpath : input.imagePath = some p) :
    (addResult rm env (some input)).1 = some (mkProcessResult env input) ∧
    (rm.results.length < maxResults →
      (getStats (addResult rm env (some input)).2 now).total = (getStats rm now).total + 1) ∧
    (addResult rm env (some input)).2.results.getLast? = some (mkProcessResult env input) ∧
    ((∀ x ∈ keptRecords rm, x.id ≠ (mkProcessResult env input).id) →
      getResult (addResult rm env (some input)).2 (mkProcessResult env input).id
        = some (mkProcessResult env input)) ∧
    (mkProcessResult env input).id ≠ "" ∧
    (mkProcessResult env input).imagePath = some p ∧
    (∀ s, input.status = some s → s ≠ "" → (mkProcessResult env input).status = s) ∧
    ((input.status = none ∨ input.status = some "") →
      (mkProcessResult env input).status = "processing") ∧
    (∀ t, input.ocrText = some t → t ≠ "" → (mkProcessResult env input).ocrText = some t) ∧
    ((input.ocrText = none ∨ input.ocrText = some "") →
      (mkProcessResult env input).ocrText = none) ∧
    (∀ t, input.llmResult = some t → t ≠ "" →
      (mkProcessResult env input).llmResult = some t) ∧
    ((input.llmResult = none ∨ input.llmResult = some "") →
      (mkProcessResult env input).llmResult = none) ∧
    (mkProcessResult env input).error = input.error := by
  refine ⟨rfl, ?_, ?_, ?_, generateId_ne_empty _ _, hpath, ?_, ?_, ?_, ?_, ?_, ?_, rfl⟩
  · intro hlt
    rw [addResult_kept]
    simp [getStats, keptRecords, hlt]
  · rw [addResult_kept]
    simp only [List.getLast?_append, List.getLast?_singleton]
    rfl
  · intro hother
    rw [addResult_kept]
    exact getResult_last _ _ _ hother rfl
  · intro s hs hne
    simp [mkProcessResult, orDefault, hs, hne]
  · rintro (h | h) <;> simp [mkProcessResult, orDefault, h]
  · intro t ht hne
    simp [mkProcessResult, orNull, truthy, ht, hne]
  · rintro (h | h) <;> simp [mkProcessResult, orNull, truthy, h]
  · intro t ht hne
    simp [mkProcessResult, orNull, truthy, ht, hne]
  · rintro (h | h) <;> simp [mkProcessResult, orNull, truthy, h]

/-- Witness of the amended C22, the call of the integration test:
`addResult({imagePath: '/test/path.jpg', status: 'processing'})` on the empty ledger returns
the record, and `getStats()` then gives `total = 1` and `processing = 1`. -/
theorem addResult_postcondition_witness :
    (addResult ResultManager.new ⟨5, "abc", 6⟩
        (some { imagePath := some "/test/path.jpg", status := some "processing" })).1
      = some (mkProcessResult ⟨5, "abc", 6⟩
          { imagePath := some "/test/path.jpg", status := some "processing" }) ∧
    (getStats (addResult ResultManager.new ⟨5, "abc", 6⟩
        (some { imagePath := some "/test/path.jpg", status := some "processing" })).2 10).total
      = 1 ∧
    (getStats (addResult ResultManager.new ⟨5, "abc", 6⟩
        (some { imagePath := some "/test/path.jpg", status := some "processing" })).2
        10).processing = 1 :=
  ⟨(addResult_postcondition ResultManager.new ⟨5, "abc", 6⟩
      { imagePath := some "/test/path.jpg", status := some "processing" } "/test/path.jpg" 10
      rfl).1,
   by decide, by decide⟩

theorem modifyFirst_split (p : ProcessResult → Bool) (f : ProcessResult → ProcessResult)
    (l : List ProcessResult) (h : ∃ r ∈ l, p r = true) :
    ∃ pre old post, l = pre ++ old :: post ∧ (∀ x ∈ pre, p x = false) ∧ p old = true ∧
      l.find? p = some old ∧ modifyFirst p f l = pre ++ f old :: post := by
  induction l with
  | nil =>
    obtain ⟨r, hr, _⟩ := h
    cases hr
  | cons a t ih =>
    by_cases hp : p a = true
    · refine ⟨[], a, t, rfl, ?_, hp, ?_, ?_⟩
      · intro x hx
        cases hx
      · simp [List.find?_cons, hp]
      · simp [modifyFirst, hp]
    · have hpf : p a = false := by simpa using hp
      obtain ⟨r, hr, hpr⟩ := h
      have hrt : r ∈ t := by
        rcases List.mem_cons.mp hr with h1 | h1
        · rw [h1] at hpr; exact absurd hpr hp
        · exact h1
      obtain ⟨pre, old, post, h1, h2, h3, h4, h5⟩ := ih ⟨r, hrt, hpr⟩
      refine ⟨a :: pre, old, post, by rw [h1]; rfl, ?_, h3, ?_, ?_⟩
      · intro x hx
        rcases List.mem_cons.mp hx with hx1 | hx1
        · rw [hx1]; exact hpf
        · exact h2 x hx1
      · simp [List.find?_cons, hpf, h4]
      · simp [modifyFirst, hpf, h5]

/-- C23: frame of `updateResult`. For every ledger, every id carried by a stored record and
every patch (the `null` patch included), the ledger splits into the records before the
first one carrying the id (none of them carries it), that record `old`, and the records
after it, and `updateResult(id, patch)` replaces `old` alone: the records before and after
are the same, in the same order, so the number of records is unchanged. In the record that
replaces `old`, `updatedAt` is the time of the call and each of `id`, `timestamp`,
`imagePath`, `ocrText`, `llmResult`, `status` and `error` that the patch does not name
keeps its value. -/
theorem updateResult_frame (rm : ResultManager) (id : String) (updates : Option Patch)
    (now : Nat) (h : ∃ r ∈ rm.results, r.id = id) :
    ∃ pre old post, rm.results = pre ++ old :: post ∧ (∀ x ∈ pre, x.id ≠ id) ∧ old.id = id ∧
      (updateResult rm id updates now).2.results
        = pre ++ applyUpdate updates now old :: post ∧
      (updateResult rm id updates now).2.results.length = rm.results.length ∧
      (applyUpdate updates now old).updatedAt = some now ∧
      (updates = none → applyUpdate updates now old = { old with updatedAt := some now }) ∧
      (∀ u, updates = some u →
        (u.id = none → (applyUpdate updates now old).id = old.id) ∧
        (u.timestamp = none → (applyUpdate updates now old).timestamp = old.timestamp) ∧
        (u.imagePath = none → (applyUpdate updates now old).imagePath = old.imagePath) ∧
        (u.ocrText = none → (applyUpdate updates now old).ocrText = old.ocrText) ∧
        (u.llmResult = none → (applyUpdate updates now old).llmResult = old.llmResult) ∧
        (u.status = none → (applyUpdate updates now old).status = old.status) ∧
        (u.error = none → (applyUpdate updates now old).error = old.error)) := by
  obtain ⟨pre, old, post, h1, h2, h3, h4, h5⟩ :=
    modifyFirst_split (fun r => r.id == id) (applyUpdate updates now) rm.results
      (by obtain ⟨r, hr, hid⟩ := h; exact ⟨r, hr, by simpa using hid⟩)
  have hres : (updateResult rm id updates now).2.results
      = pre ++ applyUpdate updates now old :: post := by
    unfold updateResult
    rw [h4]
    cases updates <;> exact h5
  refine ⟨pre, old, post, h1, ?_, by simpa using h3, hres, ?_, rfl, ?_, ?_⟩
  · intro x hx
    simpa using h2 x hx
  · rw [hres, h1]
    simp
  · intro hnone
    rw [hnone]
    rfl
  · intro u hu
    rw [hu]
    refine ⟨?_, ?_, ?_, ?_, ?_, ?_, ?_⟩ <;> intro hn <;> simp [applyUpdate, assign, hn]

/-- Witness of C23: on the ledger of two records that both carry the id `r`, the patch
`{status: 'completed'}` replaces the first record only. -/
theorem updateResult_frame_witness :
    (∃ r ∈ (ResultManager.mk (fullLedger 2)).results, r.id = "r") ∧
    (updateResult (ResultManager.mk (fullLedger 2)) "r" (some { status := some "completed" })
        7).2.results
      = [{ id := "r", timestamp := 0, imagePath := none, ocrText := none, llmResult := none,
           status := "completed", error := none, updatedAt := some 7 },
         { id := "r", timestamp := 1, imagePath := none, ocrText := none, llmResult := none,
           status := "processing", error := none, updatedAt := none }] ∧
    ∃ pre old post, (ResultManager.mk (fullLedger 2)).results = pre ++ old :: post ∧
      (∀ x ∈ pre, x.id ≠ "r") ∧ old.id = "r" ∧
      (updateResult (ResultManager.mk (fullLedger 2)) "r" (some { status := some "completed" })
          7).2.results
        = pre ++ applyUpdate (some { status := some "completed" }) 7 old :: post := by
  have hex : ∃ r ∈ (ResultManager.mk (fullLedger 2)).results, r.id = "r" := by decide
  obtain ⟨pre, old, post, h1, h2, h3, h4, _⟩ :=
    updateResult_frame (ResultManager.mk (fullLedger 2)) "r"
      (some { status := some "completed" }) 7 hex
  exact ⟨hex, by decide, pre, old, post, h1, h2, h3, h4⟩

/-! ## The success rate -/

theorem roundHalfEven_near (a b : Nat) (hb : 0 < b) :
    2 * (roundHalfEven a b * b) ≤ 2 * a + b ∧ 2 * a ≤ 2 * (roundHalfEven a b * b) + b := by
  have h1 := Nat.div_add_mod a b
  have h2 := Nat.mod_lt a hb
  unfold roundHalfEven
  simp only []
  generalize a / b = q at *
  generalize a % b = r at *
  split_ifs <;> constructor <;> nlinarith

theorem le_scaleExp (a b fuel k : Nat) : k ≤ scaleExp a b fuel k := by
  induction fuel generalizing k with
  | zero => exact Nat.le_refl k
  | succ fuel ih =>
    unfold scaleExp
    split
    · exact Nat.le_refl k
    · exact Nat.le_trans (Nat.le_succ k) (ih (k + 1))

theorem scaleExp_ge (a b L : Nat) (h : a * 2 ^ L < 2 ^ 52 * b) (fuel k : Nat)
    (hL : L ≤ k + fuel) : L ≤ scaleExp a b fuel k := by
  induction fuel generalizing k with
  | zero => exact hL
  | succ fuel ih =>
    unfold scaleExp
    split
    · rename_i htest
      by_contra hlt
      have hk : k ≤ L := by omega
      have : a * 2 ^ k ≤ a * 2 ^ L :=
        Nat.mul_le_mul_left a (Nat.pow_le_pow_right (by decide) hk)
      omega
    · exact ih (k + 1) (by omega)

theorem round_near (a b : Nat) (hb : 0 < b) :
    2 * ((Binary64.round a b).mant * b) ≤ 2 * (a * 2 ^ (Binary64.round a b).scale) + b ∧
    2 * (a * 2 ^ (Binary64.round a b).scale) ≤ 2 * ((Binary64.round a b).mant * b) + b := by
  unfold Binary64.round
  split
  · rename_i h0
    simp [h0]
  · exact roundHalfEven_near _ b hb

theorem round_scale (a b L : Nat) (ha : a ≠ 0) (h : a * 2 ^ L < 2 ^ 52 * b) (hL : L ≤ 1074) :
    2 ^ L ≤ 2 ^ (Binary64.round a b).scale := by
  unfold Binary64.round
  rw [if_neg ha]
  exact Nat.pow_le_pow_right (by decide) (scaleExp_ge a b L h 1074 0 (by omega))

theorem hundredths_near (x : Binary64) :
    2 * 2 ^ x.scale * x.hundredths ≤ 200 * x.mant + 2 ^ x.scale ∧
    200 * x.mant + 2 ^ x.scale < 2 * 2 ^ x.scale * x.hundredths + 2 * 2 ^ x.scale := by
  unfold Binary64.hundredths
  have hpos : 0 < 2 * 2 ^ x.scale := by positivity
  rw [pow_succ, Nat.mul_comm (2 ^ x.scale) 2]
  constructor
  · exact Nat.mul_div_le _ _
  · have := Nat.lt_mul_div_succ (200 * x.mant + 2 ^ x.scale) hpos
    rw [Nat.mul_add, Nat.mul_one] at this
    exact this

theorem nearest_of_steps (c t A B m1 m2 n : Nat) (ht2 : t ≤ 1000)
    (hA : 2 ^ 51 ≤ A) (hB : 2 ^ 45 ≤ B)
    (h1a : 2 * (m1 * t) ≤ 2 * (c * A) + t) (h1b : 2 * (c * A) ≤ 2 * (m1 * t) + t)
    (h2a : 2 * (m2 * A) ≤ 2 * (m1 * 100 * B) + A) (h2b : 2 * (m1 * 100 * B) ≤ 2 * (m2 * A) + A)
    (h3a : 2 * B * n ≤ 200 * m2 + B) (h3b : 200 * m2 + B < 2 * B * n + 2 * B) :
    2 * (n * t) ≤ 2 * (10000 * c) + t ∧ 2 * (10000 * c) ≤ 2 * (n * t) + t := by
  have hAB1 : 2 ^ 45 * A ≤ B * A := Nat.mul_le_mul_right A hB
  have hAB2 : 2 ^ 51 * B ≤ A * B := Nat.mul_le_mul_right B hA
  have hAt : t * A ≤ 1000 * A := Nat.mul_le_mul_right A ht2
  have hBt : t * B ≤ 1000 * B := Nat.mul_le_mul_right B ht2
  have hApos : 0 < A := lt_of_lt_of_le (by positivity) hA
  have hBpos : 0 < B := lt_of_lt_of_le (by positivity) hB
  constructor
  · by_contra hcon
    have hcon2 : 2 * (10000 * c) + t + 1 ≤ 2 * (n * t) := by omega
    have p1 := Nat.mul_le_mul_right (A * t) h3a
    have p2 := Nat.mul_le_mul_right (100 * t) h2a
    have p3 := Nat.mul_le_mul_right (10000 * B) h1a
    have p4 := Nat.mul_le_mul_right (A * B) hcon2
    nlinarith
  · by_contra hcon
    have hcon2 : 2 * (n * t) + t + 1 ≤ 2 * (10000 * c) := by omega
    have p1 := Nat.mul_le_mul_right (A * t) (Nat.le_of_lt h3b)
    have p2 := Nat.mul_le_mul_right (100 * t) h2b
    have p3 := Nat.mul_le_mul_right (10000 * B) h1b
    have p4 := Nat.mul_le_mul_right (A * B) hcon2
    nlinarith

/-! ### The text of `toFixed(2)` -/

theorem toDigitsCore_append (b : Nat) (fuel n : Nat) (ds : List Char) :
    Nat.toDigitsCore b fuel n ds = Nat.toDigitsCore b fuel n [] ++ ds := by
  induction fuel generalizing n ds with
  | zero => simp [Nat.toDigitsCore]
  | succ fuel ih =>
    simp only [Nat.toDigitsCore]
    split
    · simp
    · rw [ih (n / b) (Nat.digitChar (n % b) :: ds), ih (n / b) [Nat.digitChar (n % b)]]
      simp

theorem toDigitsCore_fuel (fuel n : Nat) (h : n < fuel) :
    Nat.toDigitsCore 10 fuel n [] = Nat.toDigitsCore 10 (n + 1) n [] := by
  induction n using Nat.strong_induction_on generalizing fuel with
  | _ n ih =>
    cases fuel with
    | zero => omega
    | succ fuel =>
      simp only [Nat.toDigitsCore]
      split
      · rfl
      · rename_i hne
        have hlt : n / 10 < n := Nat.div_lt_self (by omega) (by decide)
        rw [toDigitsCore_append 10 fuel, toDigitsCore_append 10 n,
          ih (n / 10) hlt fuel (by omega), ih (n / 10) hlt n hlt]

theorem toDigits_small (n : Nat) (h : n < 10) : Nat.toDigits 10 n = [Nat.digitChar n] := by
  have h0 : n / 10 = 0 := Nat.div_eq_of_lt h
  simp [Nat.toDigits, Nat.toDigitsCore, h0, Nat.mod_eq_of_lt h]

theorem toDigits_step (n : Nat) (h : 10 ≤ n) :
    Nat.toDigits 10 n = Nat.toDigits 10 (n / 10) ++ [Nat.digitChar (n % 10)] := by
  have hne : n / 10 ≠ 0 := by omega
  have hlt : n / 10 < n := Nat.div_lt_self (by omega) (by decide)
  have h1 : Nat.toDigits 10 n = Nat.toDigitsCore 10 n (n / 10) [Nat.digitChar (n % 10)] := by
    simp [Nat.toDigits, Nat.toDigitsCore, hne]
  rw [h1, toDigitsCore_append 10 n, toDigitsCore_fuel n (n / 10) hlt]
  rfl

theorem toDigits_ne_nil (n : Nat) : Nat.toDigits 10 n ≠ [] := by
  by_cases h : n < 10
  · rw [toDigits_small n h]
    exact List.cons_ne_nil _ _
  · rw [toDigits_step n (by omega)]
    simp

theorem fixedText_eq_twoDecimals (n : Nat) : fixedText n = twoDecimals n := by
  apply String.ext
  unfold fixedText twoDecimals
  simp only [Nat.repr, List.asString, String.data_append]
  by_cases h1 : n < 10
  · have h0 : n / 100 = 0 := Nat.div_eq_of_lt (by omega)
    have h2 : n / 10 % 10 = 0 := by omega
    have h3 : n % 10 = n := Nat.mod_eq_of_lt h1
    rw [toDigits_small n h1, h0, h2, h3]
    rfl
  · by_cases h2 : n < 100
    · have h0 : n / 100 = 0 := Nat.div_eq_of_lt h2
      have h3 : n / 10 % 10 = n / 10 := Nat.mod_eq_of_lt (by omega)
      rw [toDigits_step n (by omega), toDigits_small (n / 10) (by omega), h0, h3]
      rfl
    · have h3 : n / 10 / 10 = n / 100 := by omega
      have hne := toDigits_ne_nil (n / 100)
      rw [toDigits_step n (by omega), toDigits_step (n / 10) (by omega), h3]
      generalize Nat.toDigits 10 (n / 100) = ds at *
      cases ds with
      | nil => exact absurd rfl hne
      | cons d ds =>
        have hlen : ¬ ((d :: ds ++ [Nat.digitChar (n / 10 % 10)] ++ [Nat.digitChar (n % 10)]).length ≤ 2) := by
          simp
        simp only [hlen, if_false]
        have hl : (d :: ds ++ [Nat.digitChar (n / 10 % 10)] ++ [Nat.digitChar (n % 10)]).length - 2
            = (d :: ds).length := by simp
        rw [hl, List.append_assoc, List.take_left, List.drop_left]
        simp

/-! ### The number printed -/

/-- At a midpoint the multiplication takes the Number with the even significand:
`3 * ((2 ^ 52 + 3) / 4)` goes down and `3 * ((2 ^ 52 + 1) / 4)` goes up. -/
theorem mul_ties_to_even :
    Binary64.mul ⟨3, 0⟩ ⟨2 ^ 52 + 3, 2⟩ = ⟨3 * 2 ^ 51 + 4, 1⟩ ∧
    Binary64.mul ⟨3, 0⟩ ⟨2 ^ 52 + 1, 2⟩ = ⟨3 * 2 ^ 51 + 2, 1⟩ := by
  decide

/-- The integer printed by `((completed / total) * 100).toFixed(2)` is an integer nearest
to `10000 * completed / total`, for a ledger within its capacity. -/
theorem rate_near (c t : Nat) (ht : 0 < t) (ht2 : t ≤ 1000) (hc : c ≤ t) :
    2 * ((Binary64.mul (Binary64.div (.ofNat c) (.ofNat t)) (.ofNat 100)).hundredths * t)
      ≤ 2 * (10000 * c) + t ∧
    2 * (10000 * c)
      ≤ 2 * ((Binary64.mul (Binary64.div (.ofNat c) (.ofNat t)) (.ofNat 100)).hundredths * t)
        + t := by
  simp only [Binary64.div, Binary64.mul, Binary64.ofNat, pow_zero, Nat.mul_one, Nat.add_zero]
  by_cases hc0 : c = 0
  · subst hc0
    simp [Binary64.round, Binary64.hundredths]
  · have hcpos : 0 < c := Nat.pos_of_ne_zero hc0
    have h1 := round_near c t ht
    have hA : 2 ^ 51 ≤ 2 ^ (Binary64.round c t).scale :=
      round_scale c t 51 hc0 (by nlinarith) (by decide)
    generalize (Binary64.round c t).mant = m1 at *
    generalize 2 ^ (Binary64.round c t).scale = A at *
    have hApos : 0 < A := lt_of_lt_of_le (by positivity) hA
    have hcA : A ≤ c * A := Nat.le_mul_of_pos_left A hcpos
    have hm1 : m1 * 100 ≠ 0 := by
      intro h0
      have : m1 = 0 := by omega
      subst this
      omega
    have hm1le : m1 ≤ A := by
      by_contra hlt
      have h2 : (A + 1) * t ≤ m1 * t := Nat.mul_le_mul_right t (by omega)
      have h3 : c * A ≤ t * A := Nat.mul_le_mul_right A hc
      nlinarith
    have h2 := round_near (m1 * 100) A hApos
    have hB : 2 ^ 45 ≤ 2 ^ (Binary64.round (m1 * 100) A).scale :=
      round_scale (m1 * 100) A 45 hm1 (by nlinarith) (by decide)
    have h3 := hundredths_near (Binary64.round (m1 * 100) A)
    generalize (Binary64.round (m1 * 100) A).hundredths = n at *
    generalize (Binary64.round (m1 * 100) A).mant = m2 at *
    generalize 2 ^ (Binary64.round (m1 * 100) A).scale = B at *
    exact nearest_of_steps c t A B m1 m2 n ht2 hA hB h1.1 h1.2 h2.1 h2.2 h3.1 h3.2

/-- An integer nearest to `20000 * c / (2 * t)` is the one obtained by rounding upwards
from the midpoint, unless the fraction is a midpoint. -/
theorem nearest_unique (c t n : Nat) (ht : 0 < t)
    (h1 : 2 * (n * t) ≤ 2 * (10000 * c) + t) (h2 : 2 * (10000 * c) ≤ 2 * (n * t) + t)
    (hne : 20000 * c % (2 * t) ≠ t) : (20000 * c + t) / (2 * t) = n := by
  apply Nat.div_eq_of_lt_le
  · nlinarith
  · by_contra hcon
    apply hne
    have heq : 20000 * c = t + 2 * t * n := by nlinarith
    rw [heq, Nat.add_mul_mod_self_left]
    exact Nat.mod_eq_of_lt (by omega)

set_option maxRecDepth 8000 in
/-- C3, counterexample. A ledger of 160 records of which 23 are `completed`: the ratio is
14.375 % exactly, midway between 14.37 and 14.38, and the specification's two decimal
places of it are `14.38%`; `getStats` gives `14.37%`, because the quotient `23 / 160` and its
product by 100 are rounded in binary64 to a number just below 14.375 before `toFixed` reads
it. No other rule for the midpoint fits either: of 32 records with 1 `completed`, whose
ratio 3.125 % is again a midpoint, `getStats` gives `3.13%`. -/
theorem successRate_exact_counterexample :
    (getStats ⟨statusLedger (List.replicate 23 "completed" ++ List.replicate 137 "failed")⟩
        0).completed = 23 ∧
    (getStats ⟨statusLedger (List.replicate 23 "completed" ++ List.replicate 137 "failed")⟩
        0).total = 160 ∧
    2 * (10000 * 23) = (1437 + 1438) * 160 ∧
    percentText 23 160 = "14.38%" ∧
    (getStats ⟨statusLedger (List.replicate 23 "completed" ++ List.replicate 137 "failed")⟩
        0).successRate = "14.37%" ∧
    Binary64.mul (Binary64.div (.ofNat 23) (.ofNat 160)) (.ofNat 100)
      = { mant := 8092405580431359, scale := 49 } ∧
    8092405580431359 * 1000 < 14375 * 2 ^ 49 ∧
    2 * (10000 * 1) = (312 + 313) * 32 ∧
    (getStats ⟨statusLedger ("completed" :: List.replicate 31 "failed")⟩ 0).successRate
      = "3.13%" := by
  decide

/-- C3, amended. `getStats().successRate` is `"0%"` on the empty ledger. On a non-empty
ledger within its capacity it is `n / 100` written with two decimal places and followed by
`%`, for an integer `n` nearest to `10000 * completed / total`: the printed percentage
differs from the exact one by half a hundredth at most. Hence it is the exact percentage
rounded to the nearest hundredth whenever that percentage is not midway between two
hundredths; at a midpoint either neighbour can be printed. -/
theorem successRate_nearest (rm : ResultManager) (now : Nat) :
    (rm.results = [] → (getStats rm now).successRate = "0%") ∧
    (rm.results ≠ [] → rm.results.length ≤ maxResults →
      ∃ n, (getStats rm now).successRate = twoDecimals n ++ "%" ∧
        2 * (n * (getStats rm now).total) ≤ 2 * (10000 * (getStats rm now).completed)
          + (getStats rm now).total ∧
        2 * (10000 * (getStats rm now).completed) ≤ 2 * (n * (getStats rm now).total)
          + (getStats rm now).total) ∧
    (rm.results ≠ [] → rm.results.length ≤ maxResults →
      20000 * (getStats rm now).completed % (2 * (getStats rm now).total)
        ≠ (getStats rm now).total →
      (getStats rm now).successRate
        = percentText (getStats rm now).completed (getStats rm now).total) := by
  have hpos : rm.results ≠ [] → 0 < rm.results.length := fun h => List.length_pos.mpr h
  have hle : (rm.results.filter (fun r => r.status == "completed")).length ≤ rm.results.length :=
    List.length_filter_le _ _
  refine ⟨?_, ?_, ?_⟩
  · intro h
    simp [getStats, h]
  · intro h hcap
    have hnear := rate_near _ _ (hpos h) hcap hle
    refine ⟨_, ?_, hnear⟩
    simp [getStats, hpos h, toFixed2, fixedText_eq_twoDecimals]
  · intro h hcap hne
    have hnear := rate_near _ _ (hpos h) hcap hle
    have hn := nearest_unique _ _ _ (hpos h) hnear.1 hnear.2 hne
    simp only [getStats, percentText, hpos h, gt_iff_lt, if_true, toFixed2,
      fixedText_eq_twoDecimals]
    rw [hn]

/-- Witness of the amended C3: of three records two are `completed`; 66.666.. % is not a
midpoint, and `getStats` gives `66.67%`. -/
theorem successRate_nearest_witness :
    (ResultManager.mk (statusLedger ["completed", "failed", "completed"])).results ≠ [] ∧
    (ResultManager.mk (statusLedger ["completed", "failed", "completed"])).results.length
      ≤ maxResults ∧
    20000 * (getStats ⟨statusLedger ["completed", "failed", "completed"]⟩ 0).completed
        % (2 * (getStats ⟨statusLedger ["completed", "failed", "completed"]⟩ 0).total)
      ≠ (getStats ⟨statusLedger ["completed", "failed", "completed"]⟩ 0).total ∧
    (getStats ⟨statusLedger ["completed", "failed", "completed"]⟩ 0).successRate
      = percentText (getStats ⟨statusLedger ["completed", "failed", "completed"]⟩ 0).completed
          (getStats ⟨statusLedger ["completed", "failed", "completed"]⟩ 0).total ∧
    percentText 2 3 = "66.67%" ∧
    (getStats ⟨statusLedger ["completed", "failed", "completed"]⟩ 0).successRate = "66.67%" :=
  ⟨by decide, by decide, by decide,
   (successRate_nearest ⟨statusLedger ["completed", "failed", "completed"]⟩ 0).2.2
     (by decide) (by decide) (by decide),
   by decide, by decide⟩

end AnswerTips
